import Mathlib

/-!
# hub-spoke-go: instance loader and solver front end

A shallow embedding of `model/network/network.go` (the instance-file loader)
and `model/solver/solver.go` (the solver configuration and `Solve`/`Print`),
with the properties of the repository's specification stated over it.

Conventions of the embedding.

* A text line is a `List Char`, the text between two line feeds.  A
  `bufio.Scanner` with the split function `ScanLines` over a file is the list
  of lines it has not yet delivered.  `Scan` delivers the head, without a
  trailing carriage return, when it is shorter than the scanner's buffer
  limit `bufio.MaxScanTokenSize` (64 KiB, counted in bytes of UTF-8), and
  fails on a longer line and at the end of the input.
* `float64` is an abstract type `α`.  The standard-library operations on it
  that the loader uses (`strconv.ParseFloat`, the conversion `int(x)`, the zero
  value) and the limits of the Go run time the loader can meet (the number of
  nested calls of `nextLine` that fit on the goroutine stack, the largest
  lengths `make` accepts) are the fields of `Platform`; every general theorem
  holds for all of them.
* A Go function that can abort with a run-time panic or die of a stack
  overflow returns a result type with explicit alternatives for these.
* Slices are lists; `nil` and the empty slice are both `[]`.
-/

namespace network

/-! ## Strings -/

/-- A line of the input file. -/
abbrev Line := List Char

/-- Go's `unicode.IsSpace`: the white-space characters that `strings.TrimSpace`
removes. -/
def isSpace (c : Char) : Bool :=
  let n := c.toNat
  (9 ≤ n && n ≤ 13) || n == 32 || n == 0x85 || n == 0xA0 || n == 0x1680 ||
  (0x2000 ≤ n && n ≤ 0x200A) || n == 0x2028 || n == 0x2029 || n == 0x202F ||
  n == 0x205F || n == 0x3000

/-- Go's `strings.TrimSpace`: drop leading and trailing white space. -/
def TrimSpace (s : List Char) : List Char :=
  (s.dropWhile isSpace).rdropWhile isSpace

/-- Go's `strings.Split(s, " ")`: the pieces of `s` between single spaces
(`Split [] = [[]]`, and consecutive spaces give empty pieces). -/
def Split : List Char → List (List Char)
  | [] => [[]]
  | c :: cs =>
    if c = ' ' then [] :: Split cs
    else
      match Split cs with
      | [] => [[c]]
      | t :: ts => (c :: t) :: ts

/-! ## The scanner -/

/-- The number of bytes of a character in UTF-8, the encoding of Go strings. -/
def utf8Len (c : Char) : Nat :=
  if c.toNat < 0x80 then 1
  else if c.toNat < 0x800 then 2
  else if c.toNat < 0x10000 then 3
  else 4

/-- The length of a line in bytes. -/
def lineBytes (line : Line) : Nat := (line.map utf8Len).sum

/-- The constant `bufio.MaxScanTokenSize`, the size the buffer of a scanner
made by `bufio.NewScanner` can grow to.  A line of that many bytes or more
fills the buffer before its end is seen, and `Scan` fails. -/
def MaxScanTokenSize : Nat := 64 * 1024

/-- The function `dropCR` of package `bufio`: `ScanLines` delivers a line
without its trailing carriage return. -/
def dropCR (data : Line) : Line :=
  if data.getLast? = some '\r' then data.dropLast else data

/-! ## Data model -/

/-- The Go platform the loader runs on.  `ParseFloat` is
`strconv.ParseFloat(·, 64)` (its error, when there is one, is of type `ε`),
`toInt` is the conversion `int(x)`, `zero` the zero value `0.0`.
`stackFrames` is the number of nested calls of `nextLine` that fit on the
goroutine stack below a call from `FromFile`; `maxFloats` and `maxRows` are
the largest lengths that `make([]float64, n)` and `make([][]float64, n, n)`
accept: beyond them `make` panics with `len out of range`, and up to them
the allocation is taken to succeed. -/
structure Platform (α ε : Type) where
  ParseFloat : List Char → Except ε α
  toInt : α → Int
  zero : α
  stackFrames : Nat
  maxFloats : Nat
  maxRows : Nat

/-- The struct `NetworkData`. -/
structure NetworkData (α : Type) where
  Size : Int
  ScaleFactor : α
  InstallationCost : List α
  Distance : List (List α)
  Flow : List (List α)
  deriving DecidableEq

/-- The errors `FromFile` can return: a `strconv.ParseFloat` error passed on
unchanged, and the three `fmt.Errorf` messages (the last two carry the value
of `data.Size` they are formatted with). -/
inductive LoadError (ε : Type) where
  | parse (err : ε)
  | unexpectedEOF
  | distanceSize (size : Int)
  | flowDimension (size : Int)
  deriving DecidableEq

/-- The run-time panics the loader's statements can raise. -/
inductive Panic where
  | makeSliceLen
  | indexOutOfRange
  deriving DecidableEq

/-- What a call of `FromFile` ends in: `(data, nil)`, `(nil, err)`, a run-time
panic, or the death of the process when the recursion of `nextLine` outgrows
the stack. -/
inductive Outcome (α ε : Type) where
  | ok (data : NetworkData α)
  | error (err : LoadError ε)
  | panic (p : Panic)
  | stackOverflow
  deriving DecidableEq

/-- The state of one of the loops of `FromFile` after it has run: it went
through (`cont`), returned an error, panicked, or overflowed the stack. -/
inductive Step (ε β : Type) where
  | cont (val : β)
  | error (err : LoadError ε)
  | panic (p : Panic)
  | stackOverflow
  deriving DecidableEq

/-- What a call of a recursive function ends in: it returns a value, or the
recursion outgrows the stack. -/
inductive Call (β : Type) where
  | returns (val : β)
  | stackOverflow
  deriving DecidableEq

/-! ## parseLine -/

section
variable {α ε : Type}

/-- The `for _, value := range values` loop of `parseLine`, `numbers` being the
slice built so far: empty pieces are skipped, the first piece that does not
parse ends the loop with its error. -/
def parseLoop (F : Platform α ε) : List (List Char) → List α → Except ε (List α)
  | [], numbers => .ok numbers
  | value :: values, numbers =>
    if value.length = 0 then parseLoop F values numbers
    else
      match F.ParseFloat (TrimSpace value) with
      | .error err => .error err
      | .ok number => parseLoop F values (numbers ++ [number])

/-- The function `parseLine`: the triple `(ok, numbers, err)` it returns. -/
def parseLine (F : Platform α ε) (line : Line) : Bool × List α × Option ε :=
  match parseLoop F (Split (TrimSpace line)) [] with
  | .error err => (false, [], some err)
  | .ok numbers =>
    if numbers.length > 0 then (true, numbers, none) else (false, numbers, none)

/-! ## nextLine -/

/-- The function `nextLine`, called with room for `depth` further nested calls
on the stack: the triple it returns and the scanner after the call, or a stack
overflow.  `scanner.Scan()` fails on the empty input and on a line that does
not fit the buffer (the scanner then stays where it is); otherwise
`scanner.Text()` is the line without its carriage return. -/
def nextLineAt (F : Platform α ε) :
    Nat → List Line → Call ((Bool × List α × Option (LoadError ε)) × List Line)
  | _, [] => .returns ((false, [], some .unexpectedEOF), [])
  | depth, raw :: scanner =>
    if lineBytes raw < MaxScanTokenSize then
      match parseLine F (dropCR raw) with
      | (true, values, _) => .returns ((true, values, none), scanner)
      | (false, _, some err) => .returns ((false, [], some (.parse err)), scanner)
      | (false, _, none) =>
        match depth with
        | 0 => .stackOverflow
        | depth + 1 => nextLineAt F depth scanner
    else .returns ((false, [], some .unexpectedEOF), raw :: scanner)

/-- A call of `nextLine` from `FromFile`. -/
def nextLine (F : Platform α ε) (scanner : List Line) :
    Call ((Bool × List α × Option (LoadError ε)) × List Line) :=
  nextLineAt F F.stackFrames scanner

/-! ## FromFile -/

/-- The installation-cost loop (`for i := 0; i < data.Size; i++`), with `k`
iterations left to run, loop counter `i`, `cost = data.InstallationCost`. -/
def costLoop (F : Platform α ε) :
    Nat → Nat → List α → List Line → Step ε (List α) × List Line
  | 0, _, cost, sc => (.cont cost, sc)
  | k + 1, i, cost, sc =>
    match nextLine F sc with
    | .stackOverflow => (.stackOverflow, sc)
    | .returns ((true, line, _), sc') =>
      match line with
      | [] => (.panic .indexOutOfRange, sc')
      | x :: _ => costLoop F k (i + 1) (cost.set i x) sc'
    | .returns ((false, _, some err), sc') => (.error err, sc')
    | .returns ((false, _, none), sc') => costLoop F k (i + 1) cost sc'

/-- The distance loop and the flow loop, which differ only in the error they
raise on a row of the wrong length (`mismatch`): `k` iterations left, loop
counter `i`, `rows` the matrix being filled, `size = data.Size`. -/
def matrixLoop (F : Platform α ε) (size : Int) (mismatch : LoadError ε) :
    Nat → Nat → List (List α) → List Line → Step ε (List (List α)) × List Line
  | 0, _, rows, sc => (.cont rows, sc)
  | k + 1, i, rows, sc =>
    match nextLine F sc with
    | .stackOverflow => (.stackOverflow, sc)
    | .returns ((true, line, _), sc') =>
      if (line.length : Int) ≠ size then (.error mismatch, sc')
      else matrixLoop F size mismatch k (i + 1) (rows.set i line) sc'
    | .returns ((false, _, some err), sc') => (.error err, sc')
    | .returns ((false, _, none), sc') => matrixLoop F size mismatch k (i + 1) rows sc'

/-- The first statement of `FromFile` after the scanner is set up: read
`data.Size` (which keeps its zero value when `nextLine` gives neither a line
nor an error). -/
def readSize (F : Platform α ε) (sc : List Line) : Step ε Int × List Line :=
  match nextLine F sc with
  | .stackOverflow => (.stackOverflow, sc)
  | .returns ((true, line, _), sc') =>
    match line with
    | [] => (.panic .indexOutOfRange, sc')
    | x :: _ => (.cont (F.toInt x), sc')
  | .returns ((false, _, some err), sc') => (.error err, sc')
  | .returns ((false, _, none), sc') => (.cont 0, sc')

/-- The second statement: read `data.ScaleFactor`. -/
def readScaleFactor (F : Platform α ε) (sc : List Line) : Step ε α × List Line :=
  match nextLine F sc with
  | .stackOverflow => (.stackOverflow, sc)
  | .returns ((true, line, _), sc') =>
    match line with
    | [] => (.panic .indexOutOfRange, sc')
    | x :: _ => (.cont x, sc')
  | .returns ((false, _, some err), sc') => (.error err, sc')
  | .returns ((false, _, none), sc') => (.cont F.zero, sc')

/-- The body of `FromFile` from the creation of the scanner on, run on the
lines of the opened file: the outcome and the scanner state it ends with.
Each `make` panics on a negative length and on one beyond what it accepts. -/
def scanFile (F : Platform α ε) (sc : List Line) : Outcome α ε × List Line :=
  match readSize F sc with
  | (.error err, sc1) => (.error err, sc1)
  | (.panic p, sc1) => (.panic p, sc1)
  | (.stackOverflow, sc1) => (.stackOverflow, sc1)
  | (.cont size, sc1) =>
    match readScaleFactor F sc1 with
    | (.error err, sc2) => (.error err, sc2)
    | (.panic p, sc2) => (.panic p, sc2)
    | (.stackOverflow, sc2) => (.stackOverflow, sc2)
    | (.cont scale, sc2) =>
      if size < 0 ∨ F.maxFloats < size.toNat then (.panic .makeSliceLen, sc2)
      else
        match costLoop F size.toNat 0 (List.replicate size.toNat F.zero) sc2 with
        | (.error err, sc3) => (.error err, sc3)
        | (.panic p, sc3) => (.panic p, sc3)
        | (.stackOverflow, sc3) => (.stackOverflow, sc3)
        | (.cont cost, sc3) =>
          if F.maxRows < size.toNat then (.panic .makeSliceLen, sc3)
          else
            match matrixLoop F size (.distanceSize size) size.toNat 0
                (List.replicate size.toNat []) sc3 with
            | (.error err, sc4) => (.error err, sc4)
            | (.panic p, sc4) => (.panic p, sc4)
            | (.stackOverflow, sc4) => (.stackOverflow, sc4)
            | (.cont distance, sc4) =>
              if F.maxRows < size.toNat then (.panic .makeSliceLen, sc4)
              else
                match matrixLoop F size (.flowDimension size) size.toNat 0
                    (List.replicate size.toNat []) sc4 with
                | (.error err, sc5) => (.error err, sc5)
                | (.panic p, sc5) => (.panic p, sc5)
                | (.stackOverflow, sc5) => (.stackOverflow, sc5)
                | (.cont flow, sc5) =>
                  (.ok { Size := size, ScaleFactor := scale, InstallationCost := cost,
                         Distance := distance, Flow := flow }, sc5)

/-- The function `FromFile`, on a file that opens and whose lines are `lines`
(a file that cannot be opened makes `FromFile` return the error of `os.Open`
before anything is read). -/
def FromFile (F : Platform α ε) (lines : List Line) : Outcome α ε :=
  (scanFile F lines).1

end

/-! ## A concrete platform for examples -/

/-- The value of a string of decimal digits, `none` when a character is not
a digit or the string is empty. -/
def digitsValue : List Char → Option Nat
  | [] => none
  | cs => cs.foldl (fun acc c =>
      match acc with
      | none => none
      | some n => if c.isDigit then some (10 * n + (c.toNat - 48)) else none) (some 0)

/-- The part of `strconv.ParseFloat` used in the examples: an optionally signed
string of decimal digits parses to that integer, anything else is reported as
a syntax error carrying the text. -/
def parseDecimal : List Char → Except (List Char) Int
  | '-' :: cs =>
    match digitsValue cs with
    | some n => .ok (-(n : Int))
    | none => .error ('-' :: cs)
  | cs =>
    match digitsValue cs with
    | some n => .ok (n : Int)
    | none => .error cs

/-- Integer-valued floats (parsing as in `parseDecimal`, `int(x) = x`) on a
64-bit platform: `make` accepts up to `2^48` bytes, the limit of the
allocator, that is `2^48 / 8` floats and `2^48 / 24` slice headers, and the
stack is taken to hold a million nested calls of `nextLine`. -/
def intOps : Platform Int (List Char) where
  ParseFloat := parseDecimal
  toInt := fun x => x
  zero := 0
  stackFrames := 1000000
  maxFloats := 2 ^ 48 / 8
  maxRows := 2 ^ 48 / 24

end network
/-! ## Notions used in the statements -/

namespace network

section
variable {α ε : Type}

/-- A line is blank when it is empty or holds white space only. -/
def blankLine (line : Line) : Bool := line.all isSpace

/-- The pieces of a line that `parseLine` tries to parse: the non-empty
space-separated pieces of the trimmed line. -/
def tokens (line : Line) : List (List Char) :=
  (Split (TrimSpace line)).filter (fun value => value.length ≠ 0)

/-- A token is a valid float when `parseLine` can parse it. -/
def validFloat (F : Platform α ε) (value : List Char) : Bool :=
  match F.ParseFloat (TrimSpace value) with
  | .ok _ => true
  | .error _ => false

/-- The lines of an input that are not blank. -/
def nonBlank (lines : List Line) : List Line :=
  lines.filter (fun line => !blankLine line)

/-- The values `parseLine` returns for a line. -/
def values (F : Platform α ε) (line : Line) : List α := (parseLine F line).2.1

/-- The parsed value of a token, when it is a valid float. -/
def tokenValue (F : Platform α ε) (value : List Char) : Option α :=
  match F.ParseFloat (TrimSpace value) with
  | .ok number => some number
  | .error _ => none

/-- The values a line holds: the parsed values of its tokens, in the order
of appearance. -/
def parsedValues (F : Platform α ε) (line : Line) : List α :=
  (tokens line).filterMap (tokenValue F)

/-- A run that takes the scanner from `sc` to `sc'` has consumed the lines
`pre` with `sc = pre ++ sc'`; `Consumed F sc sc' P` says that `P` holds of the
`parseLine` error of every consumed line that has one. -/
def Consumed (F : Platform α ε) (sc sc' : List Line) (P : ε → Prop) : Prop :=
  ∃ pre, sc = pre ++ sc' ∧ ∀ line ∈ pre, ∀ err, (parseLine F line).2.2 = some err → P err

/-- The relation `InsertBlank lines lines'`: the input `lines'` is `lines` with
blank lines inserted, any number of them at any positions. -/
inductive InsertBlank : List Line → List Line → Prop where
  | done : InsertBlank [] []
  | keep (line : Line) {xs ys : List Line} :
      InsertBlank xs ys → InsertBlank (line :: xs) (line :: ys)
  | blank (b : Line) {xs ys : List Line} :
      blankLine b = true → InsertBlank xs ys → InsertBlank xs (b :: ys)

/-- A line is value-bearing when `parseLine` accepts it (`ok = true`). -/
def valueBearing (F : Platform α ε) (line : Line) : Bool := (parseLine F line).1

/-- The number of value-bearing lines of an input. -/
def valueLines (F : Platform α ε) (lines : List Line) : Nat :=
  (lines.filter (valueBearing F)).length

/-- The size an input declares: `int(x)` for the first value `x` of its first
value-bearing line. -/
def declaredSize (F : Platform α ε) (lines : List Line) : Option Int :=
  match lines.filter (valueBearing F) with
  | [] => none
  | line :: _ => (values F line).head?.map F.toInt

/-- Two scanner states `sc` and `sc'` that are equal, or that differ in one
line only, `l` in `sc` and `l'` in `sc'`, followed by `post` in both and
with fewer than `c` value-bearing lines in front of it. -/
def ReplacedAhead (F : Platform α ε) (l l' : Line) (post : List Line) (c : Nat)
    (sc sc' : List Line) : Prop :=
  sc = sc' ∨ ∃ p, sc = p ++ l :: post ∧ sc' = p ++ l' :: post ∧ valueLines F p < c

/-- The scanner can deliver a line when it is shorter than its buffer limit. -/
def deliverable (line : Line) : Bool := decide (lineBytes line < MaxScanTokenSize)

/-- Every blank line of the input is deliverable and comes after fewer than
`d` blank lines in a row, `k` blank lines being counted in front of the
input: no more than `d` blank lines follow one another. -/
def blanksWithin (d : Nat) : Nat → List Line → Bool
  | _, [] => true
  | k, line :: lines =>
    if blankLine line then deliverable line && decide (k < d) && blanksWithin d (k + 1) lines
    else blanksWithin d 0 lines

/-- An input is within the limits of the platform when the scanner can deliver
every line of it and no more blank lines follow one another than nested
calls of `nextLine` fit on the stack. -/
def withinLimits (F : Platform α ε) (lines : List Line) : Bool :=
  lines.all deliverable && blanksWithin F.stackFrames 0 lines

/-- A line the loader reads without trouble: the scanner can deliver it, it is
not blank, and all its tokens are valid (`parseLine` returns no error). -/
def Good (F : Platform α ε) (line : Line) : Prop :=
  deliverable line = true ∧ blankLine line = false ∧ (parseLine F line).2.2 = none

end

/-! ## Sample inputs -/

/-- A complete instance file of size 2, with a blank line and stray spaces. -/
def sampleLines : List Line :=
  ["2".toList, "1".toList, "".toList, "5".toList, "6".toList, "0 1".toList,
    " 1  0 ".toList, "0 3".toList, "3 0".toList]

/-- The instance `sampleLines` describes. -/
def sampleData : NetworkData Int :=
  ⟨2, 1, [5, 6], [[0, 1], [1, 0]], [[0, 3], [3, 0]]⟩

/-- An instance file of size 2 whose second distance row holds three values. -/
def mismatchLines : List Line :=
  ["2".toList, "1".toList, "5".toList, "6".toList, "0 1".toList, "1 0 7".toList,
    "0 3".toList, "3 0".toList]

/-- An instance file whose third line has a malformed token. -/
def malformedLines : List Line :=
  ["1".toList, "1".toList, "5 x".toList, "0".toList, "0".toList]

/-- An instance file that declares size 0. -/
def zeroSizeLines : List Line := ["0".toList, "1".toList]

/-- An instance file that declares size -1. -/
def negativeSizeLines : List Line := ["-1".toList, "1".toList]

/-- An instance file of size 2 that ends inside the distance matrix, on a row
of three values. -/
def truncatedMismatchLines : List Line :=
  ["2".toList, "1".toList, "5".toList, "6".toList, "0 1 7".toList]

/-- An instance file of size 2 that ends on a line with a malformed token. -/
def truncatedMalformedLines : List Line :=
  ["2".toList, "1".toList, "5 x".toList]

/-- An instance file of size 2 that ends after its first flow row. -/
def truncatedLines : List Line :=
  ["2".toList, "1".toList, "5".toList, "".toList, "6".toList, "0 1".toList, "1 0".toList,
    "0 3".toList]

/-- A complete instance file of size 1. -/
def unitLines : List Line :=
  ["1".toList, "1".toList, "5".toList, "0".toList, "0".toList]

/-- The instance `unitLines` describes. -/
def unitData : NetworkData Int := ⟨1, 1, [5], [[0]], [[0]]⟩

/-- The file `unitLines` with seventy thousand spaces in front of the value of
its distance row. -/
def longRowLines : List Line :=
  ["1".toList, "1".toList, "5".toList, List.replicate 70000 ' ' ++ "0".toList, "0".toList]

/-- The file `unitLines` with a line of seventy thousand spaces put in front. -/
def longBlankLines : List Line :=
  List.replicate 70000 ' ' :: unitLines

/-- The file `unitLines` with its cost line `5` replaced by `5 8` and
seventy thousand spaces. -/
def longCostLines : List Line :=
  ["1".toList, "1".toList, "5 8".toList ++ List.replicate 70000 ' ', "0".toList, "0".toList]

/-- An instance file that declares size `10^18`. -/
def hugeSizeLines : List Line := ["1000000000000000000".toList, "1".toList]

end network

/-! # The solver front end (`model/solver/solver.go`) -/

namespace solver

open network (NetworkData)

/-- The four perturbation functions of package `neighborhoods` that `Solve`
hands to the VNS engine. -/
inductive Neighborhood where
  | ShiftPerturbation
  | RemoveHubPerturbation
  | AddHubPerturbation
  | SwapFunctionPerturbation
  deriving DecidableEq

/-- The functions of the packages `heuristic` and `solution` that the solver
calls; their code is not part of the sources at hand, so they are parameters.
`S` is the struct `solution.Solution`.  `NewSolution data` is the solution
`heuristic.NewSolution(data)` points to, `VNS data start neighborhoods` is
what the solution `start` has become when
`heuristic.VNS(data, start, neighborhoods...)` returns, and
`GetCost solution data` is `solution.GetCost(data)`. -/
structure Heuristic (S α : Type) where
  NewSolution : Option (NetworkData α) → S
  VNS : Option (NetworkData α) → S → List Neighborhood → S
  GetCost : S → Option (NetworkData α) → α

/-- The `float64` operations the solver uses: the constants `0` and `100`,
subtraction, multiplication, division and the comparison `x > y`. -/
structure Float64Arith (α : Type) where
  zero : α
  hundred : α
  sub : α → α → α
  mul : α → α → α
  div : α → α → α
  gt : α → α → Bool

/-- The constant `defaultAsyncTasks`. -/
def defaultAsyncTasks : Int := 1

/-- The struct `Solver`.  `Data` is the loaded instance (the struct the loader
declares as `NetworkData`); the three pointer fields are `none` when `nil`; a
`time.Time` is a clock reading in nanoseconds. -/
structure Solver (S α : Type) where
  MaxAsyncTasks : Int
  Data : Option (NetworkData α)
  BestSolution : Option S
  TargetCost : Option α
  StartTime : Int
  EndTime : Int

/-- A line written by `Print`: the rule `--------------`, the elapsed time
`EndTime - StartTime`, the cost (`FO`), the hubs of the solution, the gap. -/
inductive PrintLine (S α : Type) where
  | rule
  | time (elapsed : Int)
  | fo (cost : α)
  | hubs (solution : S)
  | gap (value : α)
  deriving DecidableEq

/-- What a call of `Print` does: it writes its lines and returns `nil`, or it
dereferences the `nil` pointer `s.BestSolution`. -/
inductive PrintResult (S α : Type) where
  | printed (lines : List (PrintLine S α))
  | nilDereference
  deriving DecidableEq

/-- The method `Solver.Print`. -/
def Print {S α : Type} (H : Heuristic S α) (A : Float64Arith α) (s : Solver S α) :
    PrintResult S α :=
  match s.BestSolution with
  | none => .nilDereference
  | some best =>
    .printed ([.rule, .time (s.EndTime - s.StartTime), .fo (H.GetCost best s.Data),
        .hubs best] ++
      (match s.TargetCost with
        | some target =>
          [.gap (A.mul (A.div (A.sub (H.GetCost best s.Data) target) target) A.hundred)]
        | none => []) ++
      [.rule])

/-- The method `Solver.initializeSolution`. -/
def initializeSolution {S α : Type} (H : Heuristic S α) (s : Solver S α) : Solver S α :=
  { s with BestSolution := some (H.NewSolution s.Data) }

/-- What `Solve` does, in order: the log message, the calls of
`heuristic.NewSolution` and `heuristic.VNS` with their arguments, the call of
`Print` with its result. -/
inductive Event (S α : Type) where
  | logInfo (msg : String)
  | newSolution (data : Option (NetworkData α))
  | vns (data : Option (NetworkData α)) (start : Option S) (neighborhoods : List Neighborhood)
  | print (result : PrintResult S α)

/-- How a call of `Solve` ends: it returns an error value (`none` for `nil`),
or it panics. -/
inductive Return where
  | returned (err : Option String)
  | panicked
  deriving DecidableEq

/-- A run of `Solve`: the solver afterwards, what was done, how it ended. -/
structure SolveResult (S α : Type) where
  solver : Solver S α
  trace : List (Event S α)
  ret : Return

/-- The neighborhoods `Solve` passes to `heuristic.VNS`, in its order. -/
def solveNeighborhoods : List Neighborhood :=
  [.ShiftPerturbation, .RemoveHubPerturbation, .AddHubPerturbation, .SwapFunctionPerturbation]

/-- The method `Solver.Solve`; `now0` and `now1` are the two readings of
`time.Now()`. -/
def Solve {S α : Type} (H : Heuristic S α) (A : Float64Arith α) (s : Solver S α)
    (now0 now1 : Int) : SolveResult S α :=
  let s1 := { s with StartTime := now0 }
  let s2 := initializeSolution H s1
  let s3 := { s2 with
    BestSolution := s2.BestSolution.map (fun best => H.VNS s2.Data best solveNeighborhoods) }
  let s4 := { s3 with EndTime := now1 }
  { solver := s4
    trace := [.logInfo "Starting solver...", .newSolution s1.Data,
      .vns s2.Data s2.BestSolution solveNeighborhoods, .print (Print H A s4)]
    ret := match Print H A s4 with
      | .printed _ => .returned none
      | .nilDereference => .panicked }

/-- The type `OptFunc`. -/
abbrev OptFunc (S α : Type) := Solver S α → Solver S α

/-- The function `New`. -/
def New {S α : Type} (options : List (OptFunc S α)) : Solver S α :=
  options.foldl (fun solver opt => opt solver)
    { MaxAsyncTasks := defaultAsyncTasks, Data := none, BestSolution := none,
      TargetCost := none, StartTime := 0, EndTime := 0 }

/-- The option `WithNetworkData`. -/
def WithNetworkData {S α : Type} (data : Option (NetworkData α)) : OptFunc S α :=
  fun solver => { solver with Data := data }

/-- The option `WithMaxAsyncTasks`. -/
def WithMaxAsyncTasks {S α : Type} (limit : Int) : OptFunc S α :=
  fun solver => { solver with MaxAsyncTasks := limit }

/-- The option `WithTarget`. -/
def WithTarget {S α : Type} (A : Float64Arith α) (targetValue : α) : OptFunc S α :=
  fun solver =>
    if A.gt targetValue A.zero then { solver with TargetCost := some targetValue }
    else solver

/-- The option `WithInitialSolution`. -/
def WithInitialSolution {S α : Type} (solution : Option S) : OptFunc S α :=
  fun solver => { solver with BestSolution := solution }

/-- The calls of `heuristic.NewSolution` in a trace. -/
def constructionRuns {S α : Type} (trace : List (Event S α)) : Nat :=
  trace.countP (fun ev => match ev with | .newSolution _ => true | _ => false)

/-- The calls of `heuristic.VNS` in a trace. -/
def vnsRuns {S α : Type} (trace : List (Event S α)) : Nat :=
  trace.countP (fun ev => match ev with | .vns _ _ _ => true | _ => false)

/-- The solver `New` starts from: `MaxAsyncTasks = 1`, no instance, no initial
solution, no target cost. -/
def defaultSolver {S α : Type} : Solver S α :=
  { MaxAsyncTasks := 1, Data := none, BestSolution := none, TargetCost := none,
    StartTime := 0, EndTime := 0 }

/-- Applying a list of options to a solver from left to right: the first
option first, the others to what it gives. -/
def applyOptions {S α : Type} : Solver S α → List (OptFunc S α) → Solver S α
  | solver, [] => solver
  | solver, opt :: options => applyOptions (opt solver) options

/-! ## Concrete parameters for examples -/

/-- Integer arithmetic in the place of `float64`. -/
def intArith : Float64Arith Int where
  zero := 0
  hundred := 100
  sub := fun x y => x - y
  mul := fun x y => x * y
  div := fun x y => x / y
  gt := fun x y => decide (x > y)

/-- Stand-ins for the heuristics, on solutions given by their list of hubs:
construction opens every node, the search returns its start, the cost is the
sum of the installation costs of the hubs. -/
def listHeuristic : Heuristic (List Nat) Int where
  NewSolution := fun data =>
    match data with
    | some d => List.range d.Size.toNat
    | none => []
  VNS := fun _ start _ => start
  GetCost := fun solution data =>
    match data with
    | some d => (solution.map (fun h => d.InstallationCost.getD h 0)).sum
    | none => 0

/-- An instance with no node. -/
def emptyInstance : NetworkData Int := ⟨0, 1, [], [], []⟩

/-- The instance of `sampleLines`. -/
def sampleInstance : NetworkData Int := network.sampleData

/-- A solver configured with the sample instance, the target cost 40 and the
all-hubs solution. -/
def sampleSolver : Solver (List Nat) Int :=
  New [WithNetworkData (some sampleInstance), WithTarget intArith 40,
    WithInitialSolution (some [0, 1])]

end solver

/-! # Properties of the loader -/

namespace network

section
variable {α ε : Type}

/-! ## Strings -/

theorem TrimSpace_blank {line : Line} (h : blankLine line = true) : TrimSpace line = [] := by
  have h1 : line.dropWhile isSpace = [] := by
    rw [List.dropWhile_eq_nil_iff]
    simpa [blankLine] using h
  simp [TrimSpace, h1, List.rdropWhile]

theorem TrimSpace_head {line : Line} (h : blankLine line = false) :
    ∃ c rest, TrimSpace line = c :: rest ∧ isSpace c = false := by
  have hne : line.dropWhile isSpace ≠ [] := by
    intro h0
    rw [List.dropWhile_eq_nil_iff] at h0
    have : blankLine line = true := by simpa [blankLine] using h0
    simp [this] at h
  obtain ⟨c, rest, hcr⟩ := List.exists_cons_of_ne_nil hne
  have hc : isSpace c = false := by
    have := List.head_dropWhile_not isSpace line hne
    simpa [hcr] using this
  have hpre : TrimSpace line <+: c :: rest := by
    unfold TrimSpace
    rw [hcr]
    exact List.rdropWhile_prefix isSpace (c :: rest)
  have hnil : TrimSpace line ≠ [] := by
    unfold TrimSpace
    rw [hcr]
    intro h0
    rw [List.rdropWhile_eq_nil_iff] at h0
    have := h0 c (by simp)
    simp [hc] at this
  obtain ⟨c', rest', hT⟩ := List.exists_cons_of_ne_nil hnil
  rw [hT] at hpre
  obtain ⟨t, ht⟩ := hpre
  simp at ht
  exact ⟨c, rest', by rw [hT, ht.1], hc⟩

theorem isSpace_space : isSpace ' ' = true := by decide

theorem Split_ne_nil (s : List Char) : Split s ≠ [] := by
  cases s with
  | nil => simp [Split]
  | cons c cs =>
    unfold Split
    split
    · simp
    · split <;> simp

theorem Split_cons_nonspace {c : Char} (cs : List Char) (hc : c ≠ ' ') :
    ∃ t ts, Split (c :: cs) = (c :: t) :: ts := by
  unfold Split
  rw [if_neg hc]
  split
  · exact ⟨[], [], rfl⟩
  · exact ⟨_, _, rfl⟩

/-! ## parseLine -/

theorem parseLoop_length (F : Platform α ε) :
    ∀ (values : List (List Char)) (acc numbers : List α),
      parseLoop F values acc = .ok numbers → acc.length ≤ numbers.length := by
  intro values
  induction values with
  | nil =>
    intro acc numbers h
    simp [parseLoop] at h
    simp [h]
  | cons value values ih =>
    intro acc numbers h
    unfold parseLoop at h
    split at h
    · exact ih _ _ h
    · split at h
      · exact absurd h (by simp)
      · have := ih _ _ h
        simp at this
        omega

theorem parseLoop_error_iff (F : Platform α ε) :
    ∀ (values : List (List Char)) (acc : List α),
      (∃ err, parseLoop F values acc = .error err) ↔
        ∃ value ∈ values, value.length ≠ 0 ∧ validFloat F value = false := by
  intro values
  induction values with
  | nil => intro acc; simp [parseLoop]
  | cons value values ih =>
    intro acc
    unfold parseLoop
    by_cases hlen : value.length = 0
    · rw [if_pos hlen, ih]
      constructor
      · rintro ⟨v, hv, h1, h2⟩
        exact ⟨v, List.mem_cons_of_mem _ hv, h1, h2⟩
      · rintro ⟨v, hv, h1, h2⟩
        rcases List.mem_cons.1 hv with rfl | hv
        · exact absurd hlen h1
        · exact ⟨v, hv, h1, h2⟩
    · rw [if_neg hlen]
      cases hp : F.ParseFloat (TrimSpace value) with
      | error err =>
        constructor
        · intro _
          exact ⟨value, List.mem_cons_self _ _, hlen, by simp [validFloat, hp]⟩
        · intro _
          exact ⟨err, rfl⟩
      | ok number =>
        simp only
        rw [ih]
        constructor
        · rintro ⟨v, hv, h1, h2⟩
          exact ⟨v, List.mem_cons_of_mem _ hv, h1, h2⟩
        · rintro ⟨v, hv, h1, h2⟩
          rcases List.mem_cons.1 hv with rfl | hv
          · simp [validFloat, hp] at h2
          · exact ⟨v, hv, h1, h2⟩

/-- The three shapes of a `parseLine` result. -/
theorem parseLine_shape (F : Platform α ε) (line : Line) :
    (∃ x xs, parseLine F line = (true, x :: xs, none)) ∨
    (∃ err, parseLine F line = (false, [], some err)) ∨
    parseLine F line = (false, [], none) := by
  unfold parseLine
  cases h : parseLoop F (Split (TrimSpace line)) [] with
  | error err => exact Or.inr (Or.inl ⟨err, rfl⟩)
  | ok numbers =>
    cases numbers with
    | nil => exact Or.inr (Or.inr (by simp))
    | cons x xs => exact Or.inl ⟨x, xs, by simp⟩

theorem parseLine_blank (F : Platform α ε) {line : Line} (h : blankLine line = true) :
    parseLine F line = (false, [], none) := by
  simp [parseLine, TrimSpace_blank h, Split, parseLoop]

theorem parseLine_nonblank (F : Platform α ε) {line : Line} (h : blankLine line = false) :
    parseLine F line ≠ (false, [], none) := by
  obtain ⟨c, rest, hT, hc⟩ := TrimSpace_head h
  have hne : c ≠ ' ' := by
    rintro rfl
    rw [isSpace_space] at hc
    exact absurd hc (by simp)
  obtain ⟨t, ts, hS⟩ := Split_cons_nonspace rest hne
  unfold parseLine
  rw [hT, hS]
  unfold parseLoop
  rw [if_neg (by simp)]
  cases hp : F.ParseFloat (TrimSpace (c :: t)) with
  | error err => simp
  | ok number =>
    simp only
    cases hl : parseLoop F ts ([] ++ [number]) with
    | error err => simp
    | ok numbers =>
      have := parseLoop_length F _ _ _ hl
      simp at this
      have hpos : numbers.length > 0 := by omega
      simp [hpos]

/-! ## Tokens and values of a line -/

theorem parseLoop_valid (F : Platform α ε) :
    ∀ (vals : List (List Char)) (acc : List α),
      (∀ value ∈ vals, value.length ≠ 0 → validFloat F value = true) →
      parseLoop F vals acc =
        .ok (acc ++ (vals.filter (fun value => value.length ≠ 0)).filterMap (tokenValue F)) := by
  intro vals
  induction vals with
  | nil => intro acc _; simp [parseLoop]
  | cons value vals ih =>
    intro acc hall
    have hrest : ∀ v ∈ vals, v.length ≠ 0 → validFloat F v = true :=
      fun v hv => hall v (List.mem_cons_of_mem _ hv)
    unfold parseLoop
    by_cases hlen : value.length = 0
    · have hf : List.filter (fun v : List Char => decide (v.length ≠ 0)) (value :: vals) =
          List.filter (fun v : List Char => decide (v.length ≠ 0)) vals :=
        List.filter_cons_of_neg (by simpa using hlen)
      rw [if_pos hlen, ih acc hrest, hf]
    · rw [if_neg hlen]
      have hf : List.filter (fun v : List Char => decide (v.length ≠ 0)) (value :: vals) =
          value :: List.filter (fun v : List Char => decide (v.length ≠ 0)) vals :=
        List.filter_cons_of_pos (by simpa using hlen)
      have hv := hall value (List.mem_cons_self _ _) hlen
      cases hp : F.ParseFloat (TrimSpace value) with
      | error err => simp [validFloat, hp] at hv
      | ok number =>
        simp only
        rw [ih _ hrest, hf]
        simp [tokenValue, hp]

theorem parseLine_error_iff (F : Platform α ε) (line : Line) :
    (∃ err, parseLine F line = (false, [], some err)) ↔
      ∃ value ∈ tokens line, validFloat F value = false := by
  have key := parseLoop_error_iff F (Split (TrimSpace line)) []
  have htok : (∃ value ∈ tokens line, validFloat F value = false) ↔
      ∃ value ∈ Split (TrimSpace line), value.length ≠ 0 ∧ validFloat F value = false := by
    simp [tokens, and_assoc]
  rw [htok, ← key]
  unfold parseLine
  cases h : parseLoop F (Split (TrimSpace line)) [] with
  | error err => simp
  | ok numbers =>
    by_cases hpos : numbers.length > 0
    · simp [hpos]
    · simp [hpos]

theorem parseLine_error_shape (F : Platform α ε) {line : Line} {err : ε}
    (h : (parseLine F line).2.2 = some err) : parseLine F line = (false, [], some err) := by
  rcases parseLine_shape F line with ⟨x, xs, h'⟩ | ⟨e, h'⟩ | h'
  · rw [h'] at h; simp at h
  · rw [h'] at h
    simp only [Option.some.injEq] at h
    rw [h', h]
  · rw [h'] at h; simp at h

theorem parseLine_valid_iff (F : Platform α ε) (line : Line) :
    (parseLine F line).2.2 = none ↔ ∀ value ∈ tokens line, validFloat F value = true := by
  constructor
  · intro h value hv
    by_contra hc
    have hf : validFloat F value = false := by simpa using hc
    obtain ⟨err, he⟩ := (parseLine_error_iff F line).2 ⟨value, hv, hf⟩
    rw [he] at h
    simp at h
  · intro h
    cases hp : (parseLine F line).2.2 with
    | none => rfl
    | some err =>
      obtain ⟨value, hv, hf⟩ := (parseLine_error_iff F line).1 ⟨err, parseLine_error_shape F hp⟩
      rw [h value hv] at hf
      simp at hf

theorem values_eq_parsedValues (F : Platform α ε) {line : Line}
    (h : ∀ value ∈ tokens line, validFloat F value = true) :
    values F line = parsedValues F line := by
  have hl := parseLoop_valid F (Split (TrimSpace line)) [] (by
    intro value hv hlen
    exact h value (by
      simp only [tokens, List.mem_filter]
      exact ⟨hv, by simpa using hlen⟩))
  unfold values parseLine
  rw [hl]
  simp only [List.nil_append]
  by_cases hpos : ((List.filter (fun value => decide (value.length ≠ 0))
      (Split (TrimSpace line))).filterMap (tokenValue F)).length > 0
  · rw [if_pos hpos]
    rfl
  · rw [if_neg hpos]
    rfl

/-! ## Spaces -/

theorem dropWhile_append_of_all {β : Type} (q : β → Bool) :
    ∀ (xs ys : List β), (∀ x ∈ xs, q x = true) → (xs ++ ys).dropWhile q = ys.dropWhile q := by
  intro xs
  induction xs with
  | nil => intro ys _; rfl
  | cons x xs ih =>
    intro ys h
    rw [List.cons_append, List.dropWhile_cons_of_pos (h x (by simp))]
    exact ih ys (fun y hy => h y (by simp [hy]))

theorem dropWhile_append_of_ne_nil {β : Type} (q : β → Bool) (xs ys : List β)
    (h : xs.dropWhile q ≠ []) : (xs ++ ys).dropWhile q = xs.dropWhile q ++ ys := by
  rw [List.dropWhile_append]
  have : (xs.dropWhile q).isEmpty = false := by
    cases hx : xs.dropWhile q with
    | nil => exact absurd hx h
    | cons a l => rfl
  simp [this]

theorem rdropWhile_append_of_all {β : Type} (q : β → Bool) (xs ys : List β)
    (h : ∀ y ∈ ys, q y = true) : (xs ++ ys).rdropWhile q = xs.rdropWhile q := by
  unfold List.rdropWhile
  rw [List.reverse_append, dropWhile_append_of_all q _ _ (by simpa using h)]

theorem rdropWhile_append_of_ne_nil {β : Type} (q : β → Bool) (xs ys : List β)
    (h : ys.rdropWhile q ≠ []) : (xs ++ ys).rdropWhile q = xs ++ ys.rdropWhile q := by
  unfold List.rdropWhile at h ⊢
  rw [List.reverse_append, dropWhile_append_of_ne_nil q _ _ (by simpa using h)]
  simp

theorem blankLine_iff {line : Line} : blankLine line = true ↔ ∀ c ∈ line, isSpace c = true := by
  simp [blankLine]

theorem dropWhile_ne_nil_of_nonblank {line : Line} (h : blankLine line = false) :
    line.dropWhile isSpace ≠ [] := by
  intro h0
  rw [List.dropWhile_eq_nil_iff] at h0
  have : blankLine line = true := blankLine_iff.2 h0
  rw [this] at h
  exact absurd h (by simp)

theorem rdropWhile_ne_nil_of_nonblank {line : Line} (h : blankLine line = false) :
    line.rdropWhile isSpace ≠ [] := by
  intro h0
  rw [List.rdropWhile_eq_nil_iff] at h0
  have : blankLine line = true := blankLine_iff.2 h0
  rw [this] at h
  exact absurd h (by simp)

/-- White space in front of a line and behind it is trimmed away. -/
theorem TrimSpace_pad (pre line post : Line) (hpre : blankLine pre = true)
    (hpost : blankLine post = true) : TrimSpace (pre ++ line ++ post) = TrimSpace line := by
  unfold TrimSpace
  rw [List.append_assoc, dropWhile_append_of_all isSpace pre _ (blankLine_iff.1 hpre)]
  cases hb : blankLine line with
  | true =>
    have h1 : (line ++ post).dropWhile isSpace = [] := by
      rw [List.dropWhile_eq_nil_iff]
      intro c hc
      rcases List.mem_append.1 hc with hc | hc
      · exact blankLine_iff.1 hb c hc
      · exact blankLine_iff.1 hpost c hc
    have h2 : line.dropWhile isSpace = [] := by
      rw [List.dropWhile_eq_nil_iff]
      exact blankLine_iff.1 hb
    rw [h1, h2]
  | false =>
    rw [dropWhile_append_of_ne_nil isSpace line post (dropWhile_ne_nil_of_nonblank hb),
      rdropWhile_append_of_all isSpace _ post (blankLine_iff.1 hpost)]

/-- The trimmed form of a line with non-blank parts `a` and `b` around a
middle part `m`. -/
theorem TrimSpace_mid {a b : Line} (m : Line) (ha : blankLine a = false)
    (hb : blankLine b = false) :
    TrimSpace (a ++ m ++ b) = a.dropWhile isSpace ++ m ++ b.rdropWhile isSpace := by
  unfold TrimSpace
  rw [List.append_assoc, dropWhile_append_of_ne_nil isSpace a _ (dropWhile_ne_nil_of_nonblank ha),
    ← List.append_assoc,
    rdropWhile_append_of_ne_nil isSpace _ b (rdropWhile_ne_nil_of_nonblank hb)]

theorem Split_append_space : ∀ (x y : List Char), Split (x ++ ' ' :: y) = Split x ++ Split y := by
  intro x
  induction x with
  | nil => intro y; simp [Split]
  | cons c x ih =>
    intro y
    rw [List.cons_append]
    by_cases hc : c = ' '
    · subst hc
      simp [Split, ih]
    · obtain ⟨t, ts, ht⟩ := List.exists_cons_of_ne_nil (Split_ne_nil x)
      have h1 : Split (c :: (x ++ ' ' :: y)) = (c :: t) :: (ts ++ Split y) := by
        rw [Split, if_neg hc, ih, ht]
        rfl
      have h2 : Split (c :: x) = (c :: t) :: ts := by
        rw [Split, if_neg hc, ht]
      rw [h1, h2]
      rfl

theorem parseLoop_skip_empty (F : Platform α ε) :
    ∀ (xs ys : List (List Char)) (acc : List α),
      parseLoop F (xs ++ [] :: ys) acc = parseLoop F (xs ++ ys) acc := by
  intro xs
  induction xs with
  | nil => intro ys acc; simp [parseLoop]
  | cons x xs ih =>
    intro ys acc
    simp only [List.cons_append]
    unfold parseLoop
    by_cases hlen : x.length = 0
    · rw [if_pos hlen, if_pos hlen]
      exact ih ys acc
    · rw [if_neg hlen, if_neg hlen]
      cases F.ParseFloat (TrimSpace x) with
      | error err => rfl
      | ok number => exact ih ys _

theorem parseLine_congr (F : Platform α ε) {l l' : Line}
    (h : parseLoop F (Split (TrimSpace l)) [] = parseLoop F (Split (TrimSpace l')) []) :
    parseLine F l = parseLine F l' := by
  unfold parseLine
  rw [h]

/-- Two spaces in a row count as one. -/
theorem parseLine_double_space (F : Platform α ε) (a b : Line) :
    parseLine F (a ++ ' ' :: ' ' :: b) = parseLine F (a ++ ' ' :: b) := by
  have hs1 : blankLine [' '] = true := by decide
  have hs2 : blankLine [' ', ' '] = true := by decide
  have e2 : a ++ ' ' :: ' ' :: b = a ++ [' ', ' '] ++ b := by simp
  have e1 : a ++ ' ' :: b = a ++ [' '] ++ b := by simp
  apply parseLine_congr
  cases ha : blankLine a with
  | true =>
    have h2 : TrimSpace (a ++ ' ' :: ' ' :: b) = TrimSpace b := by
      have := TrimSpace_pad (a ++ [' ', ' ']) b []
        (by simp [blankLine] at ha ⊢; exact ⟨ha, by decide⟩) (by decide)
      simpa using this
    have h1 : TrimSpace (a ++ ' ' :: b) = TrimSpace b := by
      have := TrimSpace_pad (a ++ [' ']) b []
        (by simp [blankLine] at ha ⊢; exact ⟨ha, by decide⟩) (by decide)
      simpa using this
    rw [h2, h1]
  | false =>
    cases hb : blankLine b with
    | true =>
      have h2 : TrimSpace (a ++ ' ' :: ' ' :: b) = TrimSpace a := by
        have := TrimSpace_pad [] a ([' ', ' '] ++ b) (by decide)
          (by simp [blankLine] at hb ⊢; exact ⟨by decide, hb⟩)
        simpa using this
      have h1 : TrimSpace (a ++ ' ' :: b) = TrimSpace a := by
        have := TrimSpace_pad [] a ([' '] ++ b) (by decide)
          (by simp [blankLine] at hb ⊢; exact ⟨by decide, hb⟩)
        simpa using this
      rw [h2, h1]
    | false =>
      rw [e2, e1, TrimSpace_mid _ ha hb, TrimSpace_mid _ ha hb]
      have s2 : Split (a.dropWhile isSpace ++ [' ', ' '] ++ b.rdropWhile isSpace) =
          Split (a.dropWhile isSpace) ++ [] :: Split (b.rdropWhile isSpace) := by
        have : a.dropWhile isSpace ++ [' ', ' '] ++ b.rdropWhile isSpace =
            a.dropWhile isSpace ++ ' ' :: (' ' :: b.rdropWhile isSpace) := by simp
        rw [this, Split_append_space]
        simp [Split]
      have s1 : Split (a.dropWhile isSpace ++ [' '] ++ b.rdropWhile isSpace) =
          Split (a.dropWhile isSpace) ++ Split (b.rdropWhile isSpace) := by
        have : a.dropWhile isSpace ++ [' '] ++ b.rdropWhile isSpace =
            a.dropWhile isSpace ++ ' ' :: b.rdropWhile isSpace := by simp
        rw [this, Split_append_space]
      rw [s2, s1, parseLoop_skip_empty]

theorem parseLine_repeated_space (F : Platform α ε) (a b : Line) :
    ∀ j : Nat, parseLine F (a ++ List.replicate (j + 1) ' ' ++ b) = parseLine F (a ++ ' ' :: b) := by
  intro j
  induction j with
  | zero => simp
  | succ j ih =>
    have e : a ++ List.replicate (j + 1 + 1) ' ' ++ b =
        a ++ ' ' :: ' ' :: (List.replicate j ' ' ++ b) := by
      simp [List.replicate_succ]
    have e' : a ++ List.replicate (j + 1) ' ' ++ b = a ++ ' ' :: (List.replicate j ' ' ++ b) := by
      simp [List.replicate_succ]
    rw [e, parseLine_double_space, ← e']
    exact ih

theorem filterMap_map_some {β γ : Type} (f : β → Option γ) :
    ∀ (l : List β), (∀ x ∈ l, ∃ y, f x = some y) → (l.filterMap f).map some = l.map f := by
  intro l
  induction l with
  | nil => intro _; rfl
  | cons x l ih =>
    intro h
    obtain ⟨y, hy⟩ := h x (by simp)
    rw [List.filterMap_cons_some hy, List.map_cons, List.map_cons, hy,
      ih (fun z hz => h z (by simp [hz]))]

/-! ## The scanner -/

theorem deliverable_iff {line : Line} :
    deliverable line = true ↔ lineBytes line < MaxScanTokenSize := by
  simp [deliverable]

theorem lineBytes_append (a b : Line) : lineBytes (a ++ b) = lineBytes a + lineBytes b := by
  simp [lineBytes]

theorem lineBytes_replicate_space (k : Nat) : lineBytes (List.replicate k ' ') = k := by
  induction k with
  | zero => rfl
  | succ k ih =>
    rw [List.replicate_succ]
    have h : lineBytes (' ' :: List.replicate k ' ') = 1 + lineBytes (List.replicate k ' ') := by
      simp [lineBytes, utf8Len]
    rw [h, ih]
    omega

theorem blankLine_replicate_space (k : Nat) : blankLine (List.replicate k ' ') = true := by
  simp [blankLine, isSpace_space]

theorem TrimSpace_dropCR (data : Line) : TrimSpace (dropCR data) = TrimSpace data := by
  unfold dropCR
  by_cases h : data.getLast? = some '\r'
  · rw [if_pos h]
    have hd : data.dropLast ++ ['\r'] = data := List.dropLast_append_getLast? _ (by simp [h])
    have := TrimSpace_pad [] data.dropLast ['\r'] (by decide) (by decide)
    rw [List.nil_append, hd] at this
    exact this.symm
  · rw [if_neg h]

theorem parseLine_dropCR (F : Platform α ε) (data : Line) :
    parseLine F (dropCR data) = parseLine F data := by
  unfold parseLine
  rw [TrimSpace_dropCR]

/-! ## nextLine -/

theorem nextLineAt_nil (F : Platform α ε) (d : Nat) :
    nextLineAt F d [] = .returns ((false, [], some .unexpectedEOF), []) := by
  cases d <;> rfl

theorem nextLineAt_long (F : Platform α ε) {raw : Line} (d : Nat) (sc : List Line)
    (h : deliverable raw = false) :
    nextLineAt F d (raw :: sc) = .returns ((false, [], some .unexpectedEOF), raw :: sc) := by
  have h' : ¬ lineBytes raw < MaxScanTokenSize := by
    intro hlt
    rw [deliverable_iff.2 hlt] at h
    exact absurd h (by simp)
  cases d <;> simp [nextLineAt, h']

theorem nextLineAt_cons_ok (F : Platform α ε) {raw : Line} {values : List α} {e : Option ε}
    (d : Nat) (sc : List Line) (hd : deliverable raw = true)
    (h : parseLine F raw = (true, values, e)) :
    nextLineAt F d (raw :: sc) = .returns ((true, values, none), sc) := by
  have hd' := deliverable_iff.1 hd
  cases d <;> simp [nextLineAt, hd', parseLine_dropCR, h]

theorem nextLineAt_cons_err (F : Platform α ε) {raw : Line} {values : List α} {err : ε}
    (d : Nat) (sc : List Line) (hd : deliverable raw = true)
    (h : parseLine F raw = (false, values, some err)) :
    nextLineAt F d (raw :: sc) = .returns ((false, [], some (.parse err)), sc) := by
  have hd' := deliverable_iff.1 hd
  cases d <;> simp [nextLineAt, hd', parseLine_dropCR, h]

theorem nextLineAt_cons_skip (F : Platform α ε) {raw : Line} {values : List α}
    (d : Nat) (sc : List Line) (hd : deliverable raw = true)
    (h : parseLine F raw = (false, values, none)) :
    nextLineAt F (d + 1) (raw :: sc) = nextLineAt F d sc := by
  have hd' := deliverable_iff.1 hd
  simp [nextLineAt, hd', parseLine_dropCR, h]

theorem nextLineAt_cons_overflow (F : Platform α ε) {raw : Line} {values : List α}
    (sc : List Line) (hd : deliverable raw = true)
    (h : parseLine F raw = (false, values, none)) :
    nextLineAt F 0 (raw :: sc) = .stackOverflow := by
  have hd' := deliverable_iff.1 hd
  simp [nextLineAt, hd', parseLine_dropCR, h]

/-- The three ways a call of `nextLine` can end: with a non-empty list of
values and no error, with an error and no values, or in a stack overflow. -/
theorem nextLineAt_shape (F : Platform α ε) :
    ∀ (sc : List Line) (d : Nat),
      (∃ x xs sc', nextLineAt F d sc = .returns ((true, x :: xs, none), sc')) ∨
      (∃ err sc', nextLineAt F d sc = .returns ((false, [], some err), sc')) ∨
      nextLineAt F d sc = .stackOverflow := by
  intro sc
  induction sc with
  | nil => intro d; exact Or.inr (Or.inl ⟨_, _, nextLineAt_nil F d⟩)
  | cons line sc ih =>
    intro d
    cases hd : deliverable line with
    | false => exact Or.inr (Or.inl ⟨_, _, nextLineAt_long F d sc hd⟩)
    | true =>
      rcases parseLine_shape F line with ⟨x, xs, h⟩ | ⟨err, h⟩ | h
      · exact Or.inl ⟨x, xs, sc, nextLineAt_cons_ok F d sc hd h⟩
      · exact Or.inr (Or.inl ⟨_, sc, nextLineAt_cons_err F d sc hd h⟩)
      · cases d with
        | zero => exact Or.inr (Or.inr (nextLineAt_cons_overflow F sc hd h))
        | succ d =>
          rw [nextLineAt_cons_skip F d sc hd h]
          exact ih d

theorem nextLine_shape (F : Platform α ε) (sc : List Line) :
    (∃ x xs sc', nextLine F sc = .returns ((true, x :: xs, none), sc')) ∨
    (∃ err sc', nextLine F sc = .returns ((false, [], some err), sc')) ∨
    nextLine F sc = .stackOverflow :=
  nextLineAt_shape F sc F.stackFrames

/-! ## One iteration of each loop -/

theorem costLoop_succ_ok (F : Platform α ε) {sc sc' : List Line} {x : α} {xs : List α}
    (k i : Nat) (cost : List α) (h : nextLine F sc = .returns ((true, x :: xs, none), sc')) :
    costLoop F (k + 1) i cost sc = costLoop F k (i + 1) (cost.set i x) sc' := by
  simp [costLoop, h]

theorem costLoop_succ_err (F : Platform α ε) {sc sc' : List Line} {err : LoadError ε}
    (k i : Nat) (cost : List α) (h : nextLine F sc = .returns ((false, [], some err), sc')) :
    costLoop F (k + 1) i cost sc = (.error err, sc') := by
  simp [costLoop, h]

theorem costLoop_succ_overflow (F : Platform α ε) {sc : List Line}
    (k i : Nat) (cost : List α) (h : nextLine F sc = .stackOverflow) :
    costLoop F (k + 1) i cost sc = (.stackOverflow, sc) := by
  simp [costLoop, h]

theorem matrixLoop_succ_ok (F : Platform α ε) (size : Int) (mismatch : LoadError ε)
    {sc sc' : List Line} {line : List α} (k i : Nat) (rows : List (List α))
    (h : nextLine F sc = .returns ((true, line, none), sc')) (hlen : (line.length : Int) = size) :
    matrixLoop F size mismatch (k + 1) i rows sc =
      matrixLoop F size mismatch k (i + 1) (rows.set i line) sc' := by
  simp [matrixLoop, h, hlen]

theorem matrixLoop_succ_mismatch (F : Platform α ε) (size : Int) (mismatch : LoadError ε)
    {sc sc' : List Line} {line : List α} (k i : Nat) (rows : List (List α))
    (h : nextLine F sc = .returns ((true, line, none), sc')) (hlen : (line.length : Int) ≠ size) :
    matrixLoop F size mismatch (k + 1) i rows sc = (.error mismatch, sc') := by
  simp [matrixLoop, h, hlen]

theorem matrixLoop_succ_err (F : Platform α ε) (size : Int) (mismatch : LoadError ε)
    {sc sc' : List Line} {err : LoadError ε} (k i : Nat) (rows : List (List α))
    (h : nextLine F sc = .returns ((false, [], some err), sc')) :
    matrixLoop F size mismatch (k + 1) i rows sc = (.error err, sc') := by
  simp [matrixLoop, h]

theorem matrixLoop_succ_overflow (F : Platform α ε) (size : Int) (mismatch : LoadError ε)
    {sc : List Line} (k i : Nat) (rows : List (List α)) (h : nextLine F sc = .stackOverflow) :
    matrixLoop F size mismatch (k + 1) i rows sc = (.stackOverflow, sc) := by
  simp [matrixLoop, h]

theorem readSize_ok (F : Platform α ε) {sc sc' : List Line} {x : α} {xs : List α}
    (h : nextLine F sc = .returns ((true, x :: xs, none), sc')) :
    readSize F sc = (.cont (F.toInt x), sc') := by
  simp [readSize, h]

theorem readSize_err (F : Platform α ε) {sc sc' : List Line} {err : LoadError ε}
    (h : nextLine F sc = .returns ((false, [], some err), sc')) :
    readSize F sc = (.error err, sc') := by
  simp [readSize, h]

theorem readSize_overflow (F : Platform α ε) {sc : List Line}
    (h : nextLine F sc = .stackOverflow) : readSize F sc = (.stackOverflow, sc) := by
  simp [readSize, h]

theorem readScaleFactor_ok (F : Platform α ε) {sc sc' : List Line} {x : α} {xs : List α}
    (h : nextLine F sc = .returns ((true, x :: xs, none), sc')) :
    readScaleFactor F sc = (.cont x, sc') := by
  simp [readScaleFactor, h]

theorem readScaleFactor_err (F : Platform α ε) {sc sc' : List Line} {err : LoadError ε}
    (h : nextLine F sc = .returns ((false, [], some err), sc')) :
    readScaleFactor F sc = (.error err, sc') := by
  simp [readScaleFactor, h]

theorem readScaleFactor_overflow (F : Platform α ε) {sc : List Line}
    (h : nextLine F sc = .stackOverflow) :
    readScaleFactor F sc = (.stackOverflow, sc) := by
  simp [readScaleFactor, h]

theorem set_length_append_cons {β : Type} (done : List β) (z x : β) (rest : List β) :
    (done ++ z :: rest).set done.length x = done ++ x :: rest := by
  induction done with
  | nil => rfl
  | cons d done ih => simp [ih]

/-! ## What the loops leave behind -/

/-- When the cost loop runs through, every one of its `k` iterations has
stored a value: the `k` zero entries still to fill are replaced by `k` values. -/
theorem costLoop_cont (F : Platform α ε) :
    ∀ (k : Nat) (done : List α) (sc sc' : List Line) (cost' : List α),
      costLoop F k done.length (done ++ List.replicate k F.zero) sc = (.cont cost', sc') →
      ∃ xs : List α, xs.length = k ∧ cost' = done ++ xs := by
  intro k
  induction k with
  | zero =>
    intro done sc sc' cost' h
    simp [costLoop] at h
    exact ⟨[], rfl, by simp [h.1]⟩
  | succ k ih =>
    intro done sc sc' cost' h
    rcases nextLine_shape F sc with ⟨x, xs, sc1, hn⟩ | ⟨err, sc1, hn⟩ | hn
    · rw [costLoop_succ_ok F k _ _ hn, List.replicate_succ, set_length_append_cons] at h
      have h' : costLoop F k (done ++ [x]).length ((done ++ [x]) ++ List.replicate k F.zero) sc1
          = (.cont cost', sc') := by
        simpa using h
      obtain ⟨ys, hys, hc⟩ := ih _ _ _ _ h'
      exact ⟨x :: ys, by simp [hys], by simp [hc]⟩
    · rw [costLoop_succ_err F k _ _ hn] at h
      simp at h
    · rw [costLoop_succ_overflow F k _ _ hn] at h
      simp at h

/-- When a matrix loop runs through, every one of its `k` iterations has
stored a row of `size` values. -/
theorem matrixLoop_cont (F : Platform α ε) (size : Int) (mismatch : LoadError ε) :
    ∀ (k : Nat) (done : List (List α)) (sc sc' : List Line) (rows' : List (List α)),
      matrixLoop F size mismatch k done.length (done ++ List.replicate k []) sc
          = (.cont rows', sc') →
      ∃ rs : List (List α), rs.length = k ∧ (∀ r ∈ rs, (r.length : Int) = size) ∧
        rows' = done ++ rs := by
  intro k
  induction k with
  | zero =>
    intro done sc sc' rows' h
    simp [matrixLoop] at h
    exact ⟨[], rfl, by simp, by simp [h.1]⟩
  | succ k ih =>
    intro done sc sc' rows' h
    rcases nextLine_shape F sc with ⟨x, xs, sc1, hn⟩ | ⟨err, sc1, hn⟩ | hn
    · by_cases hlen : (((x :: xs).length : Nat) : Int) = size
      · rw [matrixLoop_succ_ok F size mismatch k _ _ hn hlen, List.replicate_succ,
          set_length_append_cons] at h
        have h' : matrixLoop F size mismatch k (done ++ [x :: xs]).length
            ((done ++ [x :: xs]) ++ List.replicate k []) sc1 = (.cont rows', sc') := by
          simpa using h
        obtain ⟨rs, hrs, hall, hc⟩ := ih _ _ _ _ h'
        refine ⟨(x :: xs) :: rs, by simp [hrs], ?_, by simp [hc]⟩
        intro r hr
        rcases List.mem_cons.1 hr with rfl | hr
        · exact hlen
        · exact hall r hr
      · rw [matrixLoop_succ_mismatch F size mismatch k _ _ hn hlen] at h
        simp at h
    · rw [matrixLoop_succ_err F size mismatch k _ _ hn] at h
      simp at h
    · rw [matrixLoop_succ_overflow F size mismatch k _ _ hn] at h
      simp at h

/-! ## The stages of a successful load -/

/-- A successful run of `scanFile` went through its five stages in order, with
a size that every `make` accepts. -/
theorem scanFile_ok_inv (F : Platform α ε) {sc sc' : List Line} {data : NetworkData α}
    (h : scanFile F sc = (.ok data, sc')) :
    ∃ sc1 sc2 sc3 sc4,
      readSize F sc = (.cont data.Size, sc1) ∧
      readScaleFactor F sc1 = (.cont data.ScaleFactor, sc2) ∧
      (0 ≤ data.Size ∧ data.Size.toNat ≤ F.maxFloats ∧ data.Size.toNat ≤ F.maxRows) ∧
      costLoop F data.Size.toNat 0 (List.replicate data.Size.toNat F.zero) sc2
        = (.cont data.InstallationCost, sc3) ∧
      matrixLoop F data.Size (.distanceSize data.Size) data.Size.toNat 0
        (List.replicate data.Size.toNat []) sc3 = (.cont data.Distance, sc4) ∧
      matrixLoop F data.Size (.flowDimension data.Size) data.Size.toNat 0
        (List.replicate data.Size.toNat []) sc4 = (.cont data.Flow, sc') := by
  unfold scanFile at h
  rcases h1 : readSize F sc with ⟨r1, sc1⟩
  rw [h1] at h
  cases r1 with
  | error err => simp at h
  | panic p => simp at h
  | stackOverflow => simp at h
  | cont size =>
    simp only at h
    rcases h2 : readScaleFactor F sc1 with ⟨r2, sc2⟩
    rw [h2] at h
    cases r2 with
    | error err => simp at h
    | panic p => simp at h
    | stackOverflow => simp at h
    | cont scale =>
      simp only at h
      by_cases hneg : size < 0 ∨ F.maxFloats < size.toNat
      · rw [if_pos hneg] at h
        simp at h
      · rw [if_neg hneg] at h
        rcases h3 : costLoop F size.toNat 0 (List.replicate size.toNat F.zero) sc2 with ⟨r3, sc3⟩
        rw [h3] at h
        cases r3 with
        | error err => simp at h
        | panic p => simp at h
        | stackOverflow => simp at h
        | cont cost =>
          simp only at h
          by_cases hrows : F.maxRows < size.toNat
          · rw [if_pos hrows] at h
            simp at h
          · rw [if_neg hrows] at h
            rcases h4 : matrixLoop F size (.distanceSize size) size.toNat 0
              (List.replicate size.toNat []) sc3 with ⟨r4, sc4⟩
            rw [h4] at h
            cases r4 with
            | error err => simp at h
            | panic p => simp at h
            | stackOverflow => simp at h
            | cont distance =>
              simp only at h
              rw [if_neg hrows] at h
              rcases h5 : matrixLoop F size (.flowDimension size) size.toNat 0
                (List.replicate size.toNat []) sc4 with ⟨r5, sc5⟩
              rw [h5] at h
              cases r5 with
              | error err => simp at h
              | panic p => simp at h
              | stackOverflow => simp at h
              | cont flow =>
                simp only [Prod.mk.injEq, Outcome.ok.injEq] at h
                obtain ⟨hd, hsc⟩ := h
                subst hd
                subst hsc
                have hn : ¬ size < 0 := fun hc => hneg (Or.inl hc)
                have hf : ¬ F.maxFloats < size.toNat := fun hc => hneg (Or.inr hc)
                exact ⟨sc1, sc2, sc3, sc4, rfl, h2,
                  ⟨not_lt.1 hn, not_lt.1 hf, not_lt.1 hrows⟩, h3, h4, h5⟩

/-- The dimensions of a successfully loaded instance. -/
theorem scanFile_ok_dims (F : Platform α ε) {sc sc' : List Line} {data : NetworkData α}
    (h : scanFile F sc = (.ok data, sc')) :
    0 ≤ data.Size ∧
    (data.InstallationCost.length : Int) = data.Size ∧
    (data.Distance.length : Int) = data.Size ∧
    (∀ row ∈ data.Distance, (row.length : Int) = data.Size) ∧
    (data.Flow.length : Int) = data.Size ∧
    (∀ row ∈ data.Flow, (row.length : Int) = data.Size) := by
  obtain ⟨sc1, sc2, sc3, sc4, -, -, ⟨hpos, -, -⟩, h3, h4, h5⟩ := scanFile_ok_inv F h
  obtain ⟨xs, hxs, hc⟩ := costLoop_cont F _ [] _ _ _ (by simpa using h3)
  obtain ⟨ds, hds, hdall, hd⟩ := matrixLoop_cont F _ _ _ [] _ _ _ (by simpa using h4)
  obtain ⟨fs, hfs, hfall, hf⟩ := matrixLoop_cont F _ _ _ [] _ _ _ (by simpa using h5)
  simp only [List.nil_append] at hc hd hf
  subst hc
  have hnat : ((data.Size.toNat : Nat) : Int) = data.Size := Int.toNat_of_nonneg hpos
  refine ⟨hpos, ?_, ?_, ?_, ?_, ?_⟩
  · rw [hxs]; exact hnat
  · rw [hd, hds]; exact hnat
  · rw [hd]; exact hdall
  · rw [hf, hfs]; exact hnat
  · rw [hf]; exact hfall

/-- The outcome of a run whose five stages all go through. -/
theorem scanFile_of_stages (F : Platform α ε) {sc sc1 sc2 sc3 sc4 sc5 : List Line}
    {size : Int} {scale : α} {cost : List α} {distance flow : List (List α)}
    (h1 : readSize F sc = (.cont size, sc1))
    (h2 : readScaleFactor F sc1 = (.cont scale, sc2))
    (hpos : 0 ≤ size ∧ size.toNat ≤ F.maxFloats ∧ size.toNat ≤ F.maxRows)
    (h3 : costLoop F size.toNat 0 (List.replicate size.toNat F.zero) sc2 = (.cont cost, sc3))
    (h4 : matrixLoop F size (.distanceSize size) size.toNat 0
      (List.replicate size.toNat []) sc3 = (.cont distance, sc4))
    (h5 : matrixLoop F size (.flowDimension size) size.toNat 0
      (List.replicate size.toNat []) sc4 = (.cont flow, sc5)) :
    scanFile F sc = (.ok ⟨size, scale, cost, distance, flow⟩, sc5) := by
  have hneg : ¬ (size < 0 ∨ F.maxFloats < size.toNat) := by
    rintro (hc | hc)
    · exact absurd hpos.1 (not_le.2 hc)
    · exact absurd hpos.2.1 (not_le.2 hc)
  have hrows : ¬ F.maxRows < size.toNat := not_lt.2 hpos.2.2
  simp only [scanFile, h1, h2, if_neg hneg, h3, if_neg hrows, h4, h5]

/-- The run of `scanFile` once size and scale factor are read and `make` has
accepted the size: what remains is the three loops. -/
theorem scanFile_of_header (F : Platform α ε) {sc sc1 sc2 : List Line}
    {size : Int} {scale : α}
    (h1 : readSize F sc = (.cont size, sc1))
    (h2 : readScaleFactor F sc1 = (.cont scale, sc2))
    (hpos : 0 ≤ size ∧ size.toNat ≤ F.maxFloats ∧ size.toNat ≤ F.maxRows) :
    scanFile F sc =
      match costLoop F size.toNat 0 (List.replicate size.toNat F.zero) sc2 with
      | (.error err, sc3) => (.error err, sc3)
      | (.panic p, sc3) => (.panic p, sc3)
      | (.stackOverflow, sc3) => (.stackOverflow, sc3)
      | (.cont cost, sc3) =>
        match matrixLoop F size (.distanceSize size) size.toNat 0
            (List.replicate size.toNat []) sc3 with
        | (.error err, sc4) => (.error err, sc4)
        | (.panic p, sc4) => (.panic p, sc4)
        | (.stackOverflow, sc4) => (.stackOverflow, sc4)
        | (.cont distance, sc4) =>
          match matrixLoop F size (.flowDimension size) size.toNat 0
              (List.replicate size.toNat []) sc4 with
          | (.error err, sc5) => (.error err, sc5)
          | (.panic p, sc5) => (.panic p, sc5)
          | (.stackOverflow, sc5) => (.stackOverflow, sc5)
          | (.cont flow, sc5) => (.ok ⟨size, scale, cost, distance, flow⟩, sc5) := by
  have hneg : ¬ (size < 0 ∨ F.maxFloats < size.toNat) := by
    rintro (hc | hc)
    · exact absurd hpos.1 (not_le.2 hc)
    · exact absurd hpos.2.1 (not_le.2 hc)
  have hrows : ¬ F.maxRows < size.toNat := not_lt.2 hpos.2.2
  simp only [scanFile, h1, h2, if_neg hneg, if_neg hrows]

theorem scanFile_cost_error (F : Platform α ε) {sc sc1 sc2 sc3 : List Line}
    {size : Int} {scale : α} {err : LoadError ε}
    (h1 : readSize F sc = (.cont size, sc1))
    (h2 : readScaleFactor F sc1 = (.cont scale, sc2))
    (hpos : 0 ≤ size ∧ size.toNat ≤ F.maxFloats ∧ size.toNat ≤ F.maxRows)
    (h3 : costLoop F size.toNat 0 (List.replicate size.toNat F.zero) sc2 = (.error err, sc3)) :
    scanFile F sc = (.error err, sc3) := by
  rw [scanFile_of_header F h1 h2 hpos, h3]

theorem scanFile_distance_error (F : Platform α ε) {sc sc1 sc2 sc3 sc4 : List Line}
    {size : Int} {scale : α} {cost : List α} {err : LoadError ε}
    (h1 : readSize F sc = (.cont size, sc1))
    (h2 : readScaleFactor F sc1 = (.cont scale, sc2))
    (hpos : 0 ≤ size ∧ size.toNat ≤ F.maxFloats ∧ size.toNat ≤ F.maxRows)
    (h3 : costLoop F size.toNat 0 (List.replicate size.toNat F.zero) sc2 = (.cont cost, sc3))
    (h4 : matrixLoop F size (.distanceSize size) size.toNat 0
      (List.replicate size.toNat []) sc3 = (.error err, sc4)) :
    scanFile F sc = (.error err, sc4) := by
  rw [scanFile_of_header F h1 h2 hpos, h3]
  simp only
  rw [h4]

/-! ## Blank lines -/

theorem nonBlank_cons_blank {line : Line} (sc : List Line) (h : blankLine line = true) :
    nonBlank (line :: sc) = nonBlank sc := by
  simp [nonBlank, h]

theorem nonBlank_cons_nonblank {line : Line} (sc : List Line) (h : blankLine line = false) :
    nonBlank (line :: sc) = line :: nonBlank sc := by
  simp [nonBlank, h]

theorem nonBlank_append (xs ys : List Line) : nonBlank (xs ++ ys) = nonBlank xs ++ nonBlank ys := by
  simp [nonBlank]

theorem nonBlank_of_blank {bs : List Line} (h : ∀ b ∈ bs, blankLine b = true) :
    nonBlank bs = [] := by
  simp only [nonBlank, List.filter_eq_nil_iff]
  intro b hb
  simp [h b hb]

theorem blanksWithin_cons_blank {d k : Nat} {line : Line} {sc : List Line}
    (hb : blankLine line = true) (h : blanksWithin d k (line :: sc) = true) :
    deliverable line = true ∧ k < d ∧ blanksWithin d (k + 1) sc = true := by
  simpa [blanksWithin, hb, and_assoc] using h

theorem blanksWithin_cons_nonblank {d k : Nat} {line : Line} {sc : List Line}
    (hb : blankLine line = false) :
    blanksWithin d k (line :: sc) = blanksWithin d 0 sc := by
  simp [blanksWithin, hb]

/-- On an input whose blank lines are within the limits, a call of `nextLine`
returns, and returns what it returns on the non-blank lines alone. -/
theorem nextLineAt_nonBlank (F : Platform α ε) (D d' : Nat) :
    ∀ (sc : List Line) (k d : Nat), k + d = D → blanksWithin D k sc = true →
      ∃ r sc1, nextLineAt F d sc = .returns (r, sc1) ∧
        nextLineAt F d' (nonBlank sc) = .returns (r, nonBlank sc1) ∧
        blanksWithin D 0 sc1 = true := by
  intro sc
  induction sc with
  | nil =>
    intro k d _ _
    exact ⟨_, [], nextLineAt_nil F d, nextLineAt_nil F d', rfl⟩
  | cons line sc ih =>
    intro k d hkd hw
    cases hb : blankLine line with
    | true =>
      obtain ⟨hdel, hk, hrest⟩ := blanksWithin_cons_blank hb hw
      obtain ⟨d0, rfl⟩ : ∃ d0, d = d0 + 1 := ⟨d - 1, by omega⟩
      rw [nonBlank_cons_blank sc hb, nextLineAt_cons_skip F d0 sc hdel (parseLine_blank F hb)]
      exact ih (k + 1) d0 (by omega) hrest
    | false =>
      rw [blanksWithin_cons_nonblank hb] at hw
      rw [nonBlank_cons_nonblank sc hb]
      cases hdel : deliverable line with
      | false =>
        refine ⟨_, line :: sc, nextLineAt_long F d sc hdel, ?_, ?_⟩
        · rw [nextLineAt_long F d' _ hdel, nonBlank_cons_nonblank sc hb]
        · rw [blanksWithin_cons_nonblank hb]
          exact hw
      | true =>
        rcases parseLine_shape F line with ⟨x, xs, h⟩ | ⟨err, h⟩ | h
        · exact ⟨_, sc, nextLineAt_cons_ok F d sc hdel h,
            nextLineAt_cons_ok F d' _ hdel h, hw⟩
        · exact ⟨_, sc, nextLineAt_cons_err F d sc hdel h,
            nextLineAt_cons_err F d' _ hdel h, hw⟩
        · exact absurd h (parseLine_nonblank F hb)

theorem nextLine_nonBlank (F : Platform α ε) {sc : List Line}
    (hw : blanksWithin F.stackFrames 0 sc = true) :
    ∃ r sc1, nextLine F sc = .returns (r, sc1) ∧
      nextLine F (nonBlank sc) = .returns (r, nonBlank sc1) ∧
      blanksWithin F.stackFrames 0 sc1 = true :=
  nextLineAt_nonBlank F F.stackFrames F.stackFrames sc 0 F.stackFrames (by omega) hw

/-- The shape of what `nextLine` returns on an input whose blank lines are
within the limits, together with what it returns on the non-blank lines. -/
theorem nextLine_nonBlank_cases (F : Platform α ε) {sc : List Line}
    (hw : blanksWithin F.stackFrames 0 sc = true) :
    (∃ x xs sc1, nextLine F sc = .returns ((true, x :: xs, none), sc1) ∧
      nextLine F (nonBlank sc) = .returns ((true, x :: xs, none), nonBlank sc1) ∧
      blanksWithin F.stackFrames 0 sc1 = true) ∨
    (∃ err sc1, nextLine F sc = .returns ((false, [], some err), sc1) ∧
      nextLine F (nonBlank sc) = .returns ((false, [], some err), nonBlank sc1) ∧
      blanksWithin F.stackFrames 0 sc1 = true) := by
  obtain ⟨r, sc1, h1, h2, h3⟩ := nextLine_nonBlank F hw
  rcases nextLine_shape F sc with ⟨x, xs, sc', hn⟩ | ⟨err, sc', hn⟩ | hn
  · rw [hn] at h1
    simp only [Call.returns.injEq, Prod.mk.injEq] at h1
    obtain ⟨hr, hsc⟩ := h1
    subst hr
    subst hsc
    exact Or.inl ⟨x, xs, sc', hn, h2, h3⟩
  · rw [hn] at h1
    simp only [Call.returns.injEq, Prod.mk.injEq] at h1
    obtain ⟨hr, hsc⟩ := h1
    subst hr
    subst hsc
    exact Or.inr ⟨err, sc', hn, h2, h3⟩
  · rw [hn] at h1
    simp at h1

theorem costLoop_nonBlank (F : Platform α ε) :
    ∀ (k i : Nat) (cost : List α) (sc : List Line), blanksWithin F.stackFrames 0 sc = true →
      costLoop F k i cost (nonBlank sc) =
        ((costLoop F k i cost sc).1, nonBlank (costLoop F k i cost sc).2) ∧
      blanksWithin F.stackFrames 0 (costLoop F k i cost sc).2 = true := by
  intro k
  induction k with
  | zero => intro i cost sc hw; exact ⟨rfl, hw⟩
  | succ k ih =>
    intro i cost sc hw
    rcases nextLine_nonBlank_cases F hw with ⟨x, xs, sc1, hn, hnb, hw1⟩ | ⟨err, sc1, hn, hnb, hw1⟩
    · rw [costLoop_succ_ok F k i cost hn, costLoop_succ_ok F k i cost hnb]
      exact ih _ _ _ hw1
    · rw [costLoop_succ_err F k i cost hn, costLoop_succ_err F k i cost hnb]
      exact ⟨rfl, hw1⟩

theorem matrixLoop_nonBlank (F : Platform α ε) (size : Int) (mismatch : LoadError ε) :
    ∀ (k i : Nat) (rows : List (List α)) (sc : List Line),
      blanksWithin F.stackFrames 0 sc = true →
      matrixLoop F size mismatch k i rows (nonBlank sc) =
        ((matrixLoop F size mismatch k i rows sc).1,
          nonBlank (matrixLoop F size mismatch k i rows sc).2) ∧
      blanksWithin F.stackFrames 0 (matrixLoop F size mismatch k i rows sc).2 = true := by
  intro k
  induction k with
  | zero => intro i rows sc hw; exact ⟨rfl, hw⟩
  | succ k ih =>
    intro i rows sc hw
    rcases nextLine_nonBlank_cases F hw with ⟨x, xs, sc1, hn, hnb, hw1⟩ | ⟨err, sc1, hn, hnb, hw1⟩
    · by_cases hlen : (((x :: xs).length : Nat) : Int) = size
      · rw [matrixLoop_succ_ok F size mismatch k i rows hn hlen,
          matrixLoop_succ_ok F size mismatch k i rows hnb hlen]
        exact ih _ _ _ hw1
      · rw [matrixLoop_succ_mismatch F size mismatch k i rows hn hlen,
          matrixLoop_succ_mismatch F size mismatch k i rows hnb hlen]
        exact ⟨rfl, hw1⟩
    · rw [matrixLoop_succ_err F size mismatch k i rows hn,
        matrixLoop_succ_err F size mismatch k i rows hnb]
      exact ⟨rfl, hw1⟩

theorem readSize_nonBlank (F : Platform α ε) {sc : List Line}
    (hw : blanksWithin F.stackFrames 0 sc = true) :
    readSize F (nonBlank sc) = ((readSize F sc).1, nonBlank (readSize F sc).2) ∧
    blanksWithin F.stackFrames 0 (readSize F sc).2 = true := by
  rcases nextLine_nonBlank_cases F hw with ⟨x, xs, sc1, hn, hnb, hw1⟩ | ⟨err, sc1, hn, hnb, hw1⟩
  · rw [readSize_ok F hn, readSize_ok F hnb]
    exact ⟨rfl, hw1⟩
  · rw [readSize_err F hn, readSize_err F hnb]
    exact ⟨rfl, hw1⟩

theorem readScaleFactor_nonBlank (F : Platform α ε) {sc : List Line}
    (hw : blanksWithin F.stackFrames 0 sc = true) :
    readScaleFactor F (nonBlank sc) =
      ((readScaleFactor F sc).1, nonBlank (readScaleFactor F sc).2) ∧
    blanksWithin F.stackFrames 0 (readScaleFactor F sc).2 = true := by
  rcases nextLine_nonBlank_cases F hw with ⟨x, xs, sc1, hn, hnb, hw1⟩ | ⟨err, sc1, hn, hnb, hw1⟩
  · rw [readScaleFactor_ok F hn, readScaleFactor_ok F hnb]
    exact ⟨rfl, hw1⟩
  · rw [readScaleFactor_err F hn, readScaleFactor_err F hnb]
    exact ⟨rfl, hw1⟩

/-- On an input whose blank lines are within the limits, running the loader on
the non-blank lines alone gives the same outcome, and leaves the non-blank
lines of what the full run leaves. -/
theorem scanFile_nonBlank (F : Platform α ε) {sc : List Line}
    (hw : blanksWithin F.stackFrames 0 sc = true) :
    scanFile F (nonBlank sc) = ((scanFile F sc).1, nonBlank (scanFile F sc).2) := by
  unfold scanFile
  obtain ⟨e1, w1⟩ := readSize_nonBlank F hw
  rcases h1 : readSize F sc with ⟨r1, sc1⟩
  rw [h1] at e1 w1
  simp only at e1 w1
  rw [e1]
  cases r1 with
  | error err => rfl
  | panic p => rfl
  | stackOverflow => rfl
  | cont size =>
    simp only
    obtain ⟨e2, w2⟩ := readScaleFactor_nonBlank F w1
    rcases h2 : readScaleFactor F sc1 with ⟨r2, sc2⟩
    rw [h2] at e2 w2
    simp only at e2 w2
    rw [e2]
    cases r2 with
    | error err => rfl
    | panic p => rfl
    | stackOverflow => rfl
    | cont scale =>
      simp only
      by_cases hneg : size < 0 ∨ F.maxFloats < size.toNat
      · rw [if_pos hneg, if_pos hneg]
      · rw [if_neg hneg, if_neg hneg]
        obtain ⟨e3, w3⟩ := costLoop_nonBlank F size.toNat 0
          (List.replicate size.toNat F.zero) sc2 w2
        rcases h3 : costLoop F size.toNat 0 (List.replicate size.toNat F.zero) sc2 with ⟨r3, sc3⟩
        rw [h3] at e3 w3
        simp only at e3 w3
        rw [e3]
        cases r3 with
        | error err => rfl
        | panic p => rfl
        | stackOverflow => rfl
        | cont cost =>
          simp only
          by_cases hrows : F.maxRows < size.toNat
          · rw [if_pos hrows, if_pos hrows]
          · rw [if_neg hrows, if_neg hrows]
            obtain ⟨e4, w4⟩ := matrixLoop_nonBlank F size (.distanceSize size) size.toNat 0
              (List.replicate size.toNat []) sc3 w3
            rcases h4 : matrixLoop F size (.distanceSize size) size.toNat 0
              (List.replicate size.toNat []) sc3 with ⟨r4, sc4⟩
            rw [h4] at e4 w4
            simp only at e4 w4
            rw [e4]
            cases r4 with
            | error err => rfl
            | panic p => rfl
            | stackOverflow => rfl
            | cont distance =>
              simp only
              rw [if_neg hrows, if_neg hrows]
              obtain ⟨e5, -⟩ := matrixLoop_nonBlank F size (.flowDimension size) size.toNat 0
                (List.replicate size.toNat []) sc4 w4
              rcases h5 : matrixLoop F size (.flowDimension size) size.toNat 0
                (List.replicate size.toNat []) sc4 with ⟨r5, sc5⟩
              rw [h5] at e5
              simp only at e5
              rw [e5]
              cases r5 with
              | error err => rfl
              | panic p => rfl
              | stackOverflow => rfl
              | cont flow => rfl

theorem FromFile_nonBlank (F : Platform α ε) {lines : List Line}
    (hw : blanksWithin F.stackFrames 0 lines = true) :
    FromFile F (nonBlank lines) = FromFile F lines := by
  simp [FromFile, scanFile_nonBlank F hw]

/-! ## Inputs without blank, malformed or overlong lines -/

theorem parseLine_good (F : Platform α ε) {line : Line} (hb : blankLine line = false)
    (hv : (parseLine F line).2.2 = none) :
    parseLine F line = (true, values F line, none) ∧ values F line ≠ [] := by
  rcases parseLine_shape F line with ⟨x, xs, h⟩ | ⟨err, h⟩ | h
  · simp [values, h]
  · rw [h] at hv
    simp at hv
  · exact absurd h (parseLine_nonblank F hb)

theorem nextLine_cons_ok (F : Platform α ε) {raw : Line} {vs : List α} {e : Option ε}
    (sc : List Line) (hd : deliverable raw = true) (h : parseLine F raw = (true, vs, e)) :
    nextLine F (raw :: sc) = .returns ((true, vs, none), sc) :=
  nextLineAt_cons_ok F F.stackFrames sc hd h

theorem nextLine_cons_err (F : Platform α ε) {raw : Line} {vs : List α} {err : ε}
    (sc : List Line) (hd : deliverable raw = true) (h : parseLine F raw = (false, vs, some err)) :
    nextLine F (raw :: sc) = .returns ((false, [], some (.parse err)), sc) :=
  nextLineAt_cons_err F F.stackFrames sc hd h

theorem nextLine_nil (F : Platform α ε) :
    nextLine F [] = .returns ((false, [], some .unexpectedEOF), []) :=
  nextLineAt_nil F F.stackFrames

theorem nextLine_good (F : Platform α ε) {line : Line} (sc : List Line) (hg : Good F line) :
    nextLine F (line :: sc) = .returns ((true, values F line, none), sc) :=
  nextLine_cons_ok F sc hg.1 (parseLine_good F hg.2.1 hg.2.2).1

theorem values_ne_nil_of_good (F : Platform α ε) {line : Line} (hg : Good F line) :
    values F line ≠ [] :=
  (parseLine_good F hg.2.1 hg.2.2).2

/-- On good lines the cost loop stores the first value of each of the next `k`
lines. -/
theorem costLoop_good (F : Platform α ε) :
    ∀ (k : Nat) (done : List α) (sc : List Line), k ≤ sc.length →
      (∀ line ∈ sc.take k, Good F line) →
      costLoop F k done.length (done ++ List.replicate k F.zero) sc =
        (.cont (done ++ ((sc.take k).map (values F)).map (fun row => row.headD F.zero)),
          sc.drop k) := by
  intro k
  induction k with
  | zero => intro done sc _ _; simp [costLoop]
  | succ k ih =>
    intro done sc hk hgood
    cases sc with
    | nil => simp at hk
    | cons line sc =>
      have hl := hgood line (by simp)
      have hn := nextLine_good F sc hl
      obtain ⟨x, xs, hx⟩ := List.exists_cons_of_ne_nil (values_ne_nil_of_good F hl)
      rw [hx] at hn
      rw [costLoop_succ_ok F k _ _ hn, List.replicate_succ, set_length_append_cons]
      have h' := ih (done ++ [x]) sc (by simpa using hk) (by
        intro l hmem
        exact hgood l (by simp [hmem]))
      simp only [List.length_append, List.length_singleton, List.append_assoc,
        List.singleton_append] at h'
      rw [h']
      simp [hx]

/-- On good lines that each hold `size` values a matrix loop stores the values
of the next `k` lines, one line per row. -/
theorem matrixLoop_good (F : Platform α ε) (size : Int) (mismatch : LoadError ε) :
    ∀ (k : Nat) (done : List (List α)) (sc : List Line), k ≤ sc.length →
      (∀ line ∈ sc.take k, Good F line ∧ ((values F line).length : Int) = size) →
      matrixLoop F size mismatch k done.length (done ++ List.replicate k []) sc =
        (.cont (done ++ (sc.take k).map (values F)), sc.drop k) := by
  intro k
  induction k with
  | zero => intro done sc _ _; simp [matrixLoop]
  | succ k ih =>
    intro done sc hk hgood
    cases sc with
    | nil => simp at hk
    | cons line sc =>
      have hl := hgood line (by simp)
      have hn := nextLine_good F sc hl.1
      rw [matrixLoop_succ_ok F size mismatch k _ _ hn hl.2, List.replicate_succ,
        set_length_append_cons]
      have h' := ih (done ++ [values F line]) sc (by simpa using hk) (by
        intro l hmem
        exact hgood l (by simp [hmem]))
      simp only [List.length_append, List.length_singleton, List.append_assoc,
        List.singleton_append] at h'
      rw [h']
      simp

/-- On good lines a matrix loop that meets a line with another number of
values than `size` among its next `k` lines returns its error. -/
theorem matrixLoop_mismatch (F : Platform α ε) (size : Int) (mismatch : LoadError ε) :
    ∀ (k i : Nat) (rows : List (List α)) (sc : List Line),
      (∀ line ∈ sc, Good F line) →
      (∃ line ∈ sc.take k, ((values F line).length : Int) ≠ size) →
      ∃ sc', matrixLoop F size mismatch k i rows sc = (.error mismatch, sc') := by
  intro k
  induction k with
  | zero => intro i rows sc _ h; simp at h
  | succ k ih =>
    intro i rows sc hgood hbad
    cases sc with
    | nil => simp at hbad
    | cons line sc =>
      have hl := hgood line (by simp)
      have hn := nextLine_good F sc hl
      by_cases hlen : ((values F line).length : Int) = size
      · rw [matrixLoop_succ_ok F size mismatch k _ _ hn hlen]
        apply ih
        · intro l hmem
          exact hgood l (by simp [hmem])
        · obtain ⟨l, hmem, hne⟩ := hbad
          simp only [List.take_succ_cons, List.mem_cons] at hmem
          rcases hmem with rfl | hmem
          · exact absurd hlen hne
          · exact ⟨l, hmem, hne⟩
      · exact ⟨sc, matrixLoop_succ_mismatch F size mismatch k _ _ hn hlen⟩

theorem costLoop_short (F : Platform α ε) :
    ∀ (k i : Nat) (cost : List α) (sc : List Line), sc.length < k →
      (∀ line ∈ sc, Good F line) →
      costLoop F k i cost sc = (.error .unexpectedEOF, []) := by
  intro k
  induction k with
  | zero => intro i cost sc h _; simp at h
  | succ k ih =>
    intro i cost sc hlen hgood
    cases sc with
    | nil => exact costLoop_succ_err F k i cost (nextLine_nil F)
    | cons line sc =>
      have hl := hgood line (by simp)
      have hn := nextLine_good F sc hl
      obtain ⟨x, xs, hx⟩ := List.exists_cons_of_ne_nil (values_ne_nil_of_good F hl)
      rw [hx] at hn
      rw [costLoop_succ_ok F k i cost hn]
      exact ih _ _ sc (by simpa using hlen) (fun l hmem => hgood l (by simp [hmem]))

theorem matrixLoop_short (F : Platform α ε) (size : Int) (mismatch : LoadError ε) :
    ∀ (k i : Nat) (rows : List (List α)) (sc : List Line), sc.length < k →
      (∀ line ∈ sc, Good F line ∧ ((values F line).length : Int) = size) →
      matrixLoop F size mismatch k i rows sc = (.error .unexpectedEOF, []) := by
  intro k
  induction k with
  | zero => intro i rows sc h _; simp at h
  | succ k ih =>
    intro i rows sc hlen hgood
    cases sc with
    | nil => exact matrixLoop_succ_err F size mismatch k i rows (nextLine_nil F)
    | cons line sc =>
      have hl := hgood line (by simp)
      have hn := nextLine_good F sc hl.1
      rw [matrixLoop_succ_ok F size mismatch k i rows hn hl.2]
      exact ih _ _ sc (by simpa using hlen) (fun l hmem => hgood l (by simp [hmem]))

theorem mem_take_drop {β : Type} {l : List β} {a : β} {m n : Nat}
    (h : a ∈ (l.drop m).take n) : ∃ i, i < n ∧ l[m + i]? = some a := by
  obtain ⟨i, hi⟩ := List.getElem?_of_mem h
  rw [List.getElem?_take] at hi
  by_cases hlt : i < n
  · rw [if_pos hlt, List.getElem?_drop] at hi
    exact ⟨i, hlt, hi⟩
  · rw [if_neg hlt] at hi
    simp at hi

/-- The first two lines of an input of good lines. -/
theorem header_good (F : Platform α ε) {sc : List Line} {v0 sf : α} {r0 r1 : List α}
    {body : List (List α)}
    (hgood : ∀ line ∈ sc, Good F line)
    (hV : sc.map (values F) = (v0 :: r0) :: (sf :: r1) :: body) :
    ∃ l1 rest, readSize F sc = (.cont (F.toInt v0), l1 :: rest) ∧
      readScaleFactor F (l1 :: rest) = (.cont sf, rest) ∧
      rest.map (values F) = body ∧
      ∀ line ∈ rest, Good F line := by
  cases sc with
  | nil => simp at hV
  | cons l0 sc =>
    cases sc with
    | nil => simp at hV
    | cons l1 rest =>
      simp only [List.map_cons, List.cons.injEq] at hV
      obtain ⟨h0, h1, hbody⟩ := hV
      have n0 := nextLine_good F (l1 :: rest) (hgood l0 (by simp))
      have n1 := nextLine_good F rest (hgood l1 (by simp))
      rw [h0] at n0
      rw [h1] at n1
      exact ⟨l1, rest, readSize_ok F n0, readScaleFactor_ok F n1, hbody,
        fun line hl => hgood line (by simp [hl])⟩

/-- The run of the loader on an input of good lines that has all the lines its
declared size asks for, each matrix row of the declared length, the size
being one that `make` accepts. -/
theorem scanFile_wellFormed (F : Platform α ε) {sc : List Line} {v0 sf : α} {r0 r1 : List α}
    {body : List (List α)} (n : Nat)
    (hgood : ∀ line ∈ sc, Good F line)
    (hV : sc.map (values F) = (v0 :: r0) :: (sf :: r1) :: body)
    (hn : F.toInt v0 = (n : Int))
    (hlim : n ≤ F.maxFloats ∧ n ≤ F.maxRows)
    (hlen : 3 * n ≤ body.length)
    (hrows : ∀ j, n ≤ j → j < 3 * n → ∀ row, body[j]? = some row → row.length = n) :
    (scanFile F sc).1 = .ok ⟨(n : Int), sf, (body.take n).map (fun row => row.headD F.zero),
      (body.drop n).take n, (body.drop (2 * n)).take n⟩ := by
  obtain ⟨l1, rest, h1, h2, hbody, hrest⟩ := header_good F hgood hV
  rw [hn] at h1
  have hto : (n : Int).toNat = n := by simp
  have hlen' : 3 * n ≤ rest.length := by
    rw [← hbody] at hlen
    simpa using hlen
  have hrow : ∀ m, n ≤ m → m + n ≤ 3 * n → ∀ line ∈ (rest.drop m).take n,
      Good F line ∧ (((values F line).length : Nat) : Int) = (n : Int) := by
    intro m hm1 hm2 line hl
    have hmem : line ∈ rest := List.mem_of_mem_drop (List.mem_of_mem_take hl)
    obtain ⟨i, hi, hget⟩ := mem_take_drop hl
    have hb : body[m + i]? = some (values F line) := by
      rw [← hbody, List.getElem?_map, hget]
      rfl
    have := hrows (m + i) (by omega) (by omega) _ hb
    exact ⟨hrest line hmem, by rw [this]⟩
  have h3 : costLoop F (n : Int).toNat 0 (List.replicate (n : Int).toNat F.zero) rest =
      (.cont ((body.take n).map (fun row => row.headD F.zero)), rest.drop n) := by
    have := costLoop_good F n [] rest (by omega) (fun line hl => hrest line (List.mem_of_mem_take hl))
    simpa [hbody] using this
  have h4 : matrixLoop F (n : Int) (.distanceSize n) (n : Int).toNat 0
      (List.replicate (n : Int).toNat []) (rest.drop n) =
      (.cont ((body.drop n).take n), rest.drop (n + n)) := by
    have := matrixLoop_good F (n : Int) (.distanceSize n) n [] (rest.drop n)
      (by simp; omega) (hrow n (le_refl n) (by omega))
    simpa [hbody] using this
  have h5 : matrixLoop F (n : Int) (.flowDimension n) (n : Int).toNat 0
      (List.replicate (n : Int).toNat []) (rest.drop (n + n)) =
      (.cont ((body.drop (2 * n)).take n), rest.drop (n + n + n)) := by
    have := matrixLoop_good F (n : Int) (.flowDimension n) n [] (rest.drop (n + n))
      (by simp; omega) (hrow (n + n) (by omega) (by omega))
    have e : n + n = 2 * n := by omega
    simpa [hbody, e] using this
  rw [scanFile_of_stages F h1 h2 ⟨Int.natCast_nonneg n, by rw [hto]; exact hlim.1,
    by rw [hto]; exact hlim.2⟩ h3 h4 h5]

/-- The run of the loader on an input of good lines one of whose matrix rows
has another length than the declared size, the size being one that `make`
accepts. -/
theorem scanFile_mismatch (F : Platform α ε) {sc : List Line} {v0 sf : α} {r0 r1 : List α}
    {body : List (List α)} (n j : Nat) (row : List α)
    (hgood : ∀ line ∈ sc, Good F line)
    (hV : sc.map (values F) = (v0 :: r0) :: (sf :: r1) :: body)
    (hn : F.toInt v0 = (n : Int))
    (hlim : n ≤ F.maxFloats ∧ n ≤ F.maxRows)
    (hj1 : n ≤ j) (hj2 : j < 3 * n) (hrow : body[j]? = some row) (hne : row.length ≠ n) :
    (scanFile F sc).1 = .error (.distanceSize n) ∨
      (scanFile F sc).1 = .error (.flowDimension n) := by
  obtain ⟨l1, rest, h1, h2, hbody, hrest⟩ := header_good F hgood hV
  rw [hn] at h1
  have hto : (n : Int).toNat = n := by simp
  have hpos : 0 ≤ (n : Int) ∧ (n : Int).toNat ≤ F.maxFloats ∧ (n : Int).toNat ≤ F.maxRows :=
    ⟨Int.natCast_nonneg n, by rw [hto]; exact hlim.1, by rw [hto]; exact hlim.2⟩
  have hjlen : j < rest.length := by
    have : j < body.length := by
      rcases List.getElem?_eq_some.1 hrow with ⟨h, -⟩
      exact h
    rw [← hbody] at this
    simpa using this
  obtain ⟨line, hline, hvals⟩ : ∃ line, rest[j]? = some line ∧ values F line = row := by
    rw [← hbody, List.getElem?_map] at hrow
    cases hr : rest[j]? with
    | none => rw [hr] at hrow; simp at hrow
    | some line =>
      rw [hr] at hrow
      simp only [Option.map_some', Option.some.injEq] at hrow
      exact ⟨line, rfl, hrow⟩
  have hbadlen : (((values F line).length : Nat) : Int) ≠ (n : Int) := by
    rw [hvals]
    exact_mod_cast hne
  have hdrop : ∀ m, ∀ l ∈ rest.drop m, Good F l :=
    fun m l hl => hrest l (List.mem_of_mem_drop hl)
  have hin : ∀ m, m ≤ j → j < m + n → line ∈ (rest.drop m).take n := by
    intro m hm1 hm2
    apply List.getElem?_mem (n := j - m)
    rw [List.getElem?_take, if_pos (by omega), List.getElem?_drop]
    have : m + (j - m) = j := by omega
    rw [this, hline]
  have h3 : costLoop F (n : Int).toNat 0 (List.replicate (n : Int).toNat F.zero) rest =
      (.cont ((body.take n).map (fun row => row.headD F.zero)), rest.drop n) := by
    have := costLoop_good F n [] rest (by omega) (fun line hl => hrest line (List.mem_of_mem_take hl))
    simpa [hbody] using this
  rw [scanFile_of_header F h1 h2 hpos, h3]
  simp only
  by_cases hd : ∃ l ∈ (rest.drop n).take n, (((values F l).length : Nat) : Int) ≠ (n : Int)
  · obtain ⟨sc', h4⟩ := matrixLoop_mismatch F (n : Int) (.distanceSize n) (n : Int).toNat 0
      (List.replicate (n : Int).toNat []) (rest.drop n) (hdrop n) (by simpa using hd)
    left
    rw [h4]
  · have hd' : ∀ l ∈ (rest.drop n).take n, (((values F l).length : Nat) : Int) = (n : Int) := by
      intro l hl
      by_contra hc
      exact hd ⟨l, hl, hc⟩
    have hj3 : n + n ≤ j := by
      by_contra hc
      exact hbadlen (hd' line (hin n hj1 (by omega)))
    have h4 : matrixLoop F (n : Int) (.distanceSize n) (n : Int).toNat 0
        (List.replicate (n : Int).toNat []) (rest.drop n) =
        (.cont ((body.drop n).take n), rest.drop (n + n)) := by
      have := matrixLoop_good F (n : Int) (.distanceSize n) n [] (rest.drop n)
        (by simp; omega) (fun l hl => ⟨hdrop n l (List.mem_of_mem_take hl), hd' l hl⟩)
      simpa [hbody] using this
    obtain ⟨sc', h5⟩ := matrixLoop_mismatch F (n : Int) (.flowDimension n) (n : Int).toNat 0
      (List.replicate (n : Int).toNat []) (rest.drop (n + n)) (hdrop (n + n))
      ⟨line, by simpa using hin (n + n) hj3 (by omega), hbadlen⟩
    right
    rw [h4]
    simp only
    rw [h5]

/-- The run of the loader on an input of good lines that has fewer lines than
its declared size asks for, each matrix row present of the declared length,
the size being one that `make` accepts: it ends in `unexpected end of file`. -/
theorem scanFile_short (F : Platform α ε) {sc : List Line}
    (hgood : ∀ line ∈ sc, Good F line)
    (hshort : ∀ l0 l1 rest x xs, sc = l0 :: l1 :: rest → values F l0 = x :: xs →
      ∃ n : Nat, F.toInt x = (n : Int) ∧ n ≤ F.maxFloats ∧ n ≤ F.maxRows ∧
        rest.length < 3 * n ∧
        ∀ j, n ≤ j → ∀ line, rest[j]? = some line → (values F line).length = n) :
    (scanFile F sc).1 = .error .unexpectedEOF := by
  cases sc with
  | nil => simp [scanFile, readSize_err F (nextLine_nil F)]
  | cons l0 sc =>
    have g0 := hgood l0 (by simp)
    have n0 := nextLine_good F sc g0
    obtain ⟨x, xs, hx⟩ := List.exists_cons_of_ne_nil (values_ne_nil_of_good F g0)
    rw [hx] at n0
    have h1 := readSize_ok F n0
    cases sc with
    | nil => simp [scanFile, h1, readScaleFactor_err F (nextLine_nil F)]
    | cons l1 rest =>
      have g1 := hgood l1 (by simp)
      have n1 := nextLine_good F rest g1
      obtain ⟨y, ys, hy⟩ := List.exists_cons_of_ne_nil (values_ne_nil_of_good F g1)
      rw [hy] at n1
      have h2 := readScaleFactor_ok F n1
      obtain ⟨n, hn, hf, hr, hlen, hrows⟩ := hshort l0 l1 rest x xs rfl hx
      rw [hn] at h1
      have hrest : ∀ line ∈ rest, Good F line :=
        fun line hl => hgood line (by simp [hl])
      have hto : (n : Int).toNat = n := by simp
      have hpos : 0 ≤ (n : Int) ∧ (n : Int).toNat ≤ F.maxFloats ∧ (n : Int).toNat ≤ F.maxRows :=
        ⟨Int.natCast_nonneg n, by rw [hto]; exact hf, by rw [hto]; exact hr⟩
      have hrow : ∀ m, n ≤ m → ∀ line ∈ rest.drop m,
          Good F line ∧ (((values F line).length : Nat) : Int) = (n : Int) := by
        intro m hm line hl
        have hmem : line ∈ rest := List.mem_of_mem_drop hl
        obtain ⟨i, hi⟩ := List.getElem?_of_mem hl
        rw [List.getElem?_drop] at hi
        have := hrows (m + i) (by omega) line hi
        exact ⟨hrest line hmem, by rw [this]⟩
      rw [scanFile_of_header F h1 h2 hpos, hto]
      by_cases hc : rest.length < n
      · rw [costLoop_short F n 0 (List.replicate n F.zero) rest hc hrest]
      · have h3 := costLoop_good F n [] rest (by omega)
          (fun line hl => hrest line (List.mem_of_mem_take hl))
        simp only [List.length_nil, List.nil_append] at h3
        rw [h3]
        simp only
        by_cases hd : (rest.drop n).length < n
        · rw [matrixLoop_short F (n : Int) (.distanceSize n) n 0
            (List.replicate n []) (rest.drop n) hd (hrow n (le_refl n))]
        · have h4 := matrixLoop_good F (n : Int) (.distanceSize n) n [] (rest.drop n)
            (by omega) (fun line hl => hrow n (le_refl n) line (List.mem_of_mem_take hl))
          simp only [List.length_nil, List.nil_append, List.drop_drop] at h4
          rw [h4]
          simp only
          rw [matrixLoop_short F (n : Int) (.flowDimension n) n 0
            (List.replicate n []) (rest.drop (n + n))
            (by simp at hd ⊢; omega) (hrow (n + n) (by omega))]

/-! ## The lines a run consumes -/

theorem Consumed.mono {F : Platform α ε} {sc sc' : List Line} {P Q : ε → Prop}
    (h : Consumed F sc sc' P) (hPQ : ∀ err, P err → Q err) : Consumed F sc sc' Q := by
  obtain ⟨pre, hpre, hall⟩ := h
  exact ⟨pre, hpre, fun line hl err he => hPQ err (hall line hl err he)⟩

theorem Consumed.trans {F : Platform α ε} {sc sc1 sc2 : List Line} {Q : ε → Prop}
    (h1 : Consumed F sc sc1 (fun _ => False)) (h2 : Consumed F sc1 sc2 Q) :
    Consumed F sc sc2 Q := by
  obtain ⟨pre1, hpre1, hall1⟩ := h1
  obtain ⟨pre2, hpre2, hall2⟩ := h2
  refine ⟨pre1 ++ pre2, by rw [hpre1, hpre2, List.append_assoc], ?_⟩
  intro line hl err he
  rcases List.mem_append.1 hl with hl | hl
  · exact (hall1 line hl err he).elim
  · exact hall2 line hl err he

theorem Consumed.refl (F : Platform α ε) (sc : List Line) (P : ε → Prop) :
    Consumed F sc sc P :=
  ⟨[], rfl, by simp⟩

/-- The lines a call of `nextLine` takes off the scanner before it returns:
a line with a malformed token among them makes it return that line's error. -/
theorem nextLineAt_consumed (F : Platform α ε) :
    ∀ (sc : List Line) (d : Nat) (r : Bool × List α × Option (LoadError ε)) (sc1 : List Line),
      nextLineAt F d sc = .returns (r, sc1) →
      Consumed F sc sc1 (fun err => r = (false, [], some (.parse err))) := by
  intro sc
  induction sc with
  | nil =>
    intro d r sc1 h
    rw [nextLineAt_nil] at h
    simp only [Call.returns.injEq, Prod.mk.injEq] at h
    rw [← h.2]
    exact Consumed.refl F [] _
  | cons line sc ih =>
    intro d r sc1 h
    cases hd : deliverable line with
    | false =>
      rw [nextLineAt_long F d sc hd] at h
      simp only [Call.returns.injEq, Prod.mk.injEq] at h
      rw [← h.2]
      exact Consumed.refl F _ _
    | true =>
      rcases parseLine_shape F line with ⟨x, xs, hp⟩ | ⟨err, hp⟩ | hp
      · rw [nextLineAt_cons_ok F d sc hd hp] at h
        simp only [Call.returns.injEq, Prod.mk.injEq] at h
        rw [← h.2]
        refine ⟨[line], rfl, ?_⟩
        intro l hl e he
        simp only [List.mem_singleton] at hl
        subst hl
        rw [hp] at he
        simp at he
      · rw [nextLineAt_cons_err F d sc hd hp] at h
        simp only [Call.returns.injEq, Prod.mk.injEq] at h
        rw [← h.2, ← h.1]
        refine ⟨[line], rfl, ?_⟩
        intro l hl e he
        simp only [List.mem_singleton] at hl
        subst hl
        rw [hp] at he
        simp only [Option.some.injEq] at he
        rw [he]
      · cases d with
        | zero =>
          rw [nextLineAt_cons_overflow F sc hd hp] at h
          simp at h
        | succ d =>
          rw [nextLineAt_cons_skip F d sc hd hp] at h
          obtain ⟨pre, hpre, hall⟩ := ih d r sc1 h
          refine ⟨line :: pre, by rw [List.cons_append, ← hpre], ?_⟩
          intro l hl e he
          rcases List.mem_cons.1 hl with rfl | hl
          · rw [hp] at he
            simp at he
          · exact hall l hl e he

theorem nextLine_consumed_ok (F : Platform α ε) {sc sc' : List Line} {line : List α}
    (h : nextLine F sc = .returns ((true, line, none), sc')) :
    Consumed F sc sc' (fun _ => False) :=
  (nextLineAt_consumed F sc _ _ _ h).mono (fun err he => by simp at he)

theorem nextLine_consumed_err (F : Platform α ε) {sc sc' : List Line} {err : LoadError ε}
    (h : nextLine F sc = .returns ((false, [], some err), sc')) :
    Consumed F sc sc' (fun e => err = .parse e) :=
  (nextLineAt_consumed F sc _ _ _ h).mono (fun e he => by simpa using he)

theorem costLoop_consumed (F : Platform α ε) :
    ∀ (k i : Nat) (cost : List α) (sc : List Line),
      Consumed F sc (costLoop F k i cost sc).2
        (fun err => (costLoop F k i cost sc).1 = .error (.parse err)) := by
  intro k
  induction k with
  | zero => intro i cost sc; exact Consumed.refl F sc _
  | succ k ih =>
    intro i cost sc
    rcases nextLine_shape F sc with ⟨x, xs, sc1, hn⟩ | ⟨err, sc1, hn⟩ | hn
    · rw [costLoop_succ_ok F k i cost hn]
      exact (nextLine_consumed_ok F hn).trans (ih _ _ _)
    · rw [costLoop_succ_err F k i cost hn]
      exact (nextLine_consumed_err F hn).mono (fun e he => by simp [he])
    · rw [costLoop_succ_overflow F k i cost hn]
      exact Consumed.refl F sc _

theorem matrixLoop_consumed (F : Platform α ε) (size : Int) (mismatch : LoadError ε) :
    ∀ (k i : Nat) (rows : List (List α)) (sc : List Line),
      Consumed F sc (matrixLoop F size mismatch k i rows sc).2
        (fun err => (matrixLoop F size mismatch k i rows sc).1 = .error (.parse err)) := by
  intro k
  induction k with
  | zero => intro i rows sc; exact Consumed.refl F sc _
  | succ k ih =>
    intro i rows sc
    rcases nextLine_shape F sc with ⟨x, xs, sc1, hn⟩ | ⟨err, sc1, hn⟩ | hn
    · by_cases hlen : (((x :: xs).length : Nat) : Int) = size
      · rw [matrixLoop_succ_ok F size mismatch k i rows hn hlen]
        exact (nextLine_consumed_ok F hn).trans (ih _ _ _)
      · rw [matrixLoop_succ_mismatch F size mismatch k i rows hn hlen]
        exact (nextLine_consumed_ok F hn).mono (fun e he => he.elim)
    · rw [matrixLoop_succ_err F size mismatch k i rows hn]
      exact (nextLine_consumed_err F hn).mono (fun e he => by simp [he])
    · rw [matrixLoop_succ_overflow F size mismatch k i rows hn]
      exact Consumed.refl F sc _

theorem readSize_consumed (F : Platform α ε) (sc : List Line) :
    Consumed F sc (readSize F sc).2 (fun err => (readSize F sc).1 = .error (.parse err)) := by
  rcases nextLine_shape F sc with ⟨x, xs, sc1, hn⟩ | ⟨err, sc1, hn⟩ | hn
  · rw [readSize_ok F hn]
    exact (nextLine_consumed_ok F hn).mono (fun e he => he.elim)
  · rw [readSize_err F hn]
    exact (nextLine_consumed_err F hn).mono (fun e he => by simp [he])
  · rw [readSize_overflow F hn]
    exact Consumed.refl F sc _

theorem readScaleFactor_consumed (F : Platform α ε) (sc : List Line) :
    Consumed F sc (readScaleFactor F sc).2
      (fun err => (readScaleFactor F sc).1 = .error (.parse err)) := by
  rcases nextLine_shape F sc with ⟨x, xs, sc1, hn⟩ | ⟨err, sc1, hn⟩ | hn
  · rw [readScaleFactor_ok F hn]
    exact (nextLine_consumed_ok F hn).mono (fun e he => he.elim)
  · rw [readScaleFactor_err F hn]
    exact (nextLine_consumed_err F hn).mono (fun e he => by simp [he])
  · rw [readScaleFactor_overflow F hn]
    exact Consumed.refl F sc _

theorem Consumed.of_cont {F : Platform α ε} {β : Type} {sc sc' : List Line} {val : β}
    {r : Step ε β × List Line} (hr : r = (.cont val, sc'))
    (h : Consumed F sc r.2 (fun err => r.1 = .error (.parse err))) :
    Consumed F sc sc' (fun _ => False) := by
  subst hr
  exact h.mono (fun e he => by simp at he)

theorem Consumed.of_error {F : Platform α ε} {β : Type} {sc sc' : List Line}
    {err : LoadError ε} {r : Step ε β × List Line} (hr : r = (.error err, sc'))
    (h : Consumed F sc r.2 (fun e => r.1 = .error (.parse e))) :
    Consumed F sc sc' (fun e => err = .parse e) := by
  subst hr
  exact h.mono (fun e he => by simpa using he)

theorem Consumed.of_panic {F : Platform α ε} {β : Type} {sc sc' : List Line}
    {p : Panic} {r : Step ε β × List Line} (hr : r = (.panic p, sc'))
    (h : Consumed F sc r.2 (fun e => r.1 = .error (.parse e))) :
    Consumed F sc sc' (fun _ => False) := by
  subst hr
  exact h.mono (fun e he => by simp at he)

theorem Consumed.of_overflow {F : Platform α ε} {β : Type} {sc sc' : List Line}
    {r : Step ε β × List Line} (hr : r = (.stackOverflow, sc'))
    (h : Consumed F sc r.2 (fun e => r.1 = .error (.parse e))) :
    Consumed F sc sc' (fun _ => False) := by
  subst hr
  exact h.mono (fun e he => by simp at he)

/-- Every line a run of the loader consumes that has a malformed token makes
the run return the `ParseFloat` error of that line. -/
theorem scanFile_consumed (F : Platform α ε) (sc : List Line) :
    Consumed F sc (scanFile F sc).2 (fun err => (scanFile F sc).1 = .error (.parse err)) := by
  unfold scanFile
  have c1 := readSize_consumed F sc
  rcases h1 : readSize F sc with ⟨r1, sc1⟩
  cases r1 with
  | error err => exact (Consumed.of_error h1 c1).mono (fun e he => by simp [he])
  | panic p => exact (Consumed.of_panic h1 c1).mono (fun e he => he.elim)
  | stackOverflow => exact (Consumed.of_overflow h1 c1).mono (fun e he => he.elim)
  | cont size =>
    simp only
    have c1' := Consumed.of_cont h1 c1
    have c2 := readScaleFactor_consumed F sc1
    rcases h2 : readScaleFactor F sc1 with ⟨r2, sc2⟩
    cases r2 with
    | error err => exact c1'.trans ((Consumed.of_error h2 c2).mono (fun e he => by simp [he]))
    | panic p => exact c1'.trans ((Consumed.of_panic h2 c2).mono (fun e he => he.elim))
    | stackOverflow =>
      exact c1'.trans ((Consumed.of_overflow h2 c2).mono (fun e he => he.elim))
    | cont scale =>
      simp only
      have c2' := c1'.trans (Consumed.of_cont h2 c2)
      by_cases hneg : size < 0 ∨ F.maxFloats < size.toNat
      · rw [if_pos hneg]
        exact c2'.mono (fun e he => he.elim)
      · rw [if_neg hneg]
        have c3 := costLoop_consumed F size.toNat 0 (List.replicate size.toNat F.zero) sc2
        rcases h3 : costLoop F size.toNat 0 (List.replicate size.toNat F.zero) sc2 with ⟨r3, sc3⟩
        cases r3 with
        | error err =>
          exact c2'.trans ((Consumed.of_error h3 c3).mono (fun e he => by simp [he]))
        | panic p => exact c2'.trans ((Consumed.of_panic h3 c3).mono (fun e he => he.elim))
        | stackOverflow =>
          exact c2'.trans ((Consumed.of_overflow h3 c3).mono (fun e he => he.elim))
        | cont cost =>
          simp only
          have c3' := c2'.trans (Consumed.of_cont h3 c3)
          by_cases hrows : F.maxRows < size.toNat
          · rw [if_pos hrows]
            exact c3'.mono (fun e he => he.elim)
          · rw [if_neg hrows]
            have c4 := matrixLoop_consumed F size (.distanceSize size) size.toNat 0
              (List.replicate size.toNat []) sc3
            rcases h4 : matrixLoop F size (.distanceSize size) size.toNat 0
              (List.replicate size.toNat []) sc3 with ⟨r4, sc4⟩
            cases r4 with
            | error err =>
              exact c3'.trans ((Consumed.of_error h4 c4).mono (fun e he => by simp [he]))
            | panic p => exact c3'.trans ((Consumed.of_panic h4 c4).mono (fun e he => he.elim))
            | stackOverflow =>
              exact c3'.trans ((Consumed.of_overflow h4 c4).mono (fun e he => he.elim))
            | cont distance =>
              simp only
              rw [if_neg hrows]
              have c4' := c3'.trans (Consumed.of_cont h4 c4)
              have c5 := matrixLoop_consumed F size (.flowDimension size) size.toNat 0
                (List.replicate size.toNat []) sc4
              rcases h5 : matrixLoop F size (.flowDimension size) size.toNat 0
                (List.replicate size.toNat []) sc4 with ⟨r5, sc5⟩
              cases r5 with
              | error err =>
                exact c4'.trans ((Consumed.of_error h5 c5).mono (fun e he => by simp [he]))
              | panic p =>
                exact c4'.trans ((Consumed.of_panic h5 c5).mono (fun e he => he.elim))
              | stackOverflow =>
                exact c4'.trans ((Consumed.of_overflow h5 c5).mono (fun e he => he.elim))
              | cont flow =>
                exact (c4'.trans (Consumed.of_cont h5 c5)).mono (fun e he => he.elim)

/-! ## Skipping blank lines -/

theorem nextLineAt_skip_blanks (F : Platform α ε) :
    ∀ (blanks : List Line) (d : Nat) (sc : List Line),
      (∀ b ∈ blanks, blankLine b = true ∧ deliverable b = true) →
      nextLineAt F (d + blanks.length) (blanks ++ sc) = nextLineAt F d sc := by
  intro blanks
  induction blanks with
  | nil => intro d sc _; rfl
  | cons b blanks ih =>
    intro d sc hall
    have hb := hall b (by simp)
    have e : d + (b :: blanks).length = (d + blanks.length) + 1 := by simp; omega
    rw [e, List.cons_append, nextLineAt_cons_skip F _ _ hb.2 (parseLine_blank F hb.1)]
    exact ih d sc (fun x hx => hall x (by simp [hx]))

/-- More deliverable blank lines in a row than the stack has room for nested
calls make `nextLine` overflow the stack. -/
theorem nextLineAt_overflow (F : Platform α ε) :
    ∀ (blanks : List Line) (d : Nat) (sc : List Line),
      (∀ b ∈ blanks, blankLine b = true ∧ deliverable b = true) → d < blanks.length →
      nextLineAt F d (blanks ++ sc) = .stackOverflow := by
  intro blanks
  induction blanks with
  | nil => intro d sc _ h; simp at h
  | cons b blanks ih =>
    intro d sc hall hlen
    have hb := hall b (by simp)
    cases d with
    | zero => exact nextLineAt_cons_overflow F _ hb.2 (parseLine_blank F hb.1)
    | succ d =>
      rw [List.cons_append, nextLineAt_cons_skip F _ _ hb.2 (parseLine_blank F hb.1)]
      exact ih d sc (fun x hx => hall x (by simp [hx])) (by simpa using hlen)

theorem nextLine_skip_blanks (F : Platform α ε) (blanks sc : List Line)
    (hall : ∀ b ∈ blanks, blankLine b = true ∧ deliverable b = true)
    (hlen : blanks.length ≤ F.stackFrames) :
    nextLine F (blanks ++ sc) = nextLineAt F (F.stackFrames - blanks.length) sc := by
  unfold nextLine
  have e : F.stackFrames = (F.stackFrames - blanks.length) + blanks.length := by omega
  conv_lhs => rw [e]
  exact nextLineAt_skip_blanks F blanks _ sc hall

theorem blank_of_parseLine_skip (F : Platform α ε) {line : Line}
    (h : parseLine F line = (false, [], none)) : blankLine line = true := by
  cases hb : blankLine line with
  | true => rfl
  | false => exact absurd h (parseLine_nonblank F hb)

/-! ## The lines a successful step reads -/

theorem valueLines_append (F : Platform α ε) (p q : List Line) :
    valueLines F (p ++ q) = valueLines F p + valueLines F q := by
  simp [valueLines]

theorem valueBearing_blank (F : Platform α ε) {line : Line} (h : blankLine line = true) :
    valueBearing F line = false := by
  simp [valueBearing, parseLine_blank F h]

theorem filter_valueBearing_blanks (F : Platform α ε) {blanks : List Line}
    (h : ∀ b ∈ blanks, blankLine b = true) : blanks.filter (valueBearing F) = [] := by
  rw [List.filter_eq_nil_iff]
  intro b hb
  simp [valueBearing_blank F (h b hb)]

/-- A successful `nextLine` has skipped deliverable blank lines, no more than
it has room for on the stack, and read one deliverable line that `parseLine`
accepts. -/
theorem nextLineAt_ok_inv (F : Platform α ε) :
    ∀ (sc : List Line) (d : Nat) (sc1 : List Line) (vs : List α),
      nextLineAt F d sc = .returns ((true, vs, none), sc1) →
      ∃ blanks line, sc = blanks ++ line :: sc1 ∧
        (∀ b ∈ blanks, blankLine b = true ∧ deliverable b = true) ∧
        blanks.length ≤ d ∧ deliverable line = true ∧
        parseLine F line = (true, vs, none) := by
  intro sc
  induction sc with
  | nil =>
    intro d sc1 vs h
    rw [nextLineAt_nil] at h
    simp at h
  | cons l sc ih =>
    intro d sc1 vs h
    cases hd : deliverable l with
    | false =>
      rw [nextLineAt_long F d sc hd] at h
      simp at h
    | true =>
      rcases parseLine_shape F l with ⟨x, xs, hp⟩ | ⟨err, hp⟩ | hp
      · rw [nextLineAt_cons_ok F d sc hd hp] at h
        simp only [Call.returns.injEq, Prod.mk.injEq, true_and, and_true] at h
        obtain ⟨hvs, hsc⟩ := h
        subst hvs
        subst hsc
        exact ⟨[], l, rfl, by simp, by simp, hd, hp⟩
      · rw [nextLineAt_cons_err F d sc hd hp] at h
        simp at h
      · cases d with
        | zero =>
          rw [nextLineAt_cons_overflow F sc hd hp] at h
          simp at h
        | succ d =>
          rw [nextLineAt_cons_skip F d sc hd hp] at h
          obtain ⟨blanks, line, hsc, hb, hlen, hdel, hl⟩ := ih d sc1 vs h
          refine ⟨l :: blanks, line, by rw [hsc]; rfl, ?_, by simp; omega, hdel, hl⟩
          intro b hmem
          rcases List.mem_cons.1 hmem with rfl | hmem
          · exact ⟨blank_of_parseLine_skip F hp, hd⟩
          · exact hb b hmem

/-- The lines `p` a successful `nextLine` takes off the scanner hold exactly
one value-bearing line, the one whose values it returns, and what follows
them plays no part. -/
theorem nextLine_ok_local (F : Platform α ε) {sc sc1 : List Line} {vs : List α}
    (h : nextLine F sc = .returns ((true, vs, none), sc1)) :
    ∃ p line, sc = p ++ sc1 ∧ p.filter (valueBearing F) = [line] ∧ values F line = vs ∧
      ∀ rest, nextLine F (p ++ rest) = .returns ((true, vs, none), rest) := by
  obtain ⟨blanks, line, hsc, hb, hlen, hdel, hl⟩ := nextLineAt_ok_inv F sc _ sc1 vs h
  refine ⟨blanks ++ [line], line, by simp [hsc], ?_, by simp [values, hl], ?_⟩
  · rw [List.filter_append, filter_valueBearing_blanks F (fun b hm => (hb b hm).1)]
    simp [valueBearing, hl]
  · intro rest
    rw [List.append_assoc, nextLine_skip_blanks F blanks _ hb hlen]
    exact nextLineAt_cons_ok F _ rest hdel hl

/-- The lines a cost loop that runs through has read: `k` value-bearing lines,
whose first values it has stored, whatever follows them. -/
theorem costLoop_local (F : Platform α ε) :
    ∀ (k : Nat) (done cost' : List α) (sc sc' : List Line),
      costLoop F k done.length (done ++ List.replicate k F.zero) sc = (.cont cost', sc') →
      ∃ p, sc = p ++ sc' ∧ (p.filter (valueBearing F)).length = k ∧
        cost' = done ++
          ((p.filter (valueBearing F)).map (values F)).map (fun row => row.headD F.zero) ∧
        ∀ rest, costLoop F k done.length (done ++ List.replicate k F.zero) (p ++ rest)
          = (.cont cost', rest) := by
  intro k
  induction k with
  | zero =>
    intro done cost' sc sc' h
    simp only [costLoop, Prod.mk.injEq, Step.cont.injEq] at h
    obtain ⟨hc, hsc⟩ := h
    subst hc
    subst hsc
    exact ⟨[], rfl, rfl, by simp, fun rest => rfl⟩
  | succ k ih =>
    intro done cost' sc sc' h
    rcases nextLine_shape F sc with ⟨x, xs, sc1, hn⟩ | ⟨err, sc1, hn⟩ | hn
    · have step : ∀ s s1 : List Line, nextLine F s = .returns ((true, x :: xs, none), s1) →
          costLoop F (k + 1) done.length (done ++ List.replicate (k + 1) F.zero) s =
            costLoop F k (done ++ [x]).length ((done ++ [x]) ++ List.replicate k F.zero) s1 := by
        intro s s1 hs
        rw [costLoop_succ_ok F k _ _ hs, List.replicate_succ, set_length_append_cons]
        simp
      rw [step sc sc1 hn] at h
      obtain ⟨p1, line, hsc1, hf, hv, hloc1⟩ := nextLine_ok_local F hn
      obtain ⟨p2, hsc2, hcount, hcost, hloc2⟩ := ih _ _ _ _ h
      refine ⟨p1 ++ p2, by rw [hsc1, hsc2, List.append_assoc], ?_, ?_, ?_⟩
      · rw [List.filter_append, hf]
        simp [hcount]
      · rw [List.filter_append, hf, hcost]
        simp [hv]
      · intro rest
        rw [List.append_assoc, step _ _ (hloc1 (p2 ++ rest))]
        exact hloc2 rest
    · rw [costLoop_succ_err F k _ _ hn] at h
      simp at h
    · rw [costLoop_succ_overflow F k _ _ hn] at h
      simp at h

/-- The lines a matrix loop that runs through has read: `k` value-bearing
lines, whose values are the rows it has stored, whatever follows them. -/
theorem matrixLoop_local (F : Platform α ε) (size : Int) (mismatch : LoadError ε) :
    ∀ (k : Nat) (done rows' : List (List α)) (sc sc' : List Line),
      matrixLoop F size mismatch k done.length (done ++ List.replicate k []) sc
        = (.cont rows', sc') →
      ∃ p, sc = p ++ sc' ∧ (p.filter (valueBearing F)).length = k ∧
        rows' = done ++ (p.filter (valueBearing F)).map (values F) ∧
        ∀ rest, matrixLoop F size mismatch k done.length (done ++ List.replicate k [])
          (p ++ rest) = (.cont rows', rest) := by
  intro k
  induction k with
  | zero =>
    intro done rows' sc sc' h
    simp only [matrixLoop, Prod.mk.injEq, Step.cont.injEq] at h
    obtain ⟨hc, hsc⟩ := h
    subst hc
    subst hsc
    exact ⟨[], rfl, rfl, by simp, fun rest => rfl⟩
  | succ k ih =>
    intro done rows' sc sc' h
    rcases nextLine_shape F sc with ⟨x, xs, sc1, hn⟩ | ⟨err, sc1, hn⟩ | hn
    · by_cases hlen : (((x :: xs).length : Nat) : Int) = size
      · have step : ∀ s s1 : List Line, nextLine F s = .returns ((true, x :: xs, none), s1) →
            matrixLoop F size mismatch (k + 1) done.length
              (done ++ List.replicate (k + 1) []) s =
            matrixLoop F size mismatch k (done ++ [x :: xs]).length
              ((done ++ [x :: xs]) ++ List.replicate k []) s1 := by
          intro s s1 hs
          rw [matrixLoop_succ_ok F size mismatch k _ _ hs hlen, List.replicate_succ,
            set_length_append_cons]
          simp
        rw [step sc sc1 hn] at h
        obtain ⟨p1, line, hsc1, hf, hv, hloc1⟩ := nextLine_ok_local F hn
        obtain ⟨p2, hsc2, hcount, hrows, hloc2⟩ := ih _ _ _ _ h
        refine ⟨p1 ++ p2, by rw [hsc1, hsc2, List.append_assoc], ?_, ?_, ?_⟩
        · rw [List.filter_append, hf]
          simp [hcount]
        · rw [List.filter_append, hf, hrows]
          simp [hv]
        · intro rest
          rw [List.append_assoc, step _ _ (hloc1 (p2 ++ rest))]
          exact hloc2 rest
      · rw [matrixLoop_succ_mismatch F size mismatch k _ _ hn hlen] at h
        simp at h
    · rw [matrixLoop_succ_err F size mismatch k _ _ hn] at h
      simp at h
    · rw [matrixLoop_succ_overflow F size mismatch k _ _ hn] at h
      simp at h

theorem readSize_local (F : Platform α ε) {sc sc' : List Line} {size : Int}
    (h : readSize F sc = (.cont size, sc')) :
    ∃ p l0 x xs, sc = p ++ sc' ∧ p.filter (valueBearing F) = [l0] ∧
      values F l0 = x :: xs ∧ size = F.toInt x ∧
      ∀ rest, readSize F (p ++ rest) = (.cont size, rest) := by
  rcases nextLine_shape F sc with ⟨x, xs, sc1, hn⟩ | ⟨err, sc1, hn⟩ | hn
  · rw [readSize_ok F hn] at h
    simp only [Prod.mk.injEq, Step.cont.injEq] at h
    obtain ⟨hs, hsc⟩ := h
    subst hs
    subst hsc
    obtain ⟨p, line, hsc1, hf, hv, hloc⟩ := nextLine_ok_local F hn
    exact ⟨p, line, x, xs, hsc1, hf, hv, rfl, fun rest => readSize_ok F (hloc rest)⟩
  · rw [readSize_err F hn] at h
    simp at h
  · rw [readSize_overflow F hn] at h
    simp at h

theorem readScaleFactor_local (F : Platform α ε) {sc sc' : List Line} {scale : α}
    (h : readScaleFactor F sc = (.cont scale, sc')) :
    ∃ p l1 xs, sc = p ++ sc' ∧ p.filter (valueBearing F) = [l1] ∧
      values F l1 = scale :: xs ∧
      ∀ rest, readScaleFactor F (p ++ rest) = (.cont scale, rest) := by
  rcases nextLine_shape F sc with ⟨x, xs, sc1, hn⟩ | ⟨err, sc1, hn⟩ | hn
  · rw [readScaleFactor_ok F hn] at h
    simp only [Prod.mk.injEq, Step.cont.injEq] at h
    obtain ⟨hs, hsc⟩ := h
    subst hs
    subst hsc
    obtain ⟨p, line, hsc1, hf, hv, hloc⟩ := nextLine_ok_local F hn
    exact ⟨p, line, xs, hsc1, hf, hv, fun rest => readScaleFactor_ok F (hloc rest)⟩
  · rw [readScaleFactor_err F hn] at h
    simp at h
  · rw [readScaleFactor_overflow F hn] at h
    simp at h

/-- What a successful run has read: the lines `p` it has taken off the
scanner hold `2 + 3 * Size` value-bearing lines, the size line `l0`, the
scale-factor line `l1`, `Size` cost lines `c`, `Size` distance rows `d` and
`Size` flow rows `f`, from which the instance is filled; and the lines
behind `p` play no part. -/
theorem scanFile_ok_local (F : Platform α ε) {sc sc' : List Line} {data : NetworkData α}
    (h : scanFile F sc = (.ok data, sc')) :
    ∃ (p : List Line) (l0 l1 : Line) (c d f : List Line) (x : α) (xs ys : List α),
      sc = p ++ sc' ∧ p.filter (valueBearing F) = l0 :: l1 :: (c ++ (d ++ f)) ∧
      c.length = data.Size.toNat ∧ d.length = data.Size.toNat ∧ f.length = data.Size.toNat ∧
      values F l0 = x :: xs ∧ data.Size = F.toInt x ∧
      values F l1 = data.ScaleFactor :: ys ∧
      data.InstallationCost = (c.map (values F)).map (fun row => row.headD F.zero) ∧
      data.Distance = d.map (values F) ∧ data.Flow = f.map (values F) ∧
      ∀ rest, scanFile F (p ++ rest) = (.ok data, rest) := by
  obtain ⟨sc1, sc2, sc3, sc4, h1, h2, hpos, h3, h4, h5⟩ := scanFile_ok_inv F h
  obtain ⟨p1, l0, x, xs, e1, f1, v1, hs, loc1⟩ := readSize_local F h1
  obtain ⟨p2, l1, ys, e2, f2, v2, loc2⟩ := readScaleFactor_local F h2
  obtain ⟨p3, e3, c3, r3, loc3⟩ := costLoop_local F _ [] _ _ _ (by simpa using h3)
  obtain ⟨p4, e4, c4, r4, loc4⟩ := matrixLoop_local F _ _ _ [] _ _ _ (by simpa using h4)
  obtain ⟨p5, e5, c5, r5, loc5⟩ := matrixLoop_local F _ _ _ [] _ _ _ (by simpa using h5)
  refine ⟨p1 ++ (p2 ++ (p3 ++ (p4 ++ p5))), l0, l1, p3.filter (valueBearing F),
    p4.filter (valueBearing F), p5.filter (valueBearing F), x, xs, ys, ?_, ?_, c3, c4, c5,
    v1, hs, v2, by simpa using r3, by simpa using r4, by simpa using r5, ?_⟩
  · rw [e1, e2, e3, e4, e5]
    simp
  · simp [List.filter_append, f1, f2]
  · intro rest
    have := scanFile_of_stages F
      (loc1 (p2 ++ (p3 ++ (p4 ++ (p5 ++ rest))))) (loc2 (p3 ++ (p4 ++ (p5 ++ rest)))) hpos
      (by simpa using loc3 (p4 ++ (p5 ++ rest))) (by simpa using loc4 (p5 ++ rest))
      (by simpa using loc5 rest)
    simpa using this

/-- A successful run has read exactly `2 + 3 * Size` value-bearing lines, the
first of which declares `Size`. -/
theorem scanFile_ok_count (F : Platform α ε) {sc sc' : List Line} {data : NetworkData α}
    (h : scanFile F sc = (.ok data, sc')) :
    declaredSize F sc = some data.Size ∧
    2 + 3 * data.Size ≤ (valueLines F sc : Int) := by
  obtain ⟨-, -, -, -, -, -, hpos, -⟩ := scanFile_ok_inv F h
  obtain ⟨p, l0, l1, c, d, f, x, xs, ys, hsc, hf, hc, hd, hfl, hv0, hsize, -⟩ :=
    scanFile_ok_local F h
  have hnat : ((data.Size.toNat : Nat) : Int) = data.Size := Int.toNat_of_nonneg hpos.1
  constructor
  · rw [hsc]
    simp [declaredSize, List.filter_append, hf, hv0, hsize]
  · rw [hsc, valueLines_append]
    have : valueLines F p = 2 + 3 * data.Size.toNat := by
      simp [valueLines, hf, hc, hd, hfl]
      omega
    rw [this]
    push_cast
    rw [hnat]
    omega

/-! ## Panics -/

theorem costLoop_no_panic (F : Platform α ε) :
    ∀ (k i : Nat) (cost : List α) (sc : List Line) (p : Panic),
      (costLoop F k i cost sc).1 ≠ .panic p := by
  intro k
  induction k with
  | zero => intro i cost sc p; simp [costLoop]
  | succ k ih =>
    intro i cost sc p
    rcases nextLine_shape F sc with ⟨x, xs, sc1, hn⟩ | ⟨err, sc1, hn⟩ | hn
    · rw [costLoop_succ_ok F k i cost hn]
      exact ih _ _ _ p
    · rw [costLoop_succ_err F k i cost hn]
      simp
    · rw [costLoop_succ_overflow F k i cost hn]
      simp

theorem matrixLoop_no_panic (F : Platform α ε) (size : Int) (mismatch : LoadError ε) :
    ∀ (k i : Nat) (rows : List (List α)) (sc : List Line) (p : Panic),
      (matrixLoop F size mismatch k i rows sc).1 ≠ .panic p := by
  intro k
  induction k with
  | zero => intro i rows sc p; simp [matrixLoop]
  | succ k ih =>
    intro i rows sc p
    rcases nextLine_shape F sc with ⟨x, xs, sc1, hn⟩ | ⟨err, sc1, hn⟩ | hn
    · by_cases hlen : (((x :: xs).length : Nat) : Int) = size
      · rw [matrixLoop_succ_ok F size mismatch k i rows hn hlen]
        exact ih _ _ _ p
      · rw [matrixLoop_succ_mismatch F size mismatch k i rows hn hlen]
        simp
    · rw [matrixLoop_succ_err F size mismatch k i rows hn]
      simp
    · rw [matrixLoop_succ_overflow F size mismatch k i rows hn]
      simp

theorem readSize_no_panic (F : Platform α ε) (sc : List Line) (p : Panic) :
    (readSize F sc).1 ≠ .panic p := by
  rcases nextLine_shape F sc with ⟨x, xs, sc1, hn⟩ | ⟨err, sc1, hn⟩ | hn
  · rw [readSize_ok F hn]; simp
  · rw [readSize_err F hn]; simp
  · rw [readSize_overflow F hn]; simp

theorem readScaleFactor_no_panic (F : Platform α ε) (sc : List Line) (p : Panic) :
    (readScaleFactor F sc).1 ≠ .panic p := by
  rcases nextLine_shape F sc with ⟨x, xs, sc1, hn⟩ | ⟨err, sc1, hn⟩ | hn
  · rw [readScaleFactor_ok F hn]; simp
  · rw [readScaleFactor_err F hn]; simp
  · rw [readScaleFactor_overflow F hn]; simp

/-- The only panic a run of the loader can end in is the one of `make`. -/
theorem scanFile_panic (F : Platform α ε) (sc : List Line) (p : Panic)
    (h : (scanFile F sc).1 = .panic p) : p = .makeSliceLen := by
  unfold scanFile at h
  have n1 := readSize_no_panic F sc
  rcases h1 : readSize F sc with ⟨r1, sc1⟩
  rw [h1] at h n1
  cases r1 with
  | error err => simp at h
  | stackOverflow => simp at h
  | panic q => exact absurd rfl (n1 q)
  | cont size =>
    simp only at h
    have n2 := readScaleFactor_no_panic F sc1
    rcases h2 : readScaleFactor F sc1 with ⟨r2, sc2⟩
    rw [h2] at h n2
    cases r2 with
    | error err => simp at h
    | stackOverflow => simp at h
    | panic q => exact absurd rfl (n2 q)
    | cont scale =>
      simp only at h
      by_cases hneg : size < 0 ∨ F.maxFloats < size.toNat
      · rw [if_pos hneg] at h
        simp only [Outcome.panic.injEq] at h
        exact h.symm
      · rw [if_neg hneg] at h
        have n3 := costLoop_no_panic F size.toNat 0 (List.replicate size.toNat F.zero) sc2
        rcases h3 : costLoop F size.toNat 0 (List.replicate size.toNat F.zero) sc2 with ⟨r3, sc3⟩
        rw [h3] at h n3
        cases r3 with
        | error err => simp at h
        | stackOverflow => simp at h
        | panic q => exact absurd rfl (n3 q)
        | cont cost =>
          simp only at h
          by_cases hrows : F.maxRows < size.toNat
          · rw [if_pos hrows] at h
            simp only [Outcome.panic.injEq] at h
            exact h.symm
          · rw [if_neg hrows] at h
            have n4 := matrixLoop_no_panic F size (.distanceSize size) size.toNat 0
              (List.replicate size.toNat []) sc3
            rcases h4 : matrixLoop F size (.distanceSize size) size.toNat 0
              (List.replicate size.toNat []) sc3 with ⟨r4, sc4⟩
            rw [h4] at h n4
            cases r4 with
            | error err => simp at h
            | stackOverflow => simp at h
            | panic q => exact absurd rfl (n4 q)
            | cont distance =>
              simp only at h
              rw [if_neg hrows] at h
              have n5 := matrixLoop_no_panic F size (.flowDimension size) size.toNat 0
                (List.replicate size.toNat []) sc4
              rcases h5 : matrixLoop F size (.flowDimension size) size.toNat 0
                (List.replicate size.toNat []) sc4 with ⟨r5, sc5⟩
              rw [h5] at h n5
              cases r5 with
              | error err => simp at h
              | stackOverflow => simp at h
              | panic q => exact absurd rfl (n5 q)
              | cont flow => simp at h

/-! ## Inputs with valid tokens only -/

theorem valueBearing_of_valid (F : Platform α ε) {line : Line}
    (h : ∀ value ∈ tokens line, validFloat F value = true) :
    valueBearing F line = !blankLine line := by
  cases hb : blankLine line with
  | true => simp [valueBearing_blank F hb]
  | false =>
    have := (parseLine_good F hb ((parseLine_valid_iff F line).2 h)).1
    simp [valueBearing, this]

theorem filter_valueBearing_of_valid (F : Platform α ε) {lines : List Line}
    (h : ∀ line ∈ lines, ∀ value ∈ tokens line, validFloat F value = true) :
    lines.filter (valueBearing F) = nonBlank lines := by
  unfold nonBlank
  apply List.filter_congr
  intro line hl
  exact valueBearing_of_valid F (h line hl)

theorem mem_nonBlank {lines : List Line} {line : Line} (h : line ∈ nonBlank lines) :
    line ∈ lines ∧ blankLine line = false := by
  unfold nonBlank at h
  rw [List.mem_filter] at h
  exact ⟨h.1, by simpa using h.2⟩

/-- The non-blank lines of an input of deliverable lines with valid tokens
are lines the loader reads without trouble. -/
theorem good_of_valid (F : Platform α ε) {lines : List Line}
    (hdel : ∀ line ∈ lines, deliverable line = true)
    (hvalid : ∀ line ∈ lines, ∀ value ∈ tokens line, validFloat F value = true) :
    ∀ line ∈ nonBlank lines, Good F line := by
  intro line hl
  obtain ⟨hmem, hb⟩ := mem_nonBlank hl
  exact ⟨hdel line hmem, hb, (parseLine_valid_iff F line).2 (hvalid line hmem)⟩

theorem map_values_nonBlank (F : Platform α ε) {lines : List Line}
    (hvalid : ∀ line ∈ lines, ∀ value ∈ tokens line, validFloat F value = true) :
    (nonBlank lines).map (values F) = (nonBlank lines).map (parsedValues F) := by
  apply List.map_congr_left
  intro line hl
  exact values_eq_parsedValues F (hvalid line (mem_nonBlank hl).1)

/-! ## Inserting blank lines -/

theorem InsertBlank.nonBlank_eq {xs ys : List Line} (h : InsertBlank xs ys) :
    nonBlank ys = nonBlank xs := by
  induction h with
  | done => rfl
  | keep line _ ih =>
    cases hb : blankLine line with
    | true => rw [nonBlank_cons_blank _ hb, nonBlank_cons_blank _ hb, ih]
    | false => rw [nonBlank_cons_nonblank _ hb, nonBlank_cons_nonblank _ hb, ih]
  | blank b hb _ ih => rw [nonBlank_cons_blank _ hb, ih]

theorem blanksWithin_mono (d : Nat) :
    ∀ (sc : List Line) (k k' : Nat), k ≤ k' → blanksWithin d k' sc = true →
      blanksWithin d k sc = true := by
  intro sc
  induction sc with
  | nil => intro k k' _ _; rfl
  | cons line sc ih =>
    intro k k' hk h
    cases hb : blankLine line with
    | true =>
      obtain ⟨hd, hlt, hrest⟩ := blanksWithin_cons_blank hb h
      have := ih (k + 1) (k' + 1) (by omega) hrest
      simp [blanksWithin, hb, hd, this]
      omega
    | false =>
      rw [blanksWithin_cons_nonblank hb] at h ⊢
      exact h

/-- An input with blank lines inserted that is within the limits was within
the limits before. -/
theorem blanksWithin_of_insertBlank {d : Nat} {xs ys : List Line} (h : InsertBlank xs ys) :
    ∀ k, blanksWithin d k ys = true → blanksWithin d k xs = true := by
  induction h with
  | done => intro k _; rfl
  | keep line _ ih =>
    intro k hw
    cases hb : blankLine line with
    | true =>
      obtain ⟨hd, hlt, hrest⟩ := blanksWithin_cons_blank hb hw
      have := ih (k + 1) hrest
      simp [blanksWithin, hb, hd, this]
      omega
    | false =>
      rw [blanksWithin_cons_nonblank hb] at hw ⊢
      exact ih 0 hw
  | blank b hb _ ih =>
    intro k hw
    obtain ⟨-, -, hrest⟩ := blanksWithin_cons_blank hb hw
    exact ih k (blanksWithin_mono d _ k (k + 1) (by omega) hrest)

/-! ## Values that are not read -/

theorem valueLines_cons_of_ok (F : Platform α ε) {line : Line} {vs : List α} {e : Option ε}
    (p : List Line) (h : parseLine F line = (true, vs, e)) :
    valueLines F (line :: p) = valueLines F p + 1 := by
  simp [valueLines, valueBearing, h]

theorem valueLines_cons_of_skip (F : Platform α ε) {line : Line} {vs : List α} {e : Option ε}
    (p : List Line) (h : parseLine F line = (false, vs, e)) :
    valueLines F (line :: p) = valueLines F p := by
  simp [valueLines, valueBearing, h]

theorem ReplacedAhead.eq_of_zero {F : Platform α ε} {l l' : Line} {post sc sc' : List Line}
    (h : ReplacedAhead F l l' post 0 sc sc') : sc = sc' := by
  rcases h with h | ⟨p, -, -, hp⟩
  · exact h
  · exact absurd hp (Nat.not_lt_zero _)

/-- A successful `nextLine` on a scanner with the line `l` ahead reads the same
first value when `l` is replaced by a deliverable line `l'`, both holding the
first value `x`. -/
theorem nextLineAt_replaced (F : Platform α ε) {l l' : Line} {x : α} {xs xs' : List α}
    (post : List Line) (hl : parseLine F l = (true, x :: xs, none))
    (hd' : deliverable l' = true)
    (hl' : parseLine F l' = (true, x :: xs', none)) (c : Nat) :
    ∀ (p : List Line) (d : Nat) (v : α) (vs : List α) (sc1 : List Line),
      valueLines F p < c + 1 →
      nextLineAt F d (p ++ l :: post) = .returns ((true, v :: vs, none), sc1) →
      ∃ vs' sc1', nextLineAt F d (p ++ l' :: post) = .returns ((true, v :: vs', none), sc1') ∧
        ReplacedAhead F l l' post c sc1 sc1' := by
  intro p
  induction p with
  | nil =>
    intro d v vs sc1 _ h
    rw [List.nil_append] at h ⊢
    cases hd : deliverable l with
    | false =>
      rw [nextLineAt_long F d post hd] at h
      simp at h
    | true =>
      rw [nextLineAt_cons_ok F d post hd hl] at h
      simp only [Call.returns.injEq, Prod.mk.injEq, List.cons.injEq, true_and, and_true] at h
      obtain ⟨⟨hv, -⟩, hsc⟩ := h
      subst hv
      subst hsc
      exact ⟨xs', post, nextLineAt_cons_ok F d post hd' hl', Or.inl rfl⟩
  | cons q p ih =>
    intro d v vs sc1 hcount h
    rw [List.cons_append] at h ⊢
    cases hd : deliverable q with
    | false =>
      rw [nextLineAt_long F d _ hd] at h
      simp at h
    | true =>
      rcases parseLine_shape F q with ⟨y, ys, hq⟩ | ⟨err, hq⟩ | hq
      · rw [nextLineAt_cons_ok F d _ hd hq] at h
        simp only [Call.returns.injEq, Prod.mk.injEq, List.cons.injEq, true_and, and_true] at h
        obtain ⟨⟨hv, hvs⟩, hsc⟩ := h
        subst hv
        subst hvs
        subst hsc
        rw [valueLines_cons_of_ok F p hq] at hcount
        exact ⟨ys, _, nextLineAt_cons_ok F d _ hd hq, Or.inr ⟨p, rfl, rfl, by omega⟩⟩
      · rw [nextLineAt_cons_err F d _ hd hq] at h
        simp at h
      · cases d with
        | zero =>
          rw [nextLineAt_cons_overflow F _ hd hq] at h
          simp at h
        | succ d =>
          rw [nextLineAt_cons_skip F d _ hd hq] at h
          rw [valueLines_cons_of_skip F p hq] at hcount
          rw [nextLineAt_cons_skip F d _ hd hq]
          exact ih d v vs sc1 hcount h

theorem nextLine_replacedAhead (F : Platform α ε) {l l' : Line} {x : α} {xs xs' : List α}
    {post sc sc' sc1 : List Line} {v : α} {vs : List α} {c : Nat}
    (hl : parseLine F l = (true, x :: xs, none)) (hd' : deliverable l' = true)
    (hl' : parseLine F l' = (true, x :: xs', none))
    (hr : ReplacedAhead F l l' post (c + 1) sc sc')
    (h : nextLine F sc = .returns ((true, v :: vs, none), sc1)) :
    ∃ vs' sc1', nextLine F sc' = .returns ((true, v :: vs', none), sc1') ∧
      ReplacedAhead F l l' post c sc1 sc1' := by
  rcases hr with hr | ⟨p, hsc, hsc', hp⟩
  · subst hr
    exact ⟨vs, sc1, h, Or.inl rfl⟩
  · subst hsc
    subst hsc'
    exact nextLineAt_replaced F post hl hd' hl' c p _ v vs sc1 hp h

theorem readSize_replaced (F : Platform α ε) {l l' : Line} {x : α} {xs xs' : List α}
    {post sc sc' sc1 : List Line} {size : Int} {c : Nat}
    (hl : parseLine F l = (true, x :: xs, none)) (hd' : deliverable l' = true)
    (hl' : parseLine F l' = (true, x :: xs', none))
    (hr : ReplacedAhead F l l' post (c + 1) sc sc')
    (h : readSize F sc = (.cont size, sc1)) :
    ∃ sc1', readSize F sc' = (.cont size, sc1') ∧ ReplacedAhead F l l' post c sc1 sc1' := by
  rcases nextLine_shape F sc with ⟨v, vs, sc2, hn⟩ | ⟨err, sc2, hn⟩ | hn
  · rw [readSize_ok F hn] at h
    simp only [Prod.mk.injEq, Step.cont.injEq] at h
    obtain ⟨hs, hsc⟩ := h
    subst hs
    subst hsc
    obtain ⟨vs', sc1', hn', hr'⟩ := nextLine_replacedAhead F hl hd' hl' hr hn
    exact ⟨sc1', readSize_ok F hn', hr'⟩
  · rw [readSize_err F hn] at h
    simp at h
  · rw [readSize_overflow F hn] at h
    simp at h

theorem readScaleFactor_replaced (F : Platform α ε) {l l' : Line} {x : α} {xs xs' : List α}
    {post sc sc' sc1 : List Line} {scale : α} {c : Nat}
    (hl : parseLine F l = (true, x :: xs, none)) (hd' : deliverable l' = true)
    (hl' : parseLine F l' = (true, x :: xs', none))
    (hr : ReplacedAhead F l l' post (c + 1) sc sc')
    (h : readScaleFactor F sc = (.cont scale, sc1)) :
    ∃ sc1', readScaleFactor F sc' = (.cont scale, sc1') ∧
      ReplacedAhead F l l' post c sc1 sc1' := by
  rcases nextLine_shape F sc with ⟨v, vs, sc2, hn⟩ | ⟨err, sc2, hn⟩ | hn
  · rw [readScaleFactor_ok F hn] at h
    simp only [Prod.mk.injEq, Step.cont.injEq] at h
    obtain ⟨hs, hsc⟩ := h
    subst hs
    subst hsc
    obtain ⟨vs', sc1', hn', hr'⟩ := nextLine_replacedAhead F hl hd' hl' hr hn
    exact ⟨sc1', readScaleFactor_ok F hn', hr'⟩
  · rw [readScaleFactor_err F hn] at h
    simp at h
  · rw [readScaleFactor_overflow F hn] at h
    simp at h

theorem costLoop_replaced (F : Platform α ε) {l l' : Line} {x : α} {xs xs' : List α}
    (post : List Line) (hl : parseLine F l = (true, x :: xs, none))
    (hd' : deliverable l' = true) (hl' : parseLine F l' = (true, x :: xs', none)) :
    ∀ (k i : Nat) (cost cost' : List α) (sc sc' sc3 : List Line),
      ReplacedAhead F l l' post k sc sc' →
      costLoop F k i cost sc = (.cont cost', sc3) →
      costLoop F k i cost sc' = (.cont cost', sc3) := by
  intro k
  induction k with
  | zero =>
    intro i cost cost' sc sc' sc3 hr h
    rw [← hr.eq_of_zero]
    exact h
  | succ k ih =>
    intro i cost cost' sc sc' sc3 hr h
    rcases nextLine_shape F sc with ⟨v, vs, sc1, hn⟩ | ⟨err, sc1, hn⟩ | hn
    · rw [costLoop_succ_ok F k i cost hn] at h
      obtain ⟨vs', sc1', hn', hr'⟩ := nextLine_replacedAhead F hl hd' hl' hr hn
      rw [costLoop_succ_ok F k i cost hn']
      exact ih _ _ _ _ _ _ hr' h
    · rw [costLoop_succ_err F k i cost hn] at h
      simp at h
    · rw [costLoop_succ_overflow F k i cost hn] at h
      simp at h

/-! ## Lines the scanner cannot deliver -/

theorem parseLine_pad (F : Platform α ε) (pre line post : Line) (hpre : blankLine pre = true)
    (hpost : blankLine post = true) : parseLine F (pre ++ line ++ post) = parseLine F line := by
  apply parseLine_congr
  rw [TrimSpace_pad pre line post hpre hpost]

theorem tokens_pad (pre line post : Line) (hpre : blankLine pre = true)
    (hpost : blankLine post = true) : tokens (pre ++ line ++ post) = tokens line := by
  unfold tokens
  rw [TrimSpace_pad pre line post hpre hpost]

theorem blankLine_append (a b : Line) : blankLine (a ++ b) = (blankLine a && blankLine b) := by
  simp [blankLine]

theorem not_deliverable_spaces_left (k : Nat) (line : Line) (h : MaxScanTokenSize ≤ k) :
    deliverable (List.replicate k ' ' ++ line) = false := by
  have : ¬ lineBytes (List.replicate k ' ' ++ line) < MaxScanTokenSize := by
    rw [lineBytes_append, lineBytes_replicate_space]
    omega
  simpa [deliverable] using this

theorem not_deliverable_spaces_right (k : Nat) (line : Line) (h : MaxScanTokenSize ≤ k) :
    deliverable (line ++ List.replicate k ' ') = false := by
  have : ¬ lineBytes (line ++ List.replicate k ' ') < MaxScanTokenSize := by
    rw [lineBytes_append, lineBytes_replicate_space]
    omega
  simpa [deliverable] using this

theorem not_deliverable_spaces (k : Nat) (h : MaxScanTokenSize ≤ k) :
    deliverable (List.replicate k ' ') = false := by
  have : ¬ lineBytes (List.replicate k ' ') < MaxScanTokenSize := by
    rw [lineBytes_replicate_space]
    omega
  simpa [deliverable] using this

theorem nextLine_long (F : Platform α ε) {raw : Line} (sc : List Line)
    (h : deliverable raw = false) :
    nextLine F (raw :: sc) = .returns ((false, [], some .unexpectedEOF), raw :: sc) :=
  nextLineAt_long F _ sc h

theorem FromFile_eq (F : Platform α ε) (lines : List Line) :
    FromFile F lines = (scanFile F lines).1 := rfl

theorem scanFile_readSize_error (F : Platform α ε) {sc sc' : List Line} {err : LoadError ε}
    (h : readSize F sc = (.error err, sc')) : scanFile F sc = (.error err, sc') := by
  simp [scanFile, h]

theorem scanFile_readSize_overflow (F : Platform α ε) {sc sc' : List Line}
    (h : readSize F sc = (.stackOverflow, sc')) : scanFile F sc = (.stackOverflow, sc') := by
  simp [scanFile, h]

theorem insertBlank_self : ∀ lines : List Line, InsertBlank lines lines
  | [] => .done
  | line :: lines => .keep line (insertBlank_self lines)

theorem insertBlank_replicate (lines : List Line) :
    ∀ k : Nat, InsertBlank lines (List.replicate k [] ++ lines)
  | 0 => insertBlank_self lines
  | k + 1 => .blank [] (by decide) (insertBlank_replicate lines k)

/-- A stack overflow of `nextLine` has more deliverable blank lines in front of
the scanner than there is room for nested calls. -/
theorem nextLineAt_overflow_inv (F : Platform α ε) :
    ∀ (sc : List Line) (d : Nat), nextLineAt F d sc = .stackOverflow →
      ∃ blanks rest, sc = blanks ++ rest ∧ blanks.length = d + 1 ∧
        ∀ b ∈ blanks, blankLine b = true ∧ deliverable b = true := by
  intro sc
  induction sc with
  | nil =>
    intro d h
    rw [nextLineAt_nil] at h
    simp at h
  | cons l sc ih =>
    intro d h
    cases hd : deliverable l with
    | false =>
      rw [nextLineAt_long F d sc hd] at h
      simp at h
    | true =>
      rcases parseLine_shape F l with ⟨x, xs, hp⟩ | ⟨err, hp⟩ | hp
      · rw [nextLineAt_cons_ok F d sc hd hp] at h
        simp at h
      · rw [nextLineAt_cons_err F d sc hd hp] at h
        simp at h
      · have hb := blank_of_parseLine_skip F hp
        cases d with
        | zero => exact ⟨[l], sc, rfl, rfl, by simp [hb, hd]⟩
        | succ d =>
          rw [nextLineAt_cons_skip F d sc hd hp] at h
          obtain ⟨blanks, rest, hsc, hlen, hall⟩ := ih d h
          refine ⟨l :: blanks, rest, by rw [hsc]; rfl, by simp [hlen], ?_⟩
          intro b hmem
          rcases List.mem_cons.1 hmem with rfl | hmem
          · exact ⟨hb, hd⟩
          · exact hall b hmem

theorem withinLimits_iff (F : Platform α ε) (lines : List Line) :
    withinLimits F lines = true ↔
      (∀ line ∈ lines, deliverable line = true) ∧ blanksWithin F.stackFrames 0 lines = true := by
  simp [withinLimits]

/-! ## The sample runs -/

theorem FromFile_longRowLines : FromFile intOps longRowLines = .error .unexpectedEOF := by
  have h1 : readSize intOps longRowLines = (.cont (1 : Int),
      ["1".toList, "5".toList, List.replicate 70000 ' ' ++ "0".toList, "0".toList]) :=
    readSize_ok intOps (nextLine_cons_ok intOps _ (by decide)
      (by decide : parseLine intOps "1".toList = (true, [1], none)))
  have h2 : readScaleFactor intOps
      ["1".toList, "5".toList, List.replicate 70000 ' ' ++ "0".toList, "0".toList]
      = (.cont (1 : Int), ["5".toList, List.replicate 70000 ' ' ++ "0".toList, "0".toList]) :=
    readScaleFactor_ok intOps (nextLine_cons_ok intOps _ (by decide)
      (by decide : parseLine intOps "1".toList = (true, [1], none)))
  have h3 : costLoop intOps (1 : Int).toNat 0 (List.replicate (1 : Int).toNat intOps.zero)
      ["5".toList, List.replicate 70000 ' ' ++ "0".toList, "0".toList]
      = (.cont [5], [List.replicate 70000 ' ' ++ "0".toList, "0".toList]) :=
    costLoop_succ_ok intOps 0 0 [0] (nextLine_cons_ok intOps _ (by decide)
      (by decide : parseLine intOps "5".toList = (true, [5], none)))
  have h4 : matrixLoop intOps 1 (.distanceSize 1) (1 : Int).toNat 0
      (List.replicate (1 : Int).toNat []) [List.replicate 70000 ' ' ++ "0".toList, "0".toList]
      = (.error .unexpectedEOF, [List.replicate 70000 ' ' ++ "0".toList, "0".toList]) :=
    matrixLoop_succ_err intOps 1 (.distanceSize 1) 0 0 [[]]
      (nextLine_long intOps ["0".toList]
        (not_deliverable_spaces_left 70000 "0".toList (by decide)))
  rw [FromFile_eq, scanFile_distance_error intOps h1 h2 (by decide) h3 h4]

theorem FromFile_longCostLines : FromFile intOps longCostLines = .error .unexpectedEOF := by
  have h1 : readSize intOps longCostLines = (.cont (1 : Int),
      ["1".toList, "5 8".toList ++ List.replicate 70000 ' ', "0".toList, "0".toList]) :=
    readSize_ok intOps (nextLine_cons_ok intOps _ (by decide)
      (by decide : parseLine intOps "1".toList = (true, [1], none)))
  have h2 : readScaleFactor intOps
      ["1".toList, "5 8".toList ++ List.replicate 70000 ' ', "0".toList, "0".toList]
      = (.cont (1 : Int), ["5 8".toList ++ List.replicate 70000 ' ', "0".toList, "0".toList]) :=
    readScaleFactor_ok intOps (nextLine_cons_ok intOps _ (by decide)
      (by decide : parseLine intOps "1".toList = (true, [1], none)))
  have h3 : costLoop intOps (1 : Int).toNat 0 (List.replicate (1 : Int).toNat intOps.zero)
      ["5 8".toList ++ List.replicate 70000 ' ', "0".toList, "0".toList]
      = (.error .unexpectedEOF,
        ["5 8".toList ++ List.replicate 70000 ' ', "0".toList, "0".toList]) :=
    costLoop_succ_err intOps 0 0 [0]
      (nextLine_long intOps ["0".toList, "0".toList]
        (not_deliverable_spaces_right 70000 "5 8".toList (by decide)))
  rw [FromFile_eq, scanFile_cost_error intOps h1 h2 (by decide) h3]

theorem FromFile_longBlankLines : FromFile intOps longBlankLines = .error .unexpectedEOF := by
  rw [FromFile_eq, longBlankLines, scanFile_readSize_error intOps (readSize_err intOps (nextLine_long intOps unitLines
    (not_deliverable_spaces 70000 (by decide))))]

/-- More deliverable blank lines in front of an input than nested calls of
`nextLine` fit on the stack make the loader overflow the stack. -/
theorem FromFile_overflow (F : Platform α ε) (blanks lines : List Line)
    (hall : ∀ b ∈ blanks, blankLine b = true ∧ deliverable b = true)
    (hlen : F.stackFrames < blanks.length) :
    FromFile F (blanks ++ lines) = .stackOverflow := by
  rw [FromFile_eq, scanFile_readSize_overflow F (readSize_overflow F
    (nextLineAt_overflow F blanks _ lines hall hlen))]

theorem replicate_empty_blank (k : Nat) :
    ∀ b ∈ List.replicate k ([] : Line), blankLine b = true ∧ deliverable b = true := by
  intro b hb
  rw [List.eq_of_mem_replicate hb]
  exact ⟨by decide, by decide⟩

/-! ## The loader's contract -/

/-- C1: whenever `FromFile` returns an instance without error, the four
structures share its size: `InstallationCost` has `Size` entries, `Distance`
and `Flow` have `Size` rows of `Size` values each.  Accordingly an input
(`n` its declared size, `body` the values of its non-blank lines after the
first two) one of whose distance or flow rows, `body[j]` with `n ≤ j < 3n`,
holds another number of values than `n` is never returned as an instance; it
is rejected with the dimension error of the distance or of the flow matrix
when the input is within the limits of the platform (the scanner can deliver
its lines, its runs of blank lines fit the stack, `make` accepts `n`). -/
theorem FromFile_dimensions (F : Platform α ε) (lines : List Line) :
    (∀ data, FromFile F lines = .ok data →
      (data.InstallationCost.length : Int) = data.Size ∧
      (data.Distance.length : Int) = data.Size ∧
      (∀ row ∈ data.Distance, (row.length : Int) = data.Size) ∧
      (data.Flow.length : Int) = data.Size ∧
      (∀ row ∈ data.Flow, (row.length : Int) = data.Size)) ∧
    (∀ (v0 sf : α) (r0 r1 : List α) (body : List (List α)) (n j : Nat) (row : List α),
      (∀ line ∈ lines, ∀ value ∈ tokens line, validFloat F value = true) →
      (nonBlank lines).map (parsedValues F) = (v0 :: r0) :: (sf :: r1) :: body →
      F.toInt v0 = (n : Int) → n ≤ j → j < 3 * n → body[j]? = some row → row.length ≠ n →
      (∀ data, FromFile F lines ≠ .ok data) ∧
      (withinLimits F lines = true → n ≤ F.maxFloats → n ≤ F.maxRows →
        FromFile F lines = .error (.distanceSize n) ∨
          FromFile F lines = .error (.flowDimension n))) := by
  constructor
  · intro data h
    have hs : scanFile F lines = (.ok data, (scanFile F lines).2) := by
      rw [← h]
      rfl
    exact (scanFile_ok_dims F hs).2
  · intro v0 sf r0 r1 body n j row hvalid hV hn hj1 hj2 hrow hne
    have hV' : (nonBlank lines).map (values F) = (v0 :: r0) :: (sf :: r1) :: body := by
      rw [map_values_nonBlank F hvalid]
      exact hV
    constructor
    · intro data h
      have hs : scanFile F lines = (.ok data, (scanFile F lines).2) := by
        rw [← h]
        rfl
      obtain ⟨-, -, hdl, hdr, hfl, hfr⟩ := scanFile_ok_dims F hs
      obtain ⟨p, l0, l1, c, d, f, x, xs, ys, hsc, hf, hc, hd, hfl', hv0, hsize, -, -, hdist,
        hflow, -⟩ := scanFile_ok_local F hs
      have hnb : nonBlank lines =
          l0 :: l1 :: (c ++ (d ++ f)) ++ (scanFile F lines).2.filter (valueBearing F) := by
        rw [← filter_valueBearing_of_valid F hvalid]
        conv_lhs => rw [hsc]
        rw [List.filter_append, hf]
      rw [hnb] at hV'
      simp only [List.cons_append, List.map_cons, List.cons.injEq, List.map_append] at hV'
      obtain ⟨h0, -, hbody⟩ := hV'
      rw [hv0] at h0
      have hx : x = v0 := (List.cons.inj h0).1
      have hS : data.Size = (n : Int) := by rw [hsize, hx, hn]
      have hto : data.Size.toNat = n := by rw [hS]; simp
      rw [hto] at hc hd hfl'
      rw [← hbody, List.append_assoc,
        List.getElem?_append_right (by simpa [hc] using hj1), List.length_map, hc,
        List.getElem?_append_left (by simp [hd, hfl']; omega),
        ← hdist, ← hflow] at hrow
      have hmem := List.getElem?_mem hrow
      rcases List.mem_append.1 hmem with hm | hm
      · have := hdr row hm
        rw [hS] at this
        exact hne (by exact_mod_cast this)
      · have := hfr row hm
        rw [hS] at this
        exact hne (by exact_mod_cast this)
    · intro hlim hfloats hrows
      obtain ⟨hdel, hblank⟩ := (withinLimits_iff F lines).1 hlim
      have := scanFile_mismatch F n j row (good_of_valid F hdel hvalid) hV' hn
        ⟨hfloats, hrows⟩ hj1 hj2 hrow hne
      rw [← FromFile_nonBlank F hblank]
      exact this

/-- C1, on the sample file (loaded with all dimensions 2) and on the file
whose second distance row holds three values (rejected). -/
theorem FromFile_dimensions_witness :
    FromFile intOps sampleLines = .ok sampleData ∧
    ((sampleData.InstallationCost.length : Int) = sampleData.Size ∧
      (sampleData.Distance.length : Int) = sampleData.Size ∧
      (∀ row ∈ sampleData.Distance, (row.length : Int) = sampleData.Size) ∧
      (sampleData.Flow.length : Int) = sampleData.Size ∧
      (∀ row ∈ sampleData.Flow, (row.length : Int) = sampleData.Size)) ∧
    (∀ data, FromFile intOps mismatchLines ≠ .ok data) ∧
    (FromFile intOps mismatchLines = .error (.distanceSize (2 : Nat)) ∨
      FromFile intOps mismatchLines = .error (.flowDimension (2 : Nat))) :=
  ⟨by decide,
   (FromFile_dimensions intOps sampleLines).1 sampleData (by decide),
   ((FromFile_dimensions intOps mismatchLines).2 2 1 [] []
     [[5], [6], [0, 1], [1, 0, 7], [0, 3], [3, 0]]
     2 3 [1, 0, 7] (by decide) (by decide) (by decide) (by decide) (by decide) (by decide)
     (by decide)).1,
   ((FromFile_dimensions intOps mismatchLines).2 2 1 [] []
     [[5], [6], [0, 1], [1, 0, 7], [0, 3], [3, 0]]
     2 3 [1, 0, 7] (by decide) (by decide) (by decide) (by decide) (by decide) (by decide)
     (by decide)).2 (by decide) (by decide) (by decide)⟩

/-- C2 fails as stated: the file with the lines `1`, `1`, `5`, seventy
thousand spaces and `0`, and `0` meets every condition of C2 (its tokens are
valid numbers, its non-blank lines hold the values of a complete file of
size 1), and the loader answers it with `unexpected end of file`: the scanner
cannot deliver its fourth line, which `nextLine` reports like the end of
the input. -/
theorem FromFile_long_line_rejected :
    (∀ line ∈ longRowLines, ∀ value ∈ tokens line, validFloat intOps value = true) ∧
    (nonBlank longRowLines).map (parsedValues intOps) = [[1], [1], [5], [0], [0]] ∧
    FromFile intOps longRowLines = .error .unexpectedEOF := by
  have htok : tokens (List.replicate 70000 ' ' ++ "0".toList) = tokens "0".toList := by
    have := tokens_pad (List.replicate 70000 ' ') "0".toList []
      (blankLine_replicate_space 70000) (by decide)
    rwa [List.append_nil] at this
  have hblank : blankLine (List.replicate 70000 ' ' ++ "0".toList) = false := by
    rw [blankLine_append, blankLine_replicate_space]
    decide
  refine ⟨?_, ?_, FromFile_longRowLines⟩
  · intro line hl
    unfold longRowLines at hl
    rcases List.mem_cons.1 hl with rfl | hl
    · decide
    rcases List.mem_cons.1 hl with rfl | hl
    · decide
    rcases List.mem_cons.1 hl with rfl | hl
    · decide
    rcases List.mem_cons.1 hl with rfl | hl
    · rw [htok]
      decide
    rcases List.mem_cons.1 hl with rfl | hl
    · decide
    · exact absurd hl (List.not_mem_nil _)
  · have e : nonBlank longRowLines = longRowLines := by
      unfold longRowLines
      rw [nonBlank_cons_nonblank _ (by decide), nonBlank_cons_nonblank _ (by decide),
        nonBlank_cons_nonblank _ (by decide), nonBlank_cons_nonblank _ hblank,
        nonBlank_cons_nonblank _ (by decide)]
      rfl
    rw [e]
    simp only [longRowLines, List.map_cons, List.map_nil, parsedValues, htok]
    decide

/-- C2, amended: an input within the limits of the platform (the scanner can
deliver every line, no more blank lines follow one another than nested calls
of `nextLine` fit on the stack) all of whose tokens are valid numbers, whose
non-blank lines hold the values `(v0 :: r0) :: (sf :: r1) :: body`, with
`int(v0) = n ≥ 0` a length `make` accepts, at least `3n` lines in `body`, and
`n` values in each of `body[n] .. body[3n-1]`, loads successfully with
`Size = n`, `ScaleFactor = sf`, `InstallationCost[i]` the first value of
`body[i]`, `Distance[i] = body[n + i]` and `Flow[i] = body[2n + i]` for
`i < n` (every line of `body` holding at least one value). -/
theorem FromFile_wellFormed (F : Platform α ε) (lines : List Line)
    (v0 sf : α) (r0 r1 : List α) (body : List (List α)) (n : Nat)
    (hlim : withinLimits F lines = true)
    (hvalid : ∀ line ∈ lines, ∀ value ∈ tokens line, validFloat F value = true)
    (hV : (nonBlank lines).map (parsedValues F) = (v0 :: r0) :: (sf :: r1) :: body)
    (hn : F.toInt v0 = (n : Int))
    (hmake : n ≤ F.maxFloats ∧ n ≤ F.maxRows)
    (hlen : 3 * n ≤ body.length)
    (hrows : ∀ j, n ≤ j → j < 3 * n → ∀ row, body[j]? = some row → row.length = n) :
    FromFile F lines = .ok ⟨(n : Int), sf, (body.take n).map (fun row => row.headD F.zero),
      (body.drop n).take n, (body.drop (2 * n)).take n⟩ ∧
    ∀ row ∈ body, row ≠ [] := by
  obtain ⟨hdel, hblank⟩ := (withinLimits_iff F lines).1 hlim
  have hgood := good_of_valid F hdel hvalid
  have hV' : (nonBlank lines).map (values F) = (v0 :: r0) :: (sf :: r1) :: body := by
    rw [map_values_nonBlank F hvalid]
    exact hV
  constructor
  · rw [← FromFile_nonBlank F hblank]
    exact scanFile_wellFormed F n hgood hV' hn hmake hlen hrows
  · intro row hrow
    have hmem : row ∈ (nonBlank lines).map (values F) := by
      rw [hV']
      simp [hrow]
    obtain ⟨line, hl, rfl⟩ := List.mem_map.1 hmem
    exact values_ne_nil_of_good F (hgood line hl)

/-- C2 amended, on the sample file. -/
theorem FromFile_wellFormed_witness :
    FromFile intOps sampleLines = .ok ⟨2, 1, [5, 6], [[0, 1], [1, 0]], [[0, 3], [3, 0]]⟩ ∧
    ∀ row ∈ [[5], [6], [0, 1], [1, 0], [0, 3], [3, 0]], row ≠ ([] : List Int) :=
  FromFile_wellFormed intOps sampleLines 2 1 [] []
    [[5], [6], [0, 1], [1, 0], [0, 3], [3, 0]] 2 (by decide) (by decide) (by decide)
    (by decide) (by decide) (by decide) (by
      intro j h1 h2 row hrow
      have hj : j = 2 ∨ j = 3 ∨ j = 4 ∨ j = 5 := by omega
      rcases hj with rfl | rfl | rfl | rfl <;> simp at hrow <;> simp [← hrow])

/-- C3: `parseLine` returns an error, with `ok = false` and no values, exactly
when some token of the line is not a valid float; and every line that a run of
`FromFile` consumes (the line at an index `k` below the number of lines the
scanner has delivered when the run ends) and that holds such a token makes
`FromFile` return the `ParseFloat` error of that line and no instance. -/
theorem parse_errors_fail_fast (F : Platform α ε) :
    (∀ l : Line, ((∃ e, (parseLine F l).2.2 = some e) ↔
        ∃ value ∈ tokens l, validFloat F value = false) ∧
      ∀ e, (parseLine F l).2.2 = some e → parseLine F l = (false, [], some e)) ∧
    (∀ (lines : List Line) (k : Nat) (line : Line) (err : ε),
      lines[k]? = some line →
      k < lines.length - (scanFile F lines).2.length →
      (parseLine F line).2.2 = some err →
      FromFile F lines = .error (.parse err)) := by
  constructor
  · intro l
    constructor
    · rw [← parseLine_error_iff]
      constructor
      · rintro ⟨e, he⟩
        exact ⟨e, parseLine_error_shape F he⟩
      · rintro ⟨e, he⟩
        exact ⟨e, by rw [he]⟩
    · intro e he
      exact parseLine_error_shape F he
  · intro lines k line err hline hk herr
    obtain ⟨pre, hpre, hall⟩ := scanFile_consumed F lines
    have hlen : lines.length = pre.length + (scanFile F lines).2.length := by
      conv_lhs => rw [hpre]
      simp
    have hk' : k < pre.length := by omega
    have hmem : line ∈ pre := by
      apply List.getElem?_mem (n := k)
      rw [hpre, List.getElem?_append_left hk'] at hline
      exact hline
    exact hall line hmem err herr

/-- C3, on the file whose third line is `5 x`: the line is consumed, and the
load fails with the error of the token `x`. -/
theorem parse_errors_fail_fast_witness :
    malformedLines[2]? = some "5 x".toList ∧
    2 < malformedLines.length - (scanFile intOps malformedLines).2.length ∧
    (parseLine intOps "5 x".toList).2.2 = some ['x'] ∧
    FromFile intOps malformedLines = .error (.parse ['x']) :=
  ⟨by decide, by decide, by decide,
   (parse_errors_fail_fast intOps).2 malformedLines 2 "5 x".toList ['x'] (by decide)
     (by decide) (by decide)⟩

/-- C4 fails as stated: the file that declares size 0 is loaded without error,
as an instance of size 0. -/
theorem FromFile_size_zero_loaded :
    ∃ data, FromFile intOps zeroSizeLines = .ok data ∧ ¬ (1 ≤ data.Size) :=
  ⟨⟨0, 1, [], [], []⟩, by decide, by decide⟩

/-- C4, amended: every instance `FromFile` returns without error has
`Size ≥ 0`, and an input whose declared size (the value the first statement
of `FromFile` reads) is negative is never returned as a loaded instance. -/
theorem FromFile_size_nonneg (F : Platform α ε) (lines : List Line) :
    (∀ data, FromFile F lines = .ok data → 0 ≤ data.Size) ∧
    (∀ size sc, readSize F lines = (.cont size, sc) → size < 0 →
      ∀ data, FromFile F lines ≠ .ok data) := by
  have key : ∀ data, FromFile F lines = .ok data →
      0 ≤ data.Size ∧ ∃ sc, readSize F lines = (.cont data.Size, sc) := by
    intro data h
    have hs : scanFile F lines = (.ok data, (scanFile F lines).2) := by
      rw [← h]
      rfl
    obtain ⟨sc1, -, -, -, h1, -, hpos, -⟩ := scanFile_ok_inv F hs
    exact ⟨hpos.1, sc1, h1⟩
  constructor
  · intro data h
    exact (key data h).1
  · intro size sc hsize hneg data h
    obtain ⟨hpos, sc1, h1⟩ := key data h
    rw [hsize] at h1
    simp only [Prod.mk.injEq, Step.cont.injEq] at h1
    omega

/-- C4 amended, on the file that declares size 0 and on the file that declares
size -1. -/
theorem FromFile_size_nonneg_witness :
    (FromFile intOps zeroSizeLines = .ok ⟨0, 1, [], [], []⟩ ∧ (0 : Int) ≤ 0) ∧
    ∀ data, FromFile intOps negativeSizeLines ≠ .ok data :=
  ⟨⟨by decide, (FromFile_size_nonneg intOps zeroSizeLines).1 ⟨0, 1, [], [], []⟩ (by decide)⟩,
   (FromFile_size_nonneg intOps negativeSizeLines).2 (-1) ["1".toList] (by decide)
     (by decide)⟩

/-- C5 fails on the code: on the file that declares size -1 the loader reads
the two header lines and then aborts in `make([]float64, data.Size)`, with
neither an instance nor an error. -/
theorem FromFile_negative_size_panics :
    FromFile intOps negativeSizeLines = .panic .makeSliceLen := by
  decide

/-- C9 fails as stated: a blank line of seventy thousand spaces put in front
of the file `unitLines`, which loads, makes the loader answer `unexpected end
of file`; sixteen million empty lines put in front of it make the loader
overflow the stack, as does on every platform one more empty line than
nested calls of `nextLine` fit on the stack; and on a scanner with the line
`x` in front of the line `3 4`, `nextLine` returns the `ParseFloat` error of
`x`, not the values of the first following line that holds a value. -/
theorem blank_line_breaks_load :
    (blankLine (List.replicate 70000 ' ') = true ∧
      InsertBlank unitLines longBlankLines ∧
      FromFile intOps unitLines = .ok unitData ∧
      FromFile intOps longBlankLines = .error .unexpectedEOF) ∧
    (InsertBlank unitLines (List.replicate 16000000 [] ++ unitLines) ∧
      FromFile intOps (List.replicate 16000000 [] ++ unitLines) = .stackOverflow) ∧
    (∀ F : Platform Int (List Char),
      InsertBlank unitLines (List.replicate (F.stackFrames + 1) [] ++ unitLines) ∧
      FromFile F (List.replicate (F.stackFrames + 1) [] ++ unitLines) = .stackOverflow) ∧
    (parseLine intOps "3 4".toList = (true, [3, 4], none) ∧
      nextLine intOps ["x".toList, "3 4".toList]
        = .returns ((false, [], some (.parse ['x'])), ["3 4".toList])) := by
  refine ⟨⟨blankLine_replicate_space 70000,
    .blank _ (blankLine_replicate_space 70000) (insertBlank_self unitLines), by decide,
    FromFile_longBlankLines⟩, ⟨insertBlank_replicate unitLines 16000000, ?_⟩, ?_, by decide,
    nextLine_cons_err intOps _ (by decide)
      (by decide : parseLine intOps "x".toList = (false, [], some ['x']))⟩
  · exact FromFile_overflow intOps _ unitLines (replicate_empty_blank _)
      (by rw [List.length_replicate]; decide)
  · intro F
    exact ⟨insertBlank_replicate unitLines _,
      FromFile_overflow F _ unitLines (replicate_empty_blank _) (by simp)⟩

/-- C9, amended: inserting blank lines (empty or white space only, each one
short enough for the scanner to deliver) changes neither the instance
`FromFile` returns nor whether and which error it returns, as long as no more
blank lines follow one another in the input than nested calls of `nextLine`
fit on the stack; and `nextLine` skips the blank lines in front of the first
line that is not blank: when `parseLine` accepts that line, `nextLine`
returns its values, when the line has a malformed token, `nextLine` returns
the error of that token, and either way the scanner is left right behind
that line. -/
theorem blank_line_tolerance (F : Platform α ε) :
    (∀ lines lines' : List Line, InsertBlank lines lines' →
      blanksWithin F.stackFrames 0 lines' = true →
      FromFile F lines' = FromFile F lines) ∧
    (∀ (blanks : List Line) (line : Line) (rest : List Line),
      (∀ b ∈ blanks, blankLine b = true ∧ deliverable b = true) →
      blanks.length ≤ F.stackFrames → deliverable line = true →
      (∀ vs, parseLine F line = (true, vs, none) →
        nextLine F (blanks ++ line :: rest) = .returns ((true, vs, none), rest)) ∧
      (∀ err, (parseLine F line).2.2 = some err →
        nextLine F (blanks ++ line :: rest)
          = .returns ((false, [], some (.parse err)), rest))) := by
  constructor
  · intro lines lines' h hw
    rw [← FromFile_nonBlank F hw, ← FromFile_nonBlank F (blanksWithin_of_insertBlank h 0 hw),
      h.nonBlank_eq]
  · intro blanks line rest hb hlen hd
    constructor
    · intro vs hp
      rw [nextLine_skip_blanks F blanks _ hb hlen]
      exact nextLineAt_cons_ok F _ rest hd hp
    · intro err hp
      rw [nextLine_skip_blanks F blanks _ hb hlen]
      exact nextLineAt_cons_err F _ rest hd (parseLine_error_shape F hp)

/-- C9 amended, on the sample file with blank lines put in front, inside and
behind, on a scanner that holds two blank lines before the line `3 4`, and
on one that holds them before the line `x`. -/
theorem blank_line_tolerance_witness :
    FromFile intOps ("  ".toList :: "2".toList :: "1".toList :: "\t".toList :: "".toList ::
        "5".toList :: "6".toList :: "0 1".toList :: " 1  0 ".toList :: "0 3".toList ::
        "3 0".toList :: [" ".toList])
      = FromFile intOps ["2".toList, "1".toList, "5".toList, "6".toList, "0 1".toList,
        " 1  0 ".toList, "0 3".toList, "3 0".toList] ∧
    nextLine intOps (["".toList, " \t".toList] ++ "3 4".toList :: ["5".toList])
      = .returns ((true, [3, 4], none), ["5".toList]) ∧
    nextLine intOps (["".toList, " \t".toList] ++ "x".toList :: ["5".toList])
      = .returns ((false, [], some (.parse ['x'])), ["5".toList]) :=
  ⟨(blank_line_tolerance intOps).1 _ _
      (.blank _ (by decide) (.keep _ (.keep _ (.blank _ (by decide) (.blank _ (by decide)
        (.keep _ (.keep _ (.keep _ (.keep _ (.keep _ (.keep _
          (.blank _ (by decide) .done)))))))))))) (by decide),
   ((blank_line_tolerance intOps).2 ["".toList, " \t".toList] "3 4".toList ["5".toList]
      (by decide) (by decide) (by decide)).1 [3, 4] (by decide),
   ((blank_line_tolerance intOps).2 ["".toList, " \t".toList] "x".toList ["5".toList]
      (by decide) (by decide) (by decide)).2 ['x'] (by decide)⟩

/-- C11 fails as stated: the file of declared size 2 that ends after five
value-bearing lines, the last a distance row of three values, is answered with
the dimension error, the one that ends on the line `5 x` with the
`ParseFloat` error, and the file that declares size `10^18` and ends after
its second line makes the loader abort in `make`; none is answered with
`unexpected end of file`. -/
theorem FromFile_truncated_other_error :
    (declaredSize intOps truncatedMismatchLines = some 2 ∧
      valueLines intOps truncatedMismatchLines = 5 ∧
      FromFile intOps truncatedMismatchLines = .error (.distanceSize 2) ∧
      FromFile intOps truncatedMismatchLines ≠ .error .unexpectedEOF) ∧
    (declaredSize intOps truncatedMalformedLines = some 2 ∧
      valueLines intOps truncatedMalformedLines = 2 ∧
      FromFile intOps truncatedMalformedLines = .error (.parse ['x']) ∧
      FromFile intOps truncatedMalformedLines ≠ .error .unexpectedEOF) ∧
    (declaredSize intOps hugeSizeLines = some 1000000000000000000 ∧
      valueLines intOps hugeSizeLines = 2 ∧
      FromFile intOps hugeSizeLines = .panic .makeSliceLen ∧
      FromFile intOps hugeSizeLines ≠ .error .unexpectedEOF) := by
  decide

/-- C11, amended: `FromFile` never returns a partially filled instance:
an instance it returns has the size the first value-bearing line declares and
the input holds at least `2 + 3 * Size` value-bearing lines, so an input that
ends before then gives no instance.  The error is `unexpected end of file`
when moreover the input is within the limits of the platform (the scanner can
deliver every line, its runs of blank lines fit the stack, `make` accepts
the declared size), every token of the input is a valid number and every
matrix row that is present (line `j ≥ size` behind the two header lines)
holds `size` values. -/
theorem FromFile_truncated (F : Platform α ε) (lines : List Line) :
    (∀ data, FromFile F lines = .ok data →
      declaredSize F lines = some data.Size ∧
      2 + 3 * data.Size ≤ (valueLines F lines : Int)) ∧
    (withinLimits F lines = true →
      (∀ n : Int, declaredSize F lines = some n →
        n ≤ (F.maxFloats : Int) ∧ n ≤ (F.maxRows : Int)) →
      (∀ line ∈ lines, ∀ value ∈ tokens line, validFloat F value = true) →
      (∀ n : Int, declaredSize F lines = some n → (valueLines F lines : Int) < 2 + 3 * n) →
      (∀ (n j : Nat) (row : List α), declaredSize F lines = some (n : Int) → n ≤ j →
        (((nonBlank lines).map (parsedValues F)).drop 2)[j]? = some row → row.length = n) →
      FromFile F lines = .error .unexpectedEOF) := by
  constructor
  · intro data h
    have hs : scanFile F lines = (.ok data, (scanFile F lines).2) := by
      rw [← h]
      rfl
    exact scanFile_ok_count F hs
  · intro hlim hmake hvalid hshort hrows
    obtain ⟨hdel, hblank⟩ := (withinLimits_iff F lines).1 hlim
    have hfilter := filter_valueBearing_of_valid F hvalid
    have hgood := good_of_valid F hdel hvalid
    rw [← FromFile_nonBlank F hblank]
    apply scanFile_short F hgood
    intro l0 l1 rest x xs hsc hx
    have hdecl : declaredSize F lines = some (F.toInt x) := by
      simp [declaredSize, hfilter, hsc, hx]
    have hlines : valueLines F lines = rest.length + 2 := by
      simp [valueLines, hfilter, hsc]
    have hlt := hshort _ hdecl
    have hmk := hmake _ hdecl
    rw [hlines] at hlt
    push_cast at hlt
    have hpos : 0 ≤ F.toInt x := by omega
    obtain ⟨n, hn⟩ := Int.eq_ofNat_of_zero_le hpos
    rw [hn] at hmk
    refine ⟨n, hn, by omega, by omega, by rw [hn] at hlt; omega, ?_⟩
    intro j hj line hline
    rw [hn] at hdecl
    have hl : line ∈ lines :=
      (mem_nonBlank (by rw [hsc]; simp [List.getElem?_mem hline])).1
    have := hrows n j (parsedValues F line) hdecl hj (by
      rw [hsc]
      simp [hline])
    rw [values_eq_parsedValues F (hvalid line hl)]
    exact this

/-- C11 amended, on the sample file (eight value-bearing lines for size 2) and
on the file that ends after its first flow row. -/
theorem FromFile_truncated_witness :
    (declaredSize intOps sampleLines = some sampleData.Size ∧
      2 + 3 * sampleData.Size ≤ (valueLines intOps sampleLines : Int)) ∧
    declaredSize intOps truncatedLines = some 2 ∧ valueLines intOps truncatedLines = 7 ∧
    FromFile intOps truncatedLines = .error .unexpectedEOF :=
  ⟨(FromFile_truncated intOps sampleLines).1 sampleData (by decide),
   by decide, by decide,
   (FromFile_truncated intOps truncatedLines).2 (by decide)
     (by
      intro n hn
      have hd : declaredSize intOps truncatedLines = some 2 := by decide
      rw [hd] at hn
      simp only [Option.some.injEq] at hn
      subst hn
      decide)
     (by decide)
     (by
      intro n hn
      have hd : declaredSize intOps truncatedLines = some 2 := by decide
      rw [hd] at hn
      simp only [Option.some.injEq] at hn
      subst hn
      decide)
     (by
      intro n j row hn hj hrow
      have hd : declaredSize intOps truncatedLines = some 2 := by decide
      rw [hd] at hn
      simp only [Option.some.injEq] at hn
      have hn2 : n = 2 := by omega
      subst hn2
      have hV : ((nonBlank truncatedLines).map (parsedValues intOps)).drop 2 =
          [[5], [6], [0, 1], [1, 0], [0, 3]] := by decide
      rw [hV] at hrow
      have hj' : j = 2 ∨ j = 3 ∨ j = 4 ∨ 5 ≤ j := by omega
      rcases hj' with rfl | rfl | rfl | h5
      · simp at hrow; simp [← hrow]
      · simp at hrow; simp [← hrow]
      · simp at hrow; simp [← hrow]
      · rw [List.getElem?_eq_none (by simpa using h5)] at hrow
        simp at hrow)⟩

/-- C12: for a line all of whose tokens are valid floats `parseLine` returns no
error and the parsed values of the tokens, one value for each token and in the
order of the tokens, with `ok = true` exactly when there is a token; and
spaces in front of a line, behind it, or repeated inside it change nothing of
what `parseLine` returns. -/
theorem parseLine_wellFormed (F : Platform α ε) :
    (∀ line : Line, (∀ value ∈ tokens line, validFloat F value = true) →
      (parseLine F line).2.2 = none ∧
      (parseLine F line).2.1 = parsedValues F line ∧
      (parsedValues F line).map some = (tokens line).map (tokenValue F) ∧
      ((parseLine F line).1 = true ↔ tokens line ≠ [])) ∧
    (∀ (line : Line) (j k : Nat),
      parseLine F (List.replicate j ' ' ++ line ++ List.replicate k ' ') = parseLine F line) ∧
    (∀ (a b : Line) (j : Nat),
      parseLine F (a ++ List.replicate (j + 1) ' ' ++ b) = parseLine F (a ++ ' ' :: b)) := by
  refine ⟨?_, ?_, parseLine_repeated_space F⟩
  · intro line hvalid
    have herr := (parseLine_valid_iff F line).2 hvalid
    have hvals : (parseLine F line).2.1 = parsedValues F line := values_eq_parsedValues F hvalid
    have hmap : (parsedValues F line).map some = (tokens line).map (tokenValue F) := by
      apply filterMap_map_some
      intro value hv
      have := hvalid value hv
      unfold validFloat at this
      unfold tokenValue
      cases hp : F.ParseFloat (TrimSpace value) with
      | error err => rw [hp] at this; simp at this
      | ok number => exact ⟨number, rfl⟩
    refine ⟨herr, hvals, hmap, ?_⟩
    have hlen : (parsedValues F line).length = (tokens line).length := by
      have := congrArg List.length hmap
      simpa using this
    rcases parseLine_shape F line with ⟨x, xs, h⟩ | ⟨err, h⟩ | h
    · rw [h] at hvals
      simp only at hvals
      rw [h]
      simp only [true_iff]
      intro h0
      rw [h0, ← hvals] at hlen
      simp at hlen
    · rw [h] at herr
      simp at herr
    · rw [h] at hvals
      simp only at hvals
      rw [h]
      simp only [Bool.false_eq_true, false_iff, not_not]
      rw [← hvals] at hlen
      exact List.length_eq_zero.1 hlen.symm
  · intro line j k
    exact parseLine_pad F _ line _ (blankLine_replicate_space j) (blankLine_replicate_space k)

/-- C12, on the line ` 1  0 ` and on the line `3 4` with spaces added. -/
theorem parseLine_wellFormed_witness :
    ((parseLine intOps " 1  0 ".toList).2.2 = none ∧
      (parseLine intOps " 1  0 ".toList).2.1 = [1, 0] ∧
      tokens " 1  0 ".toList = ["1".toList, "0".toList] ∧
      (parseLine intOps " 1  0 ".toList).1 = true) ∧
    parseLine intOps "   3 4  ".toList = parseLine intOps "3 4".toList ∧
    parseLine intOps "3    4".toList = parseLine intOps "3 4".toList :=
  ⟨⟨((parseLine_wellFormed intOps).1 " 1  0 ".toList (by decide)).1, by decide, by decide,
     (((parseLine_wellFormed intOps).1 " 1  0 ".toList (by decide)).2.2.2).2 (by decide)⟩,
   (parseLine_wellFormed intOps).2.1 "3 4".toList 3 2,
   (parseLine_wellFormed intOps).2.2 "3".toList "4".toList 3⟩

/-- C15 fails as stated: in the file `unitLines`, which loads, the cost line
`5` replaced by the line `5 8` followed by seventy thousand spaces, a line
with the same first value and a further valid number, makes the loader answer
`unexpected end of file`: the scanner cannot deliver the line. -/
theorem FromFile_long_replacement :
    FromFile intOps (["1".toList, "1".toList] ++ "5".toList :: ["0".toList, "0".toList])
      = .ok unitData ∧
    parseLine intOps "5".toList = (true, [5], none) ∧
    parseLine intOps ("5 8".toList ++ List.replicate 70000 ' ') = (true, [5, 8], none) ∧
    FromFile intOps (["1".toList, "1".toList] ++
        ("5 8".toList ++ List.replicate 70000 ' ') :: ["0".toList, "0".toList])
      = .error .unexpectedEOF := by
  refine ⟨by decide, by decide, ?_, FromFile_longCostLines⟩
  have := parseLine_pad intOps [] "5 8".toList (List.replicate 70000 ' ') (by decide)
    (blankLine_replicate_space 70000)
  rw [List.nil_append] at this
  rw [this]
  decide

/-- C15, amended: `FromFile` reads the first value only of the size line, of
the scale-factor line and of each installation-cost line: when an input loads
successfully and one of those lines (a line with fewer than `2 + Size`
value-bearing lines in front of it) is replaced by a line the scanner can
deliver, with the same first value followed by other valid numbers, the
same instance is returned; and the lines behind the last flow row, those the
run leaves with the scanner, can be replaced by any others, malformed ones
too. -/
theorem FromFile_reads_first_value (F : Platform α ε) :
    (∀ (pre post : List Line) (l l' : Line) (x : α) (xs xs' : List α) (data : NetworkData α),
      parseLine F l = (true, x :: xs, none) → parseLine F l' = (true, x :: xs', none) →
      deliverable l' = true →
      FromFile F (pre ++ l :: post) = .ok data →
      (valueLines F pre : Int) < 2 + data.Size →
      FromFile F (pre ++ l' :: post) = .ok data) ∧
    (∀ (pre rest rest' : List Line) (data : NetworkData α),
      scanFile F (pre ++ rest) = (.ok data, rest) →
      scanFile F (pre ++ rest') = (.ok data, rest')) := by
  constructor
  · intro pre post l l' x xs xs' data hl hl' hd' h hpos
    have hs : scanFile F (pre ++ l :: post) = (.ok data, (scanFile F (pre ++ l :: post)).2) := by
      rw [← h]
      rfl
    obtain ⟨sc1, sc2, sc3, sc4, h1, h2, hsize, h3, h4, h5⟩ := scanFile_ok_inv F hs
    have hcount : valueLines F pre < data.Size.toNat + 1 + 1 := by
      have hnat : ((data.Size.toNat : Nat) : Int) = data.Size := Int.toNat_of_nonneg hsize.1
      omega
    have hr0 : ReplacedAhead F l l' post (data.Size.toNat + 1 + 1)
        (pre ++ l :: post) (pre ++ l' :: post) := Or.inr ⟨pre, rfl, rfl, hcount⟩
    obtain ⟨sc1', h1', hr1⟩ := readSize_replaced F hl hd' hl' hr0 h1
    obtain ⟨sc2', h2', hr2⟩ := readScaleFactor_replaced F hl hd' hl' hr1 h2
    have h3' := costLoop_replaced F post hl hd' hl' _ _ _ _ _ _ _ hr2 h3
    have := scanFile_of_stages F h1' h2' hsize h3' h4 h5
    rw [FromFile_eq, this]
  · intro pre rest rest' data h
    obtain ⟨p, l0, l1, c, d, f, x, xs, ys, hp, -, -, -, -, -, -, -, -, -, -, hloc⟩ :=
      scanFile_ok_local F h
    have : p = pre := (List.append_cancel_right hp).symm
    subst this
    exact hloc rest'

/-- C15 amended, on the sample file: with more numbers on its second cost line,
and with malformed lines behind the last flow row. -/
theorem FromFile_reads_first_value_witness :
    FromFile intOps (["2".toList, "1".toList, "".toList, "5".toList] ++ "6 8 9".toList ::
      ["0 1".toList, " 1  0 ".toList, "0 3".toList, "3 0".toList]) = .ok sampleData ∧
    scanFile intOps (sampleLines ++ ["7 x".toList, "y".toList])
      = (.ok sampleData, ["7 x".toList, "y".toList]) :=
  ⟨(FromFile_reads_first_value intOps).1 ["2".toList, "1".toList, "".toList, "5".toList]
      ["0 1".toList, " 1  0 ".toList, "0 3".toList, "3 0".toList] "6".toList "6 8 9".toList
      6 [] [8, 9] sampleData (by decide) (by decide) (by decide) (by decide) (by decide),
   (FromFile_reads_first_value intOps).2 sampleLines [] ["7 x".toList, "y".toList] sampleData
      (by decide)⟩

/-- C16 fails as stated: `nextLine` does not return on a scanner that holds
sixteen million empty lines, nor, on any platform, on one that holds one more
empty line than nested calls of `nextLine` fit on the stack; the recursion,
one call for each blank line, overflows the stack. -/
theorem nextLine_overflows :
    nextLine intOps (List.replicate 16000000 []) = .stackOverflow ∧
    ∀ F : Platform Int (List Char),
      nextLine F (List.replicate (F.stackFrames + 1) []) = .stackOverflow := by
  constructor
  · have := nextLineAt_overflow intOps (List.replicate 16000000 []) intOps.stackFrames []
      (replicate_empty_blank _) (by rw [List.length_replicate]; decide)
    rwa [List.append_nil] at this
  · intro F
    have := nextLineAt_overflow F (List.replicate (F.stackFrames + 1) []) F.stackFrames []
      (replicate_empty_blank _) (by simp)
    rwa [List.append_nil] at this

/-- C16, amended: a call of `nextLine` from `FromFile` either returns
`ok = true` with a non-empty list of values and no error, or returns
`ok = false` with an error and no values, or overflows the stack, which it
does exactly when more deliverable blank lines are in front of the scanner
than nested calls fit on the stack; it never returns `ok = false` without an
error, so `FromFile` never takes the branch that leaves a field unset, and
its `line[0]` accesses are all in bounds: no run ends in an
index-out-of-range panic. -/
theorem nextLine_total (F : Platform α ε) :
    (∀ sc : List Line,
      (∃ x xs sc', nextLine F sc = .returns ((true, x :: xs, none), sc')) ∨
      (∃ err sc', nextLine F sc = .returns ((false, [], some err), sc')) ∨
      nextLine F sc = .stackOverflow) ∧
    (∀ (sc sc' : List Line) (values : List α),
      nextLine F sc ≠ .returns ((false, values, none), sc')) ∧
    (∀ sc : List Line, nextLine F sc = .stackOverflow ↔
      ∃ blanks rest, sc = blanks ++ rest ∧ blanks.length = F.stackFrames + 1 ∧
        ∀ b ∈ blanks, blankLine b = true ∧ deliverable b = true) ∧
    (∀ lines : List Line, FromFile F lines ≠ .panic .indexOutOfRange) := by
  refine ⟨nextLine_shape F, ?_, ?_, ?_⟩
  · intro sc sc' values h
    rcases nextLine_shape F sc with ⟨x, xs, sc1, hn⟩ | ⟨err, sc1, hn⟩ | hn
    · rw [hn] at h
      simp at h
    · rw [hn] at h
      simp at h
    · rw [hn] at h
      simp at h
  · intro sc
    constructor
    · exact nextLineAt_overflow_inv F sc F.stackFrames
    · rintro ⟨blanks, rest, rfl, hlen, hall⟩
      exact nextLineAt_overflow F blanks F.stackFrames rest hall (by omega)
  · intro lines h
    have := scanFile_panic F lines .indexOutOfRange h
    simp at this

end

end network

/-! # Properties of the solver front end -/

namespace solver

open network (NetworkData)

section
variable {S α : Type}

theorem Print_some (H : Heuristic S α) (A : Float64Arith α) (s : Solver S α) (best : S)
    (h : s.BestSolution = some best) :
    Print H A s = .printed ([.rule, .time (s.EndTime - s.StartTime),
        .fo (H.GetCost best s.Data), .hubs best] ++
      (match s.TargetCost with
        | some target =>
          [.gap (A.mul (A.div (A.sub (H.GetCost best s.Data) target) target) A.hundred)]
        | none => []) ++
      [.rule]) := by
  simp [Print, h]

/-- The trace of `Solve`, for every solver. -/
theorem Solve_trace (H : Heuristic S α) (A : Float64Arith α) (s : Solver S α)
    (now0 now1 : Int) :
    (Solve H A s now0 now1).trace =
      [.logInfo "Starting solver...", .newSolution s.Data,
        .vns s.Data (some (H.NewSolution s.Data)) solveNeighborhoods,
        .print (Print H A (Solve H A s now0 now1).solver)] ∧
    (Solve H A s now0 now1).solver.BestSolution =
      some (H.VNS s.Data (H.NewSolution s.Data) solveNeighborhoods) ∧
    (Solve H A s now0 now1).ret = .returned none := by
  simp [Solve, initializeSolution, Print]

theorem New_eq_applyOptions_aux :
    ∀ (options : List (OptFunc S α)) (solver : Solver S α),
      options.foldl (fun solver opt => opt solver) solver = applyOptions solver options := by
  intro options
  induction options with
  | nil => intro solver; rfl
  | cons opt options ih => intro solver; exact ih (opt solver)

theorem New_append (options : List (OptFunc S α)) (opt : OptFunc S α) :
    New (options ++ [opt]) = opt (New options) := by
  simp [New, List.foldl_append]

/-! ## The solver's contract -/

/-- C6 fails on the code: for a solver configured with an instance and an
initial solution `initial`, `Solve` still calls `heuristic.NewSolution`, and
starts `heuristic.VNS` from the solution that call constructs, whatever
`initial` is; the solution it ends with does not depend on `initial`. -/
theorem Solve_discards_initial_solution (H : Heuristic S α) (A : Float64Arith α)
    (data : Option (NetworkData α)) (initial : Option S) (now0 now1 : Int) :
    (New [WithNetworkData data, WithInitialSolution initial]).BestSolution = initial ∧
    (Solve H A (New [WithNetworkData data, WithInitialSolution initial]) now0 now1).trace =
      [.logInfo "Starting solver...", .newSolution data,
        .vns data (some (H.NewSolution data)) solveNeighborhoods,
        .print (Print H A
          (Solve H A (New [WithNetworkData data, WithInitialSolution initial]) now0 now1).solver)] ∧
    (Solve H A (New [WithNetworkData data, WithInitialSolution initial]) now0 now1).solver.BestSolution =
      some (H.VNS data (H.NewSolution data) solveNeighborhoods) := by
  refine ⟨rfl, ?_, ?_⟩
  · exact (Solve_trace H A _ now0 now1).1
  · exact (Solve_trace H A _ now0 now1).2.1

/-- C7 fails as stated: on the instance with no node (`Size = 0`), whatever the
functions of package `heuristic` do, the first thing `Solve` does after its
log message is to call `heuristic.NewSolution` on that instance, and `Solve`
does not return an error. -/
theorem Solve_accepts_empty_instance :
    emptyInstance.Size ≤ 0 ∧
    ∀ (H : Heuristic (List Nat) Int) (A : Float64Arith Int) (now0 now1 : Int),
      (Solve H A (New [WithNetworkData (some emptyInstance)]) now0 now1).trace.take 2 =
        [.logInfo "Starting solver...", .newSolution (some emptyInstance)] ∧
      ∀ e : String,
        (Solve H A (New [WithNetworkData (some emptyInstance)]) now0 now1).ret
          ≠ .returned (some e) := by
  refine ⟨by decide, ?_⟩
  intro H A now0 now1
  obtain ⟨ht, -, hr⟩ := Solve_trace H A (New [WithNetworkData (some emptyInstance)]) now0 now1
  rw [ht, hr]
  exact ⟨rfl, fun e h => by simp at h⟩

/-- C7, amended: `Solve` performs no size validation: for every solver,
whatever the size of its instance, the first thing `Solve` does after its log
message is to call `heuristic.NewSolution` on the instance, and `Solve` never
returns an error. -/
theorem Solve_no_size_validation (H : Heuristic S α) (A : Float64Arith α) (s : Solver S α)
    (now0 now1 : Int) :
    (Solve H A s now0 now1).trace.take 2 =
      [.logInfo "Starting solver...", .newSolution s.Data] ∧
    ∀ e : String, (Solve H A s now0 now1).ret ≠ .returned (some e) := by
  obtain ⟨ht, -, hr⟩ := Solve_trace H A s now0 now1
  rw [ht, hr]
  exact ⟨rfl, fun e h => by simp at h⟩

/-- C8 fails on the code: for a solver configured with an instance and
`MaxAsyncTasks = n`, `Solve` performs one construction and one VNS run,
whatever `n` is; what it does is what it does for the solver configured with
the instance alone. -/
theorem Solve_ignores_MaxAsyncTasks (H : Heuristic S α) (A : Float64Arith α)
    (data : Option (NetworkData α)) (n : Int) (now0 now1 : Int) :
    (New [WithNetworkData data, WithMaxAsyncTasks n] : Solver S α).MaxAsyncTasks = n ∧
    constructionRuns
      (Solve H A (New [WithNetworkData data, WithMaxAsyncTasks n]) now0 now1).trace = 1 ∧
    vnsRuns (Solve H A (New [WithNetworkData data, WithMaxAsyncTasks n]) now0 now1).trace = 1 ∧
    (Solve H A (New [WithNetworkData data, WithMaxAsyncTasks n]) now0 now1).trace =
      (Solve H A (New [WithNetworkData data]) now0 now1).trace ∧
    (Solve H A (New [WithNetworkData data, WithMaxAsyncTasks n]) now0 now1).solver.BestSolution =
      (Solve H A (New [WithNetworkData data]) now0 now1).solver.BestSolution := by
  refine ⟨rfl, ?_, ?_, ?_, ?_⟩
  · simp [Solve, constructionRuns, List.countP_cons]
  · simp [Solve, vnsRuns, List.countP_cons]
  · simp [Solve, initializeSolution, Print, New, WithNetworkData, WithMaxAsyncTasks]
  · simp [Solve, initializeSolution, New, WithNetworkData, WithMaxAsyncTasks]

/-- C10: the solver built by `New(WithTarget(v))` has the target cost `v` when
`v > 0` and no target cost otherwise; `Print`, on a solver that holds a
solution, writes a `GAP` line exactly when the target cost is present, the
value of that line being `(cost - target) / target * 100`; so the lines that
`Solve` prints for the solver built by `New(WithTarget(v))` hold a `GAP` line
exactly when `v > 0`. -/
theorem target_cost_optional (H : Heuristic S α) (A : Float64Arith α) :
    (∀ v : α, ((New [WithTarget A v] : Solver S α).TargetCost = some v ↔ A.gt v A.zero = true) ∧
      (A.gt v A.zero = false → (New [WithTarget A v] : Solver S α).TargetCost = none)) ∧
    (∀ (s : Solver S α) (best : S), s.BestSolution = some best →
      ∃ lines, Print H A s = .printed lines ∧
        ∀ g, PrintLine.gap g ∈ lines ↔
          ∃ target, s.TargetCost = some target ∧
            g = A.mul (A.div (A.sub (H.GetCost best s.Data) target) target) A.hundred) ∧
    (∀ (v : α) (now0 now1 : Int),
      ∃ lines, Print H A (Solve H A (New [WithTarget A v]) now0 now1).solver = .printed lines ∧
        ((∃ g, PrintLine.gap g ∈ lines) ↔ A.gt v A.zero = true)) := by
  refine ⟨?_, ?_, ?_⟩
  · intro v
    cases hgt : A.gt v A.zero <;> simp [New, WithTarget, hgt]
  · intro s best hbest
    refine ⟨_, Print_some H A s best hbest, ?_⟩
    intro g
    cases ht : s.TargetCost with
    | none => simp
    | some target =>
      simp only [List.mem_append, List.mem_cons, List.mem_singleton, PrintLine.gap.injEq,
        Option.some.injEq, exists_eq_left', reduceCtorEq, List.not_mem_nil, or_false, false_or]
  · intro v now0 now1
    cases hgt : A.gt v A.zero <;> simp [Solve, initializeSolution, Print, New, WithTarget, hgt]

/-- C10, on a solver with target cost 40 that holds the all-hubs solution of
the sample instance (cost 11): the gap line is `(11 - 40) / 40 * 100`. -/
theorem target_cost_optional_witness :
    sampleSolver.BestSolution = some [0, 1] ∧ sampleSolver.TargetCost = some 40 ∧
    ∃ lines, Print listHeuristic intArith sampleSolver = .printed lines ∧
      ∀ g, PrintLine.gap g ∈ lines ↔
        ∃ target, sampleSolver.TargetCost = some target ∧
          g = intArith.mul (intArith.div (intArith.sub
            (listHeuristic.GetCost [0, 1] sampleSolver.Data) target) target)
              intArith.hundred :=
  ⟨by decide, by decide,
   (target_cost_optional listHeuristic intArith).2.1 sampleSolver [0, 1] (by decide)⟩

/-- C13: `Solve` first calls `heuristic.NewSolution` on the instance, then
calls `heuristic.VNS` once, on the instance and the solution just constructed,
with the four neighborhoods Shift, RemoveHub, AddHub, SwapFunction in this
order; after that it prints and returns a `nil` error. -/
theorem Solve_construct_then_search (H : Heuristic S α) (A : Float64Arith α) (s : Solver S α)
    (now0 now1 : Int) :
    (Solve H A s now0 now1).trace =
      [.logInfo "Starting solver...", .newSolution s.Data,
        .vns s.Data (some (H.NewSolution s.Data))
          [.ShiftPerturbation, .RemoveHubPerturbation, .AddHubPerturbation,
            .SwapFunctionPerturbation],
        .print (Print H A (Solve H A s now0 now1).solver)] ∧
    constructionRuns (Solve H A s now0 now1).trace = 1 ∧
    vnsRuns (Solve H A s now0 now1).trace = 1 ∧
    (Solve H A s now0 now1).ret = .returned none := by
  obtain ⟨ht, -, hr⟩ := Solve_trace H A s now0 now1
  refine ⟨ht, ?_, ?_, hr⟩
  · rw [ht]
    simp [constructionRuns, List.countP_cons]
  · rw [ht]
    simp [vnsRuns, List.countP_cons]

/-- C14: `New(options)` is the default solver (one worker, no instance, no
initial solution, no target cost) with the options applied from left to
right; with no options `MaxAsyncTasks = 1`; each of `WithNetworkData`,
`WithMaxAsyncTasks` and `WithInitialSolution` sets its own field and leaves
the other fields as they are; and the value such an option leaves is the one
of its last use, whatever was given before. -/
theorem New_applies_options :
    (∀ options : List (OptFunc S α), New options = applyOptions defaultSolver options) ∧
    (New [] : Solver S α).MaxAsyncTasks = 1 ∧
    (New [] : Solver S α).Data = none ∧
    (New [] : Solver S α).BestSolution = none ∧
    (New [] : Solver S α).TargetCost = none ∧
    (∀ (s : Solver S α) (data : Option (NetworkData α)),
      (WithNetworkData data s).Data = data ∧
      (WithNetworkData data s).MaxAsyncTasks = s.MaxAsyncTasks ∧
      (WithNetworkData data s).BestSolution = s.BestSolution ∧
      (WithNetworkData data s).TargetCost = s.TargetCost ∧
      (WithNetworkData data s).StartTime = s.StartTime ∧
      (WithNetworkData data s).EndTime = s.EndTime) ∧
    (∀ (s : Solver S α) (limit : Int),
      (WithMaxAsyncTasks limit s).MaxAsyncTasks = limit ∧
      (WithMaxAsyncTasks limit s).Data = s.Data ∧
      (WithMaxAsyncTasks limit s).BestSolution = s.BestSolution ∧
      (WithMaxAsyncTasks limit s).TargetCost = s.TargetCost ∧
      (WithMaxAsyncTasks limit s).StartTime = s.StartTime ∧
      (WithMaxAsyncTasks limit s).EndTime = s.EndTime) ∧
    (∀ (s : Solver S α) (solution : Option S),
      (WithInitialSolution solution s).BestSolution = solution ∧
      (WithInitialSolution solution s).MaxAsyncTasks = s.MaxAsyncTasks ∧
      (WithInitialSolution solution s).Data = s.Data ∧
      (WithInitialSolution solution s).TargetCost = s.TargetCost ∧
      (WithInitialSolution solution s).StartTime = s.StartTime ∧
      (WithInitialSolution solution s).EndTime = s.EndTime) ∧
    (∀ (pre mid : List (OptFunc S α)) (a b : Option (NetworkData α)),
      (New (pre ++ WithNetworkData a :: mid ++ [WithNetworkData b])).Data = b) ∧
    (∀ (pre mid : List (OptFunc S α)) (a b : Int),
      (New (pre ++ WithMaxAsyncTasks a :: mid ++ [WithMaxAsyncTasks b])).MaxAsyncTasks = b) ∧
    (∀ (pre mid : List (OptFunc S α)) (a b : Option S),
      (New (pre ++ WithInitialSolution a :: mid ++ [WithInitialSolution b])).BestSolution = b) := by
  refine ⟨?_, rfl, rfl, rfl, rfl, fun _ _ => ⟨rfl, rfl, rfl, rfl, rfl, rfl⟩,
    fun _ _ => ⟨rfl, rfl, rfl, rfl, rfl, rfl⟩, fun _ _ => ⟨rfl, rfl, rfl, rfl, rfl, rfl⟩, ?_, ?_, ?_⟩
  · intro options
    exact New_eq_applyOptions_aux options _
  · intro pre mid a b
    rw [New_append]
    rfl
  · intro pre mid a b
    rw [New_append]
    rfl
  · intro pre mid a b
    rw [New_append]
    rfl

end

end solver
